import Mathlib

/-!
Verification development for the typelox repository, a tree-walking Lox
interpreter written in TypeScript.  Every definition below is a shallow
embedding of a function or class of the repository sources
(src/token.ts, src/lexer.ts, src/parser.ts, src/statement.ts,
src/expression.ts, src/resolver.ts, src/environment.ts,
src/interpreter.ts, src/lox.ts, main.ts); file and method names are kept
wherever Lean allows.

Modelling conventions, fixed once here:

* Lox numbers are IEEE-754 doubles in the host.  They are modelled as
  exact rationals (`Rat`); no theorem below depends on rounding,
  overflow, NaN or signed zero.
* JavaScript `undefined` (the result of a `Map.get` miss or of reading a
  missing field) is modelled by the explicit runtime value
  `Value.undef`; `null` is `Value.nil`.
* A thrown JS exception that is not one of the interpreter's own classes
  (`RuntimeError`, `Return`) - e.g. the `TypeError` raised by calling a
  missing visitor method or by dereferencing `undefined` - is modelled
  by a distinct `crash` outcome, kept separate from `RuntimeError`.
* Mutable JS object graphs (environments, instances) are modelled by an
  explicit heap: a list of frames / instance records addressed by
  allocation index.  Object identity of AST nodes (the key of the
  resolver's side table, a JS `Map<Expr, number>`) is modelled by a
  numeric id stored on the node kinds the resolver can record
  (`VarExpr`, `AssignExpr`, `ThisExpr`).
* Recursions that are not structural in the source (the scanner's
  re-entrant `next_token`, the recursive-descent parser, the evaluator)
  take an explicit fuel argument; exhausting fuel yields a distinguished
  outcome that no theorem identifies with real behaviour.
* String literals in error messages follow the source except that
  apostrophes are dropped (`Can't` becomes `Cant`).
-/

set_option linter.unusedVariables false

namespace Typelox

/-- TokenType from src/token.ts: the closed token-kind enumeration. -/
inductive TokenType where
  | LEFT_PAREN | RIGHT_PAREN | LEFT_BRACE | RIGHT_BRACE
  | COMMA | DOT | MINUS | PLUS | SEMICOLON | SLASH | STAR
  | BANG | NOT_EQUAL | EQUAL | DOUBLE_EQUAL
  | GREATER | GREATER_EQUAL | LESS | LESS_EQUAL
  | IDENTIFIER | STRING | NUMBER
  | AND | CLASS | ELSE | FALSE | FUN | FOR | IF | NIL | OR
  | PRINT | RETURN | SUPER | THIS | TRUE | VAR | WHILE
  | EOF
  deriving DecidableEq, Repr

/-- The reverse enum mapping `TokenType[t]` used by Token.toString. -/
def typeName : TokenType → String
  | .LEFT_PAREN => "LEFT_PAREN" | .RIGHT_PAREN => "RIGHT_PAREN"
  | .LEFT_BRACE => "LEFT_BRACE" | .RIGHT_BRACE => "RIGHT_BRACE"
  | .COMMA => "COMMA" | .DOT => "DOT" | .MINUS => "MINUS" | .PLUS => "PLUS"
  | .SEMICOLON => "SEMICOLON" | .SLASH => "SLASH" | .STAR => "STAR"
  | .BANG => "BANG" | .NOT_EQUAL => "NOT_EQUAL"
  | .EQUAL => "EQUAL" | .DOUBLE_EQUAL => "DOUBLE_EQUAL"
  | .GREATER => "GREATER" | .GREATER_EQUAL => "GREATER_EQUAL"
  | .LESS => "LESS" | .LESS_EQUAL => "LESS_EQUAL"
  | .IDENTIFIER => "IDENTIFIER" | .STRING => "STRING" | .NUMBER => "NUMBER"
  | .AND => "AND" | .CLASS => "CLASS" | .ELSE => "ELSE" | .FALSE => "FALSE"
  | .FUN => "FUN" | .FOR => "FOR" | .IF => "IF" | .NIL => "NIL" | .OR => "OR"
  | .PRINT => "PRINT" | .RETURN => "RETURN" | .SUPER => "SUPER"
  | .THIS => "THIS" | .TRUE => "TRUE" | .VAR => "VAR" | .WHILE => "WHILE"
  | .EOF => "EOF"

/-- The `value: any` payload of a token or of a LiteralExpr: `null`, a
boolean (literal expressions only), a number, or a string. -/
inductive LitV where
  | null
  | boolean (b : Bool)
  | num (q : Rat)
  | str (s : String)
  deriving DecidableEq, Repr

/-- Token from src/token.ts: `(type, lexeme, value, line)`. -/
structure Token where
  type : TokenType
  lexeme : String
  value : LitV
  line : Nat
  deriving DecidableEq, Repr

/-- Token.toString: the template literal
`LINE: TYPENAME LEXEME` (used when a Token is interpolated into a
message string, as Resolver.visitVarExpr does). -/
def Token.toString (t : Token) : String :=
  Nat.repr t.line ++ ": " ++ typeName t.type ++ " " ++ t.lexeme

/-- Expression AST from src/expression.ts.  The classes BinaryExpr,
GroupingExpr, LiteralExpr, LogicalExpr, UnaryExpr, VarExpr, AssignExpr,
CallExpr, GetExpr, SetExpr, ThisExpr become constructors.  There is no
SuperExpr class in src/expression.ts.  `nid` models JS object identity
for the node kinds the resolver side table can key on. -/
inductive Expr where
  | binary (left : Expr) (operator : Token) (right : Expr)
  | grouping (expression : Expr)
  | literal (value : LitV)
  | logical (left : Expr) (operator : Token) (right : Expr)
  | unary (operator : Token) (right : Expr)
  | varE (name : Token) (nid : Nat)
  | assign (name : Token) (value : Expr) (nid : Nat)
  | call (callee : Expr) (paren : Token) (args : List Expr)
  | getE (object : Expr) (name : Token)
  | setE (object : Expr) (name : Token) (value : Expr)
  | thisE (keyword : Token) (nid : Nat)

mutual
/-- Statement AST from src/statement.ts: ExprStmt, PrintStmt, VarStmt,
BlockStmt, IfStmt, WhileStmt, FunctionStmt, ReturnStmt, ClassStmt.
ClassStmt carries `(name, methods)` only - it has no superclass field. -/
inductive Stmt where
  | expr (e : Expr)
  | print (e : Expr)
  | varD (name : Token) (initializer : Option Expr)
  | block (statements : List Stmt)
  | ifS (condition : Expr) (then_branch : Stmt) (else_branch : Option Stmt)
  | whileS (condition : Expr) (body : Stmt)
  | function (f : FunctionStmt)
  | ret (keyword : Token) (value : Option Expr)
  | classS (name : Token) (methods : List FunctionStmt)

/-- FunctionStmt from src/statement.ts: `(name, params, body)`. -/
inductive FunctionStmt where
  | mk (name : Token) (params : List Token) (body : List Stmt)
end

def FunctionStmt.name : FunctionStmt → Token
  | .mk n _ _ => n

def FunctionStmt.params : FunctionStmt → List Token
  | .mk _ p _ => p

def FunctionStmt.body : FunctionStmt → List Stmt
  | .mk _ _ b => b

/-- LoxFunction from src/interpreter.ts: `(func, closure, is_initializer)`.
The closure is a heap reference to an environment frame. -/
structure LoxFunctionV where
  func : FunctionStmt
  closure : Nat
  is_initializer : Bool

/-- LoxClass from src/interpreter.ts: `(name, superclass, methods)`. -/
inductive LoxClassV where
  | mk (name : String) (superclass : Option LoxClassV)
      (methods : List (String × LoxFunctionV))

def LoxClassV.name : LoxClassV → String
  | .mk n _ _ => n

def LoxClassV.superclass : LoxClassV → Option LoxClassV
  | .mk _ s _ => s

def LoxClassV.methods : LoxClassV → List (String × LoxFunctionV)
  | .mk _ _ m => m

/-- Runtime values: `null`, booleans, numbers, strings, the `clock`
native (GlobalClock), LoxFunction, LoxClass, LoxInstance (a heap
reference), and JS `undefined` (see the conventions above). -/
inductive Value where
  | nil
  | boolean (b : Bool)
  | num (q : Rat)
  | str (s : String)
  | clock
  | func (f : LoxFunctionV)
  | klass (c : LoxClassV)
  | inst (iid : Nat)
  | undef

/-- One line of process stdout: either `console.log(value)` of a raw
runtime value (visitPrintStmt) or `console.log` of a formatted string
(Lox.error / Lox.runtime_error). -/
inductive ConsoleEntry where
  | val (v : Value)
  | text (s : String)

/-- LoxInstance from src/interpreter.ts: `(klass, fields)`; lives in the
instance heap and is referenced by index. -/
structure InstRec where
  klass : LoxClassV
  fields : List (String × Value)

/-- Environment from src/environment.ts: a `values` map plus an optional
`enclosing` heap reference. -/
structure Frame where
  vars : List (String × Value)
  parent : Option Nat

/-- The mutable interpreter state: the environment heap (frame 0 is
`globals`), the instance heap, the current environment reference
(`this.env`), the resolution side table (`this.locals`, keyed by node
id), stdout so far, the `Lox.had_runtime_error` flag, the value
`Date.now()` would return (the host clock is abstracted to a constant),
and a ghost counter `unbound_reads` that counts `values.get` misses
inside `get_at` - the reads for which the JS code silently returns
`undefined`.  The counter affects no control flow. -/
structure RState where
  frames : List Frame
  insts : List InstRec
  envRef : Nat
  locals : List (Nat × Nat)
  console : List ConsoleEntry
  had_runtime_error : Bool
  clockNow : Rat
  unbound_reads : Nat

/-- A non-normal way out of a piece of evaluation: the Return unwind, a
RuntimeError `(token, message)`, a host-level exception (TypeError and
friends), or fuel exhaustion (a model artifact). -/
inductive Halt where
  | ret (v : Value)
  | err (tok : Token) (msg : String)
  | crash (msg : String)
  | timeout

/-- Result of evaluating/executing: a value or a `Halt`. -/
inductive Res (α : Type) where
  | ok (a : α)
  | halt (h : Halt)

/-- `Map.get` on an insertion-ordered string map. -/
def mapGet (m : List (String × Value)) (k : String) : Option Value :=
  match m with
  | [] => none
  | (k', v) :: t => if k' = k then some v else mapGet t k

/-- `Map.set` on an insertion-ordered string map: replace in place,
else append. -/
def mapSet (m : List (String × Value)) (k : String) (v : Value) :
    List (String × Value) :=
  match m with
  | [] => [(k, v)]
  | (k', v') :: t => if k' = k then (k, v) :: t else (k', v') :: mapSet t k v

/-- `Map.has` on an insertion-ordered string map. -/
def mapHas (m : List (String × Value)) (k : String) : Bool :=
  match m with
  | [] => false
  | (k', _) :: t => if k' = k then true else mapHas t k

/-- Lox.error from src/lox.ts: `console.log` of the template literal
`Error: MESSAGE`.  The `line` argument is accepted but does not appear
in the output, exactly as in the source. -/
def loxErrorEntry (line : Nat) (message : String) : ConsoleEntry :=
  .text ("Error: " ++ message)

/-- The lexer cursor from src/lexer.ts - `(code, start, current, line)`
- together with stdout, to which `Lox.error` appends. -/
structure LexSt where
  code : List Char
  start : Nat
  current : Nat
  line : Nat
  console : List ConsoleEntry

/-- JS `String.prototype.slice(a, b)` on the character list (indices
clamp to the string bounds). -/
def sliceChars (l : List Char) (a b : Nat) : List Char :=
  (l.take b).drop a

def LexSt.has_more (st : LexSt) : Bool :=
  st.current < st.code.length

def LexSt.peek_char (st : LexSt) : Option Char :=
  st.code[st.current]?

def LexSt.peek_next_char (st : LexSt) : Option Char :=
  st.code[st.current + 1]?

/-- Lexer.next_char: returns the character under the cursor (or none at
the end of input) and advances the cursor unconditionally. -/
def LexSt.next_char (st : LexSt) : Option Char × LexSt :=
  (st.peek_char, { st with current := st.current + 1 })

/-- Lexer.check_next. -/
def LexSt.check_next (expected : Char) (st : LexSt) : Bool × LexSt :=
  if st.has_more then
    if st.peek_char = some expected then
      (true, { st with current := st.current + 1 })
    else (false, st)
  else (false, st)

/-- Lexer.make_token: lexeme is `code.slice(start, current)`. -/
def LexSt.make_token (tt : TokenType) (v : LitV) (st : LexSt) : Token :=
  ⟨tt, String.mk (sliceChars st.code st.start st.current), v, st.line⟩

def is_digit : Option Char → Bool
  | none => false
  | some c => '0' ≤ c && c ≤ '9'

def is_identifier : Option Char → Bool
  | none => false
  | some c => ('a' ≤ c && c ≤ 'z') || ('A' ≤ c && c ≤ 'Z') || c = '_'

/-- The keyword table of src/lexer.ts. -/
def keywords : List (String × TokenType) :=
  [("and", .AND), ("class", .CLASS), ("else", .ELSE), ("false", .FALSE),
   ("for", .FOR), ("fun", .FUN), ("if", .IF), ("nil", .NIL), ("or", .OR),
   ("print", .PRINT), ("return", .RETURN), ("super", .SUPER),
   ("this", .THIS), ("true", .TRUE), ("var", .VAR), ("while", .WHILE)]

/-- `value in keywords ? keywords[value] : IDENTIFIER`. -/
def keywordType (s : String) : TokenType :=
  (keywords.lookup s).getD .IDENTIFIER

/-- JS `Number()` on a scanned numeric lexeme, modelled as an exact
rational: integer part, then the digits after the first dot.  Lexemes
with a second dot (reachable through the scanner's re-entrant number
scanning) make the host produce NaN, which is outside this model. -/
def digitsVal (l : List Char) : Nat :=
  l.foldl (fun a c => a * 10 + (c.toNat - '0'.toNat)) 0

def numValue (l : List Char) : Rat :=
  let ip := l.takeWhile (fun c => c ≠ '.')
  match l.dropWhile (fun c => c ≠ '.') with
  | [] => (digitsVal ip : Rat)
  | _ :: fp => (digitsVal ip : Rat) + (digitsVal fp : Rat) / ((10 : Rat) ^ fp.length)

/-- The string-literal body loop of Lexer.next_token:
`while (peek_char() != '"' && has_more()) { if '\n' line++; next_char() }`. -/
def string_loop (st : LexSt) : LexSt :=
  if h : st.peek_char ≠ some '"' ∧ st.has_more then
    string_loop { st with
      line := if st.peek_char = some '\n' then st.line + 1 else st.line,
      current := st.current + 1 }
  else st
termination_by st.code.length - st.current
decreasing_by
  simp only [LexSt.has_more, decide_eq_true_eq] at h
  omega

/-- The line-comment loop of Lexer.next_token:
`while (has_more() && peek_char() != '\n') next_char()`. -/
def comment_loop (st : LexSt) : LexSt :=
  if h : st.has_more ∧ st.peek_char ≠ some '\n' then
    comment_loop { st with current := st.current + 1 }
  else st
termination_by st.code.length - st.current
decreasing_by
  simp only [LexSt.has_more, decide_eq_true_eq] at h
  omega

mutual
/-- Lexer.next_token, one scanning step.  The digit and identifier
branches call `next_token` itself from inside their scanning loops
(discarding the produced token), exactly as the source does; that
re-entrancy is what the fuel argument bounds. -/
def next_token : Nat → LexSt → Option Token × LexSt
  | 0, st => (none, st)
  | f + 1, st0 =>
    let (c?, st) := st0.next_char
    match c? with
    | none => (none, st)
    | some c =>
      if c = '(' then (some (st.make_token .LEFT_PAREN .null), st)
      else if c = ')' then (some (st.make_token .RIGHT_PAREN .null), st)
      else if c = '{' then (some (st.make_token .LEFT_BRACE .null), st)
      else if c = '}' then (some (st.make_token .RIGHT_BRACE .null), st)
      else if c = ',' then (some (st.make_token .COMMA .null), st)
      else if c = '.' then (some (st.make_token .DOT .null), st)
      else if c = '-' then (some (st.make_token .MINUS .null), st)
      else if c = '+' then (some (st.make_token .PLUS .null), st)
      else if c = ';' then (some (st.make_token .SEMICOLON .null), st)
      else if c = '*' then (some (st.make_token .STAR .null), st)
      else if c = '!' then
        let (m, st1) := st.check_next '='
        (some (st1.make_token (if m then .NOT_EQUAL else .BANG) .null), st1)
      else if c = '=' then
        let (m, st1) := st.check_next '='
        (some (st1.make_token (if m then .DOUBLE_EQUAL else .EQUAL) .null), st1)
      else if c = '<' then
        let (m, st1) := st.check_next '='
        (some (st1.make_token (if m then .LESS_EQUAL else .LESS) .null), st1)
      else if c = '>' then
        let (m, st1) := st.check_next '='
        (some (st1.make_token (if m then .GREATER_EQUAL else .GREATER) .null), st1)
      else if c = '/' then
        let (m, st1) := st.check_next '/'
        if m then (none, comment_loop st1)
        else (some (st1.make_token .SLASH .null), st1)
      else if c = ' ' ∨ c = '\r' ∨ c = '\t' then (none, st)
      else if c = '\n' then (none, { st with line := st.line + 1 })
      else if c = '"' then
        let st1 := string_loop st
        let st2 :=
          if st1.has_more then st1
          else { st1 with
            console := st1.console ++ [loxErrorEntry st1.line "Unterminated string."] }
        let st3 := st2.next_char.2
        (some (st3.make_token .STRING
          (.str (String.mk (sliceChars st3.code (st3.start + 1) (st3.current - 1))))), st3)
      else if is_digit (some c) then
        let st1 := digits_loop f st
        let st2 :=
          if st1.peek_char = some '.' ∧ is_digit st1.peek_next_char then
            digits_loop f (next_token f st1).2
          else st1
        (some (st2.make_token .NUMBER
          (.num (numValue (sliceChars st2.code st2.start st2.current)))), st2)
      else if is_identifier (some c) then
        let st1 := ident_loop f st
        let lex := String.mk (sliceChars st1.code st1.start st1.current)
        (some (st1.make_token (keywordType lex) (.str lex)), st1)
      else
        (none, { st with
          console := st.console ++ [loxErrorEntry st.line ("Unknown token " ++ String.mk [c])] })

/-- `while (is_digit(peek_char())) next_token()`. -/
def digits_loop : Nat → LexSt → LexSt
  | 0, st => st
  | f + 1, st =>
    if is_digit st.peek_char then digits_loop f (next_token f st).2 else st

/-- `while (is_digit(peek_char()) || is_identifier(peek_char())) next_token()`. -/
def ident_loop : Nat → LexSt → LexSt
  | 0, st => st
  | f + 1, st =>
    if is_digit st.peek_char ∨ is_identifier st.peek_char then
      ident_loop f (next_token f st).2
    else st
end

/-- The loop of Lexer.scan_tokens. -/
def scan_loop : Nat → LexSt → List Token → List Token × LexSt
  | 0, st, acc => (acc, st)
  | f + 1, st, acc =>
    if st.has_more then
      let st1 := { st with start := st.current }
      match next_token f st1 with
      | (some t, st2) => scan_loop f st2 (acc ++ [t])
      | (none, st2) => scan_loop f st2 acc
    else (acc, st)

/-- Lexer.scan_tokens: scan to the end of input, then append the EOF
token (whose `value` is the empty string in the source). -/
def scan_tokens (f : Nat) (st : LexSt) : List Token × LexSt :=
  let (ts, st') := scan_loop f st []
  (ts ++ [⟨.EOF, "", .str "", st'.line⟩], st')

/-- The initial cursor Lexer's constructor sets up, with stdout empty. -/
def initLexSt (src : String) : LexSt :=
  ⟨src.toList, 0, 0, 1, []⟩

/-- Parser state: the remaining token stream (`tokens`/`current` of the
source collapse to a suffix list) plus the allocator for AST node
identities (JS object identity, see the conventions above). -/
structure PSt where
  toks : List Token
  nid : Nat

/-- A parse failure: an exception thrown by the parser (`thrown`), a
host TypeError from reading a field of `undefined` when the cursor
moves past the end of the token array (`crash`), or fuel exhaustion
(model artifact).  All three abort the run - nothing catches them. -/
inductive PErr where
  | thrown (msg : String)
  | crash (msg : String)
  | fuel
  deriving DecidableEq, Repr

/-- Parser.peek: `tokens[current]!`.  Past the end of the array the JS
value is `undefined` and every use immediately dereferences it, which
is modelled as the crash outcome. -/
def PSt.peekT (p : PSt) : Except PErr Token :=
  match p.toks with
  | t :: _ => .ok t
  | [] => .error (.crash "TypeError: tokens[current] is undefined")

/-- Parser.next: `tokens[current++]!` (same remark as peek). -/
def PSt.nextT (p : PSt) : Except PErr (Token × PSt) :=
  match p.toks with
  | t :: r => .ok (t, { p with toks := r })
  | [] => .error (.crash "TypeError: tokens[current] is undefined")

/-- Parser.has_more: `peek().type != EOF`. -/
def PSt.has_moreT (p : PSt) : Except PErr Bool :=
  match p.peekT with
  | .error e => .error e
  | .ok t => .ok (t.type != TokenType.EOF)

/-- Allocate a fresh node identity. -/
def PSt.freshId (p : PSt) : Nat × PSt :=
  (p.nid, { p with nid := p.nid + 1 })

/-- Parser.peek_match. -/
def peek_matchT (tys : List TokenType) (p : PSt) : Except PErr Bool :=
  match p.has_moreT with
  | .error e => .error e
  | .ok false => .ok false
  | .ok true =>
    match p.peekT with
    | .error e => .error e
    | .ok t => .ok (tys.contains t.type)

/-- Parser.expect. -/
def expectT (tys : List TokenType) (p : PSt) : Except PErr (Token × PSt) :=
  match peek_matchT tys p with
  | .error e => .error e
  | .ok true => p.nextT
  | .ok false => .error (.thrown "Unexpected token type")

namespace Parser

mutual

/-- Parser.expression. -/
def expression : Nat → PSt → Except PErr (Expr × PSt)
  | 0, _ => .error .fuel
  | f + 1, p => assignment f p

/-- Parser.assignment. -/
def assignment : Nat → PSt → Except PErr (Expr × PSt)
  | 0, _ => .error .fuel
  | f + 1, p =>
    match or f p with
    | .error e => .error e
    | .ok (e, p1) =>
      match peek_matchT [.EQUAL] p1 with
      | .error er => .error er
      | .ok true =>
        match p1.nextT with
        | .error er => .error er
        | .ok (_, p2) =>
          match assignment f p2 with
          | .error er => .error er
          | .ok (v, p3) =>
            match e with
            | .varE name _ =>
              let (i, p4) := p3.freshId
              .ok (.assign name v i, p4)
            | _ => .error (.thrown "Invalid assignment target.")
      | .ok false => .ok (e, p1)

/-- Parser.or. -/
def or : Nat → PSt → Except PErr (Expr × PSt)
  | 0, _ => .error .fuel
  | f + 1, p =>
    match and f p with
    | .error e => .error e
    | .ok (e, p1) => or_loop f e p1

/-- The `while (peek_match(OR))` loop of Parser.or. -/
def or_loop : Nat → Expr → PSt → Except PErr (Expr × PSt)
  | 0, _, _ => .error .fuel
  | f + 1, e, p =>
    match peek_matchT [.OR] p with
    | .error er => .error er
    | .ok true =>
      match p.nextT with
      | .error er => .error er
      | .ok (op, p1) =>
        match and f p1 with
        | .error er => .error er
        | .ok (r, p2) => or_loop f (.logical e op r) p2
    | .ok false => .ok (e, p)

/-- Parser.and. -/
def and : Nat → PSt → Except PErr (Expr × PSt)
  | 0, _ => .error .fuel
  | f + 1, p =>
    match equality f p with
    | .error e => .error e
    | .ok (e, p1) => and_loop f e p1

/-- The `while (peek_match(AND))` loop of Parser.and. -/
def and_loop : Nat → Expr → PSt → Except PErr (Expr × PSt)
  | 0, _, _ => .error .fuel
  | f + 1, e, p =>
    match peek_matchT [.AND] p with
    | .error er => .error er
    | .ok true =>
      match p.nextT with
      | .error er => .error er
      | .ok (op, p1) =>
        match equality f p1 with
        | .error er => .error er
        | .ok (r, p2) => and_loop f (.logical e op r) p2
    | .ok false => .ok (e, p)

/-- Parser.equality. -/
def equality : Nat → PSt → Except PErr (Expr × PSt)
  | 0, _ => .error .fuel
  | f + 1, p =>
    match comparison f p with
    | .error e => .error e
    | .ok (e, p1) => equality_loop f e p1

/-- The `while (peek_match(DOUBLE_EQUAL, NOT_EQUAL))` loop. -/
def equality_loop : Nat → Expr → PSt → Except PErr (Expr × PSt)
  | 0, _, _ => .error .fuel
  | f + 1, e, p =>
    match peek_matchT [.DOUBLE_EQUAL, .NOT_EQUAL] p with
    | .error er => .error er
    | .ok true =>
      match p.nextT with
      | .error er => .error er
      | .ok (op, p1) =>
        match comparison f p1 with
        | .error er => .error er
        | .ok (r, p2) => equality_loop f (.binary e op r) p2
    | .ok false => .ok (e, p)

/-- Parser.comparison. -/
def comparison : Nat → PSt → Except PErr (Expr × PSt)
  | 0, _ => .error .fuel
  | f + 1, p =>
    match term f p with
    | .error e => .error e
    | .ok (e, p1) => comparison_loop f e p1

/-- The `while (peek_match(GREATER, GREATER_EQUAL, LESS, LESS_EQUAL))` loop. -/
def comparison_loop : Nat → Expr → PSt → Except PErr (Expr × PSt)
  | 0, _, _ => .error .fuel
  | f + 1, e, p =>
    match peek_matchT [.GREATER, .GREATER_EQUAL, .LESS, .LESS_EQUAL] p with
    | .error er => .error er
    | .ok true =>
      match p.nextT with
      | .error er => .error er
      | .ok (op, p1) =>
        match term f p1 with
        | .error er => .error er
        | .ok (r, p2) => comparison_loop f (.binary e op r) p2
    | .ok false => .ok (e, p)

/-- Parser.term. -/
def term : Nat → PSt → Except PErr (Expr × PSt)
  | 0, _ => .error .fuel
  | f + 1, p =>
    match factor f p with
    | .error e => .error e
    | .ok (e, p1) => term_loop f e p1

/-- The `while (peek_match(MINUS, PLUS))` loop. -/
def term_loop : Nat → Expr → PSt → Except PErr (Expr × PSt)
  | 0, _, _ => .error .fuel
  | f + 1, e, p =>
    match peek_matchT [.MINUS, .PLUS] p with
    | .error er => .error er
    | .ok true =>
      match p.nextT with
      | .error er => .error er
      | .ok (op, p1) =>
        match factor f p1 with
        | .error er => .error er
        | .ok (r, p2) => term_loop f (.binary e op r) p2
    | .ok false => .ok (e, p)

/-- Parser.factor. -/
def factor : Nat → PSt → Except PErr (Expr × PSt)
  | 0, _ => .error .fuel
  | f + 1, p =>
    match unary f p with
    | .error e => .error e
    | .ok (e, p1) => factor_loop f e p1

/-- The `while (peek_match(SLASH, STAR))` loop. -/
def factor_loop : Nat → Expr → PSt → Except PErr (Expr × PSt)
  | 0, _, _ => .error .fuel
  | f + 1, e, p =>
    match peek_matchT [.SLASH, .STAR] p with
    | .error er => .error er
    | .ok true =>
      match p.nextT with
      | .error er => .error er
      | .ok (op, p1) =>
        match unary f p1 with
        | .error er => .error er
        | .ok (r, p2) => factor_loop f (.binary e op r) p2
    | .ok false => .ok (e, p)

/-- Parser.unary. -/
def unary : Nat → PSt → Except PErr (Expr × PSt)
  | 0, _ => .error .fuel
  | f + 1, p =>
    match peek_matchT [.BANG, .MINUS] p with
    | .error er => .error er
    | .ok true =>
      match p.nextT with
      | .error er => .error er
      | .ok (op, p1) =>
        match unary f p1 with
        | .error er => .error er
        | .ok (r, p2) => .ok (.unary op r, p2)
    | .ok false => call f p

/-- Parser.call. -/
def call : Nat → PSt → Except PErr (Expr × PSt)
  | 0, _ => .error .fuel
  | f + 1, p =>
    match primary f p with
    | .error e => .error e
    | .ok (e, p1) => call_loop f e p1

/-- The `while (true)` loop of Parser.call (it only continues on a
LEFT_PAREN; there is no DOT branch in this parser). -/
def call_loop : Nat → Expr → PSt → Except PErr (Expr × PSt)
  | 0, _, _ => .error .fuel
  | f + 1, e, p =>
    match peek_matchT [.LEFT_PAREN] p with
    | .error er => .error er
    | .ok true =>
      match finish_call f e p with
      | .error er => .error er
      | .ok (e1, p1) => call_loop f e1 p1
    | .ok false => .ok (e, p)

/-- Parser.finish_call.  Note the closing `this.next()` is unguarded in
the source: whatever token sits there is consumed. -/
def finish_call : Nat → Expr → PSt → Except PErr (Expr × PSt)
  | 0, _, _ => .error .fuel
  | f + 1, callee, p =>
    match p.nextT with
    | .error er => .error er
    | .ok (paren, p1) =>
      match peek_matchT [.RIGHT_PAREN] p1 with
      | .error er => .error er
      | .ok false =>
        match arguments f p1 with
        | .error er => .error er
        | .ok (args, p2) =>
          match p2.nextT with
          | .error er => .error er
          | .ok (_, p3) => .ok (.call callee paren args, p3)
      | .ok true =>
        match p1.nextT with
        | .error er => .error er
        | .ok (_, p2) => .ok (.call callee paren [], p2)

/-- Parser.arguments. -/
def arguments : Nat → PSt → Except PErr (List Expr × PSt)
  | 0, _ => .error .fuel
  | f + 1, p =>
    match expression f p with
    | .error er => .error er
    | .ok (a, p1) => args_loop f [a] p1

/-- The `while (peek_match(COMMA))` loop of Parser.arguments, with the
256-argument check placed after the push as in the source. -/
def args_loop : Nat → List Expr → PSt → Except PErr (List Expr × PSt)
  | 0, _, _ => .error .fuel
  | f + 1, acc, p =>
    match peek_matchT [.COMMA] p with
    | .error er => .error er
    | .ok true =>
      match p.nextT with
      | .error er => .error er
      | .ok (_, p1) =>
        match expression f p1 with
        | .error er => .error er
        | .ok (a, p2) =>
          if (acc ++ [a]).length > 255 then
            .error (.thrown "Expected a number of arguments to be less than 256")
          else args_loop f (acc ++ [a]) p2
    | .ok false => .ok (acc, p)

/-- Parser.primary. -/
def primary : Nat → PSt → Except PErr (Expr × PSt)
  | 0, _ => .error .fuel
  | f + 1, p =>
    match p.nextT with
    | .error er => .error er
    | .ok (token, p1) =>
      match token.type with
      | .FALSE => .ok (.literal (.boolean false), p1)
      | .TRUE => .ok (.literal (.boolean true), p1)
      | .NIL => .ok (.literal .null, p1)
      | .NUMBER => .ok (.literal token.value, p1)
      | .STRING => .ok (.literal token.value, p1)
      | .LEFT_PAREN =>
        match expression f p1 with
        | .error er => .error er
        | .ok (e, p2) =>
          match expectT [.RIGHT_PAREN] p2 with
          | .error er => .error er
          | .ok (_, p3) => .ok (.grouping e, p3)
      | .IDENTIFIER =>
        let (i, p2) := p1.freshId
        .ok (.varE token i, p2)
      | _ => .error (.thrown "Unexpected token type")

end

mutual

/-- Parser.declaration: `var`, `fun`, otherwise a statement.  There is
no `class` branch. -/
def declaration : Nat → PSt → Except PErr (Stmt × PSt)
  | 0, _ => .error .fuel
  | f + 1, p =>
    match peek_matchT [.VAR] p with
    | .error er => .error er
    | .ok true =>
      match p.nextT with
      | .error er => .error er
      | .ok (_, p1) => var_declaration f p1
    | .ok false =>
      match peek_matchT [.FUN] p with
      | .error er => .error er
      | .ok true =>
        match p.nextT with
        | .error er => .error er
        | .ok (_, p1) => function f p1
      | .ok false => statement f p

/-- Parser.var_declaration. -/
def var_declaration : Nat → PSt → Except PErr (Stmt × PSt)
  | 0, _ => .error .fuel
  | f + 1, p =>
    match expectT [.IDENTIFIER] p with
    | .error er => .error er
    | .ok (name, p1) =>
      match peek_matchT [.EQUAL] p1 with
      | .error er => .error er
      | .ok true =>
        match p1.nextT with
        | .error er => .error er
        | .ok (_, p2) =>
          match expression f p2 with
          | .error er => .error er
          | .ok (init, p3) =>
            match expectT [.SEMICOLON] p3 with
            | .error er => .error er
            | .ok (_, p4) => .ok (.varD name (some init), p4)
      | .ok false =>
        match expectT [.SEMICOLON] p1 with
        | .error er => .error er
        | .ok (_, p2) => .ok (.varD name none, p2)

/-- Parser.function.  The `this.next()` after the parameter list is
unguarded in the source (it consumes whatever token is there), and the
body is `this.block()` whose statement list is extracted. -/
def function : Nat → PSt → Except PErr (Stmt × PSt)
  | 0, _ => .error .fuel
  | f + 1, p =>
    match expectT [.IDENTIFIER] p with
    | .error er => .error er
    | .ok (name, p1) =>
      match expectT [.LEFT_PAREN] p1 with
      | .error er => .error er
      | .ok (_, p2) =>
        match peek_matchT [.RIGHT_PAREN] p2 with
        | .error er => .error er
        | .ok true =>
          match p2.nextT with
          | .error er => .error er
          | .ok (_, p3) => function_tail f name [] p3
        | .ok false =>
          match params_loop f [] p2 with
          | .error er => .error er
          | .ok (params, p3) =>
            match p3.nextT with
            | .error er => .error er
            | .ok (_, p4) => function_tail f name params p4

/-- The tail of Parser.function after the parameter list: expect `{`,
parse the block, build the FunctionStmt. -/
def function_tail : Nat → Token → List Token → PSt → Except PErr (Stmt × PSt)
  | 0, _, _, _ => .error .fuel
  | f + 1, name, params, p =>
    match expectT [.LEFT_BRACE] p with
    | .error er => .error er
    | .ok (_, p1) =>
      match block f p1 with
      | .error er => .error er
      | .ok (stmts, p2) => .ok (.function ⟨name, params, stmts⟩, p2)

/-- The parameter loop of Parser.function, with the 256-parameter check
after the push as in the source. -/
def params_loop : Nat → List Token → PSt → Except PErr (List Token × PSt)
  | 0, _, _ => .error .fuel
  | f + 1, acc, p =>
    match expectT [.IDENTIFIER] p with
    | .error er => .error er
    | .ok (t, p1) =>
      if (acc ++ [t]).length > 255 then
        .error (.thrown "Cant have more than 255 parameters.")
      else
        match peek_matchT [.COMMA] p1 with
        | .error er => .error er
        | .ok true =>
          match p1.nextT with
          | .error er => .error er
          | .ok (_, p2) => params_loop f (acc ++ [t]) p2
        | .ok false => .ok (acc ++ [t], p1)

/-- Parser.block, returning the statement list of the BlockStmt it
builds (Parser.function extracts exactly that list). -/
def block : Nat → PSt → Except PErr (List Stmt × PSt)
  | 0, _ => .error .fuel
  | f + 1, p =>
    match block_loop f [] p with
    | .error er => .error er
    | .ok (stmts, p1) =>
      match expectT [.RIGHT_BRACE] p1 with
      | .error er => .error er
      | .ok (_, p2) => .ok (stmts, p2)

/-- The `while (!peek_match(RIGHT_BRACE) && has_more())` loop of
Parser.block. -/
def block_loop : Nat → List Stmt → PSt → Except PErr (List Stmt × PSt)
  | 0, _, _ => .error .fuel
  | f + 1, acc, p =>
    match peek_matchT [.RIGHT_BRACE] p with
    | .error er => .error er
    | .ok true => .ok (acc, p)
    | .ok false =>
      match p.has_moreT with
      | .error er => .error er
      | .ok false => .ok (acc, p)
      | .ok true =>
        match declaration f p with
        | .error er => .error er
        | .ok (s, p1) => block_loop f (acc ++ [s]) p1

/-- Parser.statement. -/
def statement : Nat → PSt → Except PErr (Stmt × PSt)
  | 0, _ => .error .fuel
  | f + 1, p =>
    match peek_matchT [.PRINT] p with
    | .error er => .error er
    | .ok true =>
      match p.nextT with
      | .error er => .error er
      | .ok (_, p1) => print_statement f p1
    | .ok false =>
    match peek_matchT [.LEFT_BRACE] p with
    | .error er => .error er
    | .ok true =>
      match p.nextT with
      | .error er => .error er
      | .ok (_, p1) =>
        match block f p1 with
        | .error er => .error er
        | .ok (stmts, p2) => .ok (.block stmts, p2)
    | .ok false =>
    match peek_matchT [.IF] p with
    | .error er => .error er
    | .ok true =>
      match p.nextT with
      | .error er => .error er
      | .ok (_, p1) => if_statement f p1
    | .ok false =>
    match peek_matchT [.WHILE] p with
    | .error er => .error er
    | .ok true =>
      match p.nextT with
      | .error er => .error er
      | .ok (_, p1) => while_statement f p1
    | .ok false =>
    match peek_matchT [.FOR] p with
    | .error er => .error er
    | .ok true =>
      match p.nextT with
      | .error er => .error er
      | .ok (_, p1) => for_statement f p1
    | .ok false =>
    match peek_matchT [.RETURN] p with
    | .error er => .error er
    | .ok true => return_statement f p
    | .ok false => expression_statement f p

/-- Parser.if_statement. -/
def if_statement : Nat → PSt → Except PErr (Stmt × PSt)
  | 0, _ => .error .fuel
  | f + 1, p =>
    match expectT [.LEFT_PAREN] p with
    | .error er => .error er
    | .ok (_, p1) =>
      match expression f p1 with
      | .error er => .error er
      | .ok (cond, p2) =>
        match expectT [.RIGHT_PAREN] p2 with
        | .error er => .error er
        | .ok (_, p3) =>
          match statement f p3 with
          | .error er => .error er
          | .ok (thenB, p4) =>
            match peek_matchT [.ELSE] p4 with
            | .error er => .error er
            | .ok true =>
              match p4.nextT with
              | .error er => .error er
              | .ok (_, p5) =>
                match statement f p5 with
                | .error er => .error er
                | .ok (elseB, p6) => .ok (.ifS cond thenB (some elseB), p6)
            | .ok false => .ok (.ifS cond thenB none, p4)

/-- Parser.while_statement. -/
def while_statement : Nat → PSt → Except PErr (Stmt × PSt)
  | 0, _ => .error .fuel
  | f + 1, p =>
    match expectT [.LEFT_PAREN] p with
    | .error er => .error er
    | .ok (_, p1) =>
      match expression f p1 with
      | .error er => .error er
      | .ok (cond, p2) =>
        match expectT [.RIGHT_PAREN] p2 with
        | .error er => .error er
        | .ok (_, p3) =>
          match statement f p3 with
          | .error er => .error er
          | .ok (body, p4) => .ok (.whileS cond body, p4)

/-- Parser.for_statement, translated branch for branch.  Note that when
the initializer is missing the source only *peeks* at the first `;`,
never consuming it; the `expect(SEMICOLON)` after the condition slot
then consumes that first semicolon. -/
def for_statement : Nat → PSt → Except PErr (Stmt × PSt)
  | 0, _ => .error .fuel
  | f + 1, p =>
    match expectT [.LEFT_PAREN] p with
    | .error er => .error er
    | .ok (_, p1) =>
      match peek_matchT [.VAR] p1 with
      | .error er => .error er
      | .ok true =>
        match p1.nextT with
        | .error er => .error er
        | .ok (_, p2) =>
          match var_declaration f p2 with
          | .error er => .error er
          | .ok (i, p3) => for_tail f (some i) p3
      | .ok false =>
        match peek_matchT [.SEMICOLON] p1 with
        | .error er => .error er
        | .ok false =>
          match expression_statement f p1 with
          | .error er => .error er
          | .ok (i, p2) => for_tail f (some i) p2
        | .ok true => for_tail f none p1

/-- The rest of Parser.for_statement after the initializer slot:
condition slot, `expect(SEMICOLON)`, increment slot,
`expect(RIGHT_PAREN)`, body, then the desugaring. -/
def for_tail : Nat → Option Stmt → PSt → Except PErr (Stmt × PSt)
  | 0, _, _ => .error .fuel
  | f + 1, init, p =>
    match peek_matchT [.SEMICOLON] p with
    | .error er => .error er
    | .ok false =>
      match expression f p with
      | .error er => .error er
      | .ok (c, p1) => for_tail2 f init (some c) p1
    | .ok true => for_tail2 f init none p

/-- Continuation of Parser.for_statement after the condition slot. -/
def for_tail2 : Nat → Option Stmt → Option Expr → PSt → Except PErr (Stmt × PSt)
  | 0, _, _, _ => .error .fuel
  | f + 1, init, cond, p =>
    match expectT [.SEMICOLON] p with
    | .error er => .error er
    | .ok (_, p1) =>
      match peek_matchT [.RIGHT_PAREN] p1 with
      | .error er => .error er
      | .ok false =>
        match expression f p1 with
        | .error er => .error er
        | .ok (u, p2) => for_tail3 f init cond (some u) p2
      | .ok true => for_tail3 f init cond none p1

/-- Continuation of Parser.for_statement after the increment slot: the
body and the desugaring assembly, exactly as in the source. -/
def for_tail3 : Nat → Option Stmt → Option Expr → Option Expr → PSt →
    Except PErr (Stmt × PSt)
  | 0, _, _, _, _ => .error .fuel
  | f + 1, init, cond, incr, p =>
    match expectT [.RIGHT_PAREN] p with
    | .error er => .error er
    | .ok (_, p1) =>
      match statement f p1 with
      | .error er => .error er
      | .ok (body, p2) =>
        let body1 : Stmt :=
          match incr with
          | some u => .block [body, .expr u]
          | none => body
        let cond1 : Expr :=
          match cond with
          | some c => c
          | none => .literal (.boolean true)
        let body2 : Stmt := .whileS cond1 body1
        let res : Stmt :=
          match init with
          | some i => .block [i, body2]
          | none => body2
        .ok (res, p2)

/-- Parser.return_statement (it consumes the `return` keyword itself). -/
def return_statement : Nat → PSt → Except PErr (Stmt × PSt)
  | 0, _ => .error .fuel
  | f + 1, p =>
    match p.nextT with
    | .error er => .error er
    | .ok (keyword, p1) =>
      match peek_matchT [.SEMICOLON] p1 with
      | .error er => .error er
      | .ok false =>
        match expression f p1 with
        | .error er => .error er
        | .ok (v, p2) =>
          match expectT [.SEMICOLON] p2 with
          | .error er => .error er
          | .ok (_, p3) => .ok (.ret keyword (some v), p3)
      | .ok true =>
        match expectT [.SEMICOLON] p1 with
        | .error er => .error er
        | .ok (_, p2) => .ok (.ret keyword none, p2)

/-- Parser.print_statement. -/
def print_statement : Nat → PSt → Except PErr (Stmt × PSt)
  | 0, _ => .error .fuel
  | f + 1, p =>
    match expression f p with
    | .error er => .error er
    | .ok (v, p1) =>
      match expectT [.SEMICOLON] p1 with
      | .error er => .error er
      | .ok (_, p2) => .ok (.print v, p2)

/-- Parser.expression_statement. -/
def expression_statement : Nat → PSt → Except PErr (Stmt × PSt)
  | 0, _ => .error .fuel
  | f + 1, p =>
    match expression f p with
    | .error er => .error er
    | .ok (v, p1) =>
      match expectT [.SEMICOLON] p1 with
      | .error er => .error er
      | .ok (_, p2) => .ok (.expr v, p2)

/-- The `while (has_more())` loop of Parser.parse. -/
def parse_loop : Nat → List Stmt → PSt → Except PErr (List Stmt × PSt)
  | 0, _, _ => .error .fuel
  | f + 1, acc, p =>
    match p.has_moreT with
    | .error er => .error er
    | .ok true =>
      match declaration f p with
      | .error er => .error er
      | .ok (s, p1) => parse_loop f (acc ++ [s]) p1
    | .ok false => .ok (acc, p)

end

/-- Parser.parse. -/
def parse (f : Nat) (p : PSt) : Except PErr (List Stmt × PSt) :=
  parse_loop f [] p

end Parser

/-- Run the parser on a token list, as Lox.run does:
`new Parser(tokens).parse()`. -/
def parseProgram (f : Nat) (toks : List Token) : Except PErr (List Stmt) :=
  match Parser.parse f ⟨toks, 0⟩ with
  | .error e => .error e
  | .ok (stmts, _) => .ok stmts

/-- FunctionType from src/resolver.ts (only NONE and FUNCTION exist). -/
inductive FunctionType where
  | NONE
  | FUNCTION
  deriving DecidableEq, Repr

/-- `Map.get` on a scope map `lexeme -> defined?`. -/
def bmapGet (m : List (String × Bool)) (k : String) : Option Bool :=
  match m with
  | [] => none
  | (k', v) :: t => if k' = k then some v else bmapGet t k

/-- `Map.set` on a scope map. -/
def bmapSet (m : List (String × Bool)) (k : String) (v : Bool) :
    List (String × Bool) :=
  match m with
  | [] => [(k, v)]
  | (k', v') :: t => if k' = k then (k, v) :: t else (k', v') :: bmapSet t k v

/-- `Map.has` on a scope map. -/
def bmapHas (m : List (String × Bool)) (k : String) : Bool :=
  match m with
  | [] => false
  | (k', _) :: t => if k' = k then true else bmapHas t k

/-- Resolver state: the scope stack (`this.scopes`; the source array
grows at the end, modelled here with the innermost scope at the head),
the side table it pushes into `interpreter.locals` (keyed by node id),
and `current_function`. -/
structure RSt where
  scopes : List (List (String × Bool))
  table : List (Nat × Nat)
  current_function : FunctionType

def RSt.begin_scope (r : RSt) : RSt :=
  { r with scopes := [] :: r.scopes }

def RSt.end_scope (r : RSt) : RSt :=
  { r with scopes := r.scopes.tail }

def RSt.has_scope (r : RSt) : Bool :=
  decide (r.scopes ≠ [])

/-- Resolver.declare: error on redeclaration in the same scope, else
insert `lexeme -> false`; a no-op with no open scope. -/
def RSt.declare (name : Token) (r : RSt) : Except String RSt :=
  match r.scopes with
  | [] => .ok r
  | sc :: rest =>
    if bmapHas sc name.lexeme then
      .error ("Variable duplication " ++ name.lexeme)
    else .ok { r with scopes := bmapSet sc name.lexeme false :: rest }

/-- Resolver.define: flip the innermost binding to true; a no-op with
no open scope. -/
def RSt.define (name : Token) (r : RSt) : RSt :=
  match r.scopes with
  | [] => r
  | sc :: rest => { r with scopes := bmapSet sc name.lexeme true :: rest }

/-- `Map.set` on the side table (node id -> distance). -/
def localsSet (tbl : List (Nat × Nat)) (k d : Nat) : List (Nat × Nat) :=
  match tbl with
  | [] => [(k, d)]
  | (k', d') :: t => if k' = k then (k, d) :: t else (k', d') :: localsSet t k d

/-- `Map.get` on the side table. -/
def localsGet (tbl : List (Nat × Nat)) (k : Nat) : Option Nat :=
  match tbl with
  | [] => none
  | (k', d') :: t => if k' = k then some d' else localsGet t k

/-- Resolver.resolve_local: the source walks `i` from `scopes.len - 1`
down to `0` and records `scopes.len - 1 - i` for the first hit; with
the innermost scope at the head of the list that distance is exactly
the index of the first scope containing the name.  No hit records
nothing. -/
def resolve_local (nid : Nat) (name : Token) (r : RSt) : RSt :=
  match r.scopes.findIdx? (fun sc => bmapHas sc name.lexeme) with
  | some d => { r with table := localsSet r.table nid d }
  | none => r

/-- A resolver failure: a thrown exception (including the TypeError of
dispatching to a visitor method the resolver does not implement), or
fuel exhaustion (a model artifact; the resolver's recursion is
structural in the source). -/
inductive RErr where
  | thrown (msg : String)
  | fuel
  deriving DecidableEq, Repr

/-- The declare+define loop over parameters in Resolver.resolve_function. -/
def declParams (params : List Token) (r : RSt) : Except RErr RSt :=
  match params with
  | [] => .ok r
  | t :: rest =>
    match r.declare t with
    | .error e => .error (.thrown e)
    | .ok r1 => declParams rest (r1.define t)

mutual

/-- Resolver dispatch over expressions (the visitXxxExpr methods),
fuel-indexed (the source recursion is structural; fuel only makes the
mutual recursion reduce definitionally).  The resolver of this
repository implements no visitGetExpr, visitSetExpr or visitThisExpr;
dispatching to them in JS calls `undefined` and throws a TypeError,
modelled as a thrown error. -/
def resolveExpr : Nat → Expr → RSt → Except RErr RSt
  | 0, _, _ => .error .fuel
  | f + 1, e, r =>
    match e with
    | .assign name v nid =>
      match resolveExpr f v r with
      | .error e => .error e
      | .ok r1 => .ok (resolve_local nid name r1)
    | .binary l _ rgt =>
      match resolveExpr f l r with
      | .error e => .error e
      | .ok r1 => resolveExpr f rgt r1
    | .call callee _ args =>
      match resolveExpr f callee r with
      | .error e => .error e
      | .ok r1 => resolveExprs f args r1
    | .grouping e => resolveExpr f e r
    | .literal _ => .ok r
    | .logical l _ rgt =>
      match resolveExpr f l r with
      | .error e => .error e
      | .ok r1 => resolveExpr f rgt r1
    | .unary _ rgt => resolveExpr f rgt r
    | .varE name nid =>
      if r.has_scope ∧ bmapGet (r.scopes.headD []) name.lexeme = some false then
        .error (.thrown ("Unable to resolve variable " ++ name.toString))
      else .ok (resolve_local nid name r)
    | .getE _ _ => .error (.thrown "TypeError: this.visitGetExpr is not a function")
    | .setE _ _ _ => .error (.thrown "TypeError: this.visitSetExpr is not a function")
    | .thisE _ _ => .error (.thrown "TypeError: this.visitThisExpr is not a function")

/-- The argument loop of Resolver.visitCallExpr. -/
def resolveExprs : Nat → List Expr → RSt → Except RErr RSt
  | 0, _, _ => .error .fuel
  | _ + 1, [], r => .ok r
  | f + 1, e :: rest, r =>
    match resolveExpr f e r with
    | .error err => .error err
    | .ok r1 => resolveExprs f rest r1

/-- Resolver dispatch over statements (the visitXxxStmt methods); the
resolver implements no visitClassStmt, with the same TypeError remark
as for the missing expression visitors. -/
def resolveStmt : Nat → Stmt → RSt → Except RErr RSt
  | 0, _, _ => .error .fuel
  | f + 1, st, r =>
    match st with
    | .expr e => resolveExpr f e r
    | .print e => resolveExpr f e r
    | .varD name init =>
      match r.declare name with
      | .error e => .error (.thrown e)
      | .ok r1 =>
        match init with
        | some e =>
          match resolveExpr f e r1 with
          | .error err => .error err
          | .ok r2 => .ok (r2.define name)
        | none => .ok (r1.define name)
    | .block stmts =>
      match resolveStmts f stmts r.begin_scope with
      | .error e => .error e
      | .ok r1 => .ok r1.end_scope
    | .ifS c t e? =>
      match resolveExpr f c r with
      | .error e => .error e
      | .ok r1 =>
        match resolveStmt f t r1 with
        | .error e => .error e
        | .ok r2 =>
          match e? with
          | some e => resolveStmt f e r2
          | none => .ok r2
    | .whileS c b =>
      match resolveExpr f c r with
      | .error e => .error e
      | .ok r1 => resolveStmt f b r1
    | .function fs =>
      match r.declare fs.name with
      | .error e => .error (.thrown e)
      | .ok r1 => resolve_function f fs .FUNCTION (r1.define fs.name)
    | .ret _ v? =>
      if r.current_function = .NONE then
        .error (.thrown "Cant return from top-level code.")
      else
        match v? with
        | some v => resolveExpr f v r
        | none => .ok r
    | .classS _ _ => .error (.thrown "TypeError: this.visitClassStmt is not a function")

/-- Resolver.resolve_statements. -/
def resolveStmts : Nat → List Stmt → RSt → Except RErr RSt
  | 0, _, _ => .error .fuel
  | _ + 1, [], r => .ok r
  | f + 1, s :: rest, r =>
    match resolveStmt f s r with
    | .error e => .error e
    | .ok r1 => resolveStmts f rest r1

/-- Resolver.resolve_function: save `current_function`, open the
parameter scope, declare+define the parameters, resolve the body in
that same scope, close it, restore `current_function`. -/
def resolve_function : Nat → FunctionStmt → FunctionType → RSt → Except RErr RSt
  | 0, _, _, _ => .error .fuel
  | f + 1, .mk _ params body, ty, r =>
    let enclosing := r.current_function
    match declParams params { r with current_function := ty }.begin_scope with
    | .error e => .error e
    | .ok r1 =>
      match resolveStmts f body r1 with
      | .error e => .error e
      | .ok r2 => .ok { r2.end_scope with current_function := enclosing }

end

/-- The resolve pass as Lox.run invokes it: fresh resolver (empty scope
stack, NONE), returning the side table it pushed into
`interpreter.locals`. -/
def resolveProgram (f : Nat) (stmts : List Stmt) : Except RErr (List (Nat × Nat)) :=
  match resolveStmts f stmts ⟨[], [], .NONE⟩ with
  | .error e => .error e
  | .ok r => .ok r.table

mutual

/-- Structural equality on expressions (used below to model JS `===`
on LoxFunction values, whose only data are their fields). -/
def exprBeq : Expr → Expr → Bool
  | .binary l1 o1 r1, .binary l2 o2 r2 =>
    exprBeq l1 l2 && o1 == o2 && exprBeq r1 r2
  | .grouping e1, .grouping e2 => exprBeq e1 e2
  | .literal v1, .literal v2 => v1 == v2
  | .logical l1 o1 r1, .logical l2 o2 r2 =>
    exprBeq l1 l2 && o1 == o2 && exprBeq r1 r2
  | .unary o1 r1, .unary o2 r2 => o1 == o2 && exprBeq r1 r2
  | .varE n1 i1, .varE n2 i2 => n1 == n2 && i1 == i2
  | .assign n1 v1 i1, .assign n2 v2 i2 => n1 == n2 && exprBeq v1 v2 && i1 == i2
  | .call c1 p1 a1, .call c2 p2 a2 => exprBeq c1 c2 && p1 == p2 && exprListBeq a1 a2
  | .getE o1 n1, .getE o2 n2 => exprBeq o1 o2 && n1 == n2
  | .setE o1 n1 v1, .setE o2 n2 v2 => exprBeq o1 o2 && n1 == n2 && exprBeq v1 v2
  | .thisE k1 i1, .thisE k2 i2 => k1 == k2 && i1 == i2
  | _, _ => false

def exprListBeq : List Expr → List Expr → Bool
  | [], [] => true
  | a :: as_, b :: bs => exprBeq a b && exprListBeq as_ bs
  | _, _ => false

end

mutual

/-- Structural equality on statements. -/
def stmtBeq : Stmt → Stmt → Bool
  | .expr e1, .expr e2 => exprBeq e1 e2
  | .print e1, .print e2 => exprBeq e1 e2
  | .varD n1 i1, .varD n2 i2 => n1 == n2 && optExprBeq i1 i2
  | .block s1, .block s2 => stmtListBeq s1 s2
  | .ifS c1 t1 e1, .ifS c2 t2 e2 =>
    exprBeq c1 c2 && stmtBeq t1 t2 && optStmtBeq e1 e2
  | .whileS c1 b1, .whileS c2 b2 => exprBeq c1 c2 && stmtBeq b1 b2
  | .function f1, .function f2 => fsBeq f1 f2
  | .ret k1 v1, .ret k2 v2 => k1 == k2 && optExprBeq v1 v2
  | .classS n1 m1, .classS n2 m2 => n1 == n2 && fsListBeq m1 m2
  | _, _ => false

def optExprBeq : Option Expr → Option Expr → Bool
  | none, none => true
  | some a, some b => exprBeq a b
  | _, _ => false

def optStmtBeq : Option Stmt → Option Stmt → Bool
  | none, none => true
  | some a, some b => stmtBeq a b
  | _, _ => false

def stmtListBeq : List Stmt → List Stmt → Bool
  | [], [] => true
  | a :: as_, b :: bs => stmtBeq a b && stmtListBeq as_ bs
  | _, _ => false

def fsBeq : FunctionStmt → FunctionStmt → Bool
  | .mk n1 p1 b1, .mk n2 p2 b2 => n1 == n2 && p1 == p2 && stmtListBeq b1 b2

def fsListBeq : List FunctionStmt → List FunctionStmt → Bool
  | [], [] => true
  | a :: as_, b :: bs => fsBeq a b && fsListBeq as_ bs
  | _, _ => false

end

def lfBeq (a b : LoxFunctionV) : Bool :=
  fsBeq a.func b.func && a.closure == b.closure &&
    a.is_initializer == b.is_initializer

mutual

def classBeq : LoxClassV → LoxClassV → Bool
  | .mk n1 s1 m1, .mk n2 s2 m2 =>
    n1 == n2 && optClassBeq s1 s2 && methodsBeq m1 m2

def optClassBeq : Option LoxClassV → Option LoxClassV → Bool
  | none, none => true
  | some a, some b => classBeq a b
  | _, _ => false

def methodsBeq : List (String × LoxFunctionV) → List (String × LoxFunctionV) → Bool
  | [], [] => true
  | (k1, v1) :: t1, (k2, v2) :: t2 => k1 == k2 && lfBeq v1 v2 && methodsBeq t1 t2
  | _, _ => false

end

/-- Interpreter.is_truth: `null` and `false` are falsey, everything
else (including JS `undefined`, which is neither `=== null` nor a
boolean) is truthy. -/
def is_truth : Value → Bool
  | .nil => false
  | .boolean b => b
  | _ => true

/-- Interpreter.is_equal: JS `===`.  Primitives compare by value; an
instance reference compares by heap index (object identity).  For
LoxFunction and LoxClass objects JS compares object identity; they are
compared structurally here - field-identical callables built at
different times are distinguished by `===` but not by this model, a
divergence no theorem below relies on. -/
def js_eq : Value → Value → Bool
  | .nil, .nil => true
  | .boolean a, .boolean b => a == b
  | .num a, .num b => a == b
  | .str a, .str b => a == b
  | .clock, .clock => true
  | .func a, .func b => lfBeq a b
  | .klass a, .klass b => classBeq a b
  | .inst a, .inst b => a == b
  | .undef, .undef => true
  | _, _ => false

/-- The LiteralExpr payload as a runtime value. -/
def litToValue : LitV → Value
  | .null => .nil
  | .boolean b => .boolean b
  | .num q => .num q
  | .str s => .str s

/-- The operator dispatch of Interpreter.visitBinaryExpr, after both
operands are evaluated.  `/` on rationals sends division by zero to 0
where IEEE-754 yields an infinity or NaN; no theorem below touches
that case.  The misspelling `nubmers` is the source's. -/
def binaryOp (op : Token) (l r : Value) : Res Value :=
  match op.type with
  | .MINUS =>
    match l, r with
    | .num a, .num b => .ok (.num (a - b))
    | _, _ => .halt (.err op "Operands must be numbers.")
  | .SLASH =>
    match l, r with
    | .num a, .num b => .ok (.num (a / b))
    | _, _ => .halt (.err op "Operands must be numbers.")
  | .STAR =>
    match l, r with
    | .num a, .num b => .ok (.num (a * b))
    | _, _ => .halt (.err op "Operands must be numbers.")
  | .PLUS =>
    match l, r with
    | .num a, .num b => .ok (.num (a + b))
    | .str a, .str b => .ok (.str (a ++ b))
    | _, _ => .halt (.err op "Operands must be strings or nubmers")
  | .GREATER =>
    match l, r with
    | .num a, .num b => .ok (.boolean (decide (a > b)))
    | _, _ => .halt (.err op "Operands must be numbers.")
  | .GREATER_EQUAL =>
    match l, r with
    | .num a, .num b => .ok (.boolean (decide (a ≥ b)))
    | _, _ => .halt (.err op "Operands must be numbers.")
  | .LESS =>
    match l, r with
    | .num a, .num b => .ok (.boolean (decide (a < b)))
    | _, _ => .halt (.err op "Operands must be numbers.")
  | .LESS_EQUAL =>
    match l, r with
    | .num a, .num b => .ok (.boolean (decide (a ≤ b)))
    | _, _ => .halt (.err op "Operands must be numbers.")
  | .DOUBLE_EQUAL => .ok (.boolean (js_eq l r))
  | .NOT_EQUAL => .ok (.boolean (!js_eq l r))
  | _ => .ok .nil

/-- The operator dispatch of Interpreter.visitUnaryExpr. -/
def unaryOp (op : Token) (v : Value) : Res Value :=
  match op.type with
  | .MINUS =>
    match v with
    | .num a => .ok (.num (-a))
    | _ => .halt (.err op "Operand must be a number.")
  | .BANG => .ok (.boolean (!is_truth v))
  | _ => .ok .nil

/-- LoxFunction.to_string: the template literal `<fn NAME>`. -/
def LoxFunctionV.to_string (f : LoxFunctionV) : String :=
  "<fn " ++ f.func.name.lexeme ++ ">"

/-- LoxClass.to_string: the source returns the empty string literal. -/
def LoxClassV.to_string (_ : LoxClassV) : String :=
  ""

/-- GlobalClock.to_string. -/
def clockToString : String :=
  "<GlobalClock>"

/-- `Map.get` on a method table. -/
def methodsGet (m : List (String × LoxFunctionV)) (k : String) :
    Option LoxFunctionV :=
  match m with
  | [] => none
  | (k', v) :: t => if k' = k then some v else methodsGet t k

/-- LoxClass.find_method: own table first, then the superclass chain. -/
def find_method (c : LoxClassV) (n : String) : Option LoxFunctionV :=
  match c with
  | .mk _ sup methods =>
    match methodsGet methods n with
    | some m => some m
    | none =>
      match sup with
      | some sc => find_method sc n
      | none => none

/-- The arity of a callable (`LoxCallable.arity`); `none` for a
non-callable value (`instanceof LoxCallable` fails). -/
def Value.arity : Value → Option Nat
  | .clock => some 0
  | .func f => some f.func.params.length
  | .klass c =>
    some (match find_method c "init" with
      | some i => i.func.params.length
      | none => 0)
  | _ => none

/-- Environment.define on the frame heap (unconditional `Map.set`). -/
def RState.defineVar (s : RState) (ref : Nat) (name : String) (v : Value) :
    RState :=
  match s.frames[ref]? with
  | some fr => { s with frames := s.frames.set ref { fr with vars := mapSet fr.vars name v } }
  | none => s

/-- Environment.ancestor: walk `d` `enclosing` links; `none` models the
walk running off the root (in JS the non-null assertion produces `null`
and the next use a TypeError). -/
def ancestor (s : RState) (ref d : Nat) : Option Nat :=
  match d with
  | 0 => some ref
  | d' + 1 =>
    match s.frames[ref]? with
    | some fr =>
      match fr.parent with
      | some pr => ancestor s pr d'
      | none => none
    | none => none

/-- Environment.get_at: `ancestor(d).values.get(name)`.  The lookup is
unchecked in the source; a miss returns JS `undefined`, which is
modelled as `Value.undef` together with the ghost `unbound_reads` tick
(see RState).  The ghost counter also ticks on the two crash paths, so
`unbound_reads = 0` over a run states exactly that every `get_at` call
found its frame and returned a value bound in it. -/
def get_at (s : RState) (ref d : Nat) (name : String) : Res Value × RState :=
  match ancestor s ref d with
  | none => (.halt (.crash "TypeError: enclosing environment is null"),
      { s with unbound_reads := s.unbound_reads + 1 })
  | some a =>
    match s.frames[a]? with
    | none => (.halt (.crash "TypeError: environment frame is missing"),
        { s with unbound_reads := s.unbound_reads + 1 })
    | some fr =>
      match mapGet fr.vars name with
      | some v => (.ok v, s)
      | none => (.ok .undef, { s with unbound_reads := s.unbound_reads + 1 })

/-- Environment.assign_at: `ancestor(d).values.set(name, v)` (which
creates the binding when absent). -/
def assign_at (s : RState) (ref d : Nat) (name : String) (v : Value) :
    Res Unit × RState :=
  match ancestor s ref d with
  | none => (.halt (.crash "TypeError: enclosing environment is null"), s)
  | some a =>
    match s.frames[a]? with
    | none => (.halt (.crash "TypeError: environment frame is missing"), s)
    | some fr =>
      (.ok (), { s with frames := s.frames.set a { fr with vars := mapSet fr.vars name v } })

/-- Environment.get: the checked ambient walk up the `enclosing` chain;
a RuntimeError on a full miss.  The chain fuel is a model artifact -
parents always point to earlier frames, so `frames.length + 1` never
runs out. -/
def env_get : Nat → RState → Nat → Token → Res Value
  | 0, _, _, _ => .halt (.crash "environment chain exceeded the heap size")
  | f + 1, s, ref, name =>
    match s.frames[ref]? with
    | none => .halt (.crash "TypeError: environment frame is missing")
    | some fr =>
      match mapGet fr.vars name.lexeme with
      | some v => .ok v
      | none =>
        match fr.parent with
        | some p => env_get f s p name
        | none => .halt (.err name ("Undefined variable " ++ name.lexeme))

/-- Environment.assign: the checked ambient assignment. -/
def env_assign : Nat → RState → Nat → Token → Value → Res Unit × RState
  | 0, s, _, _, _ => (.halt (.crash "environment chain exceeded the heap size"), s)
  | f + 1, s, ref, name, v =>
    match s.frames[ref]? with
    | none => (.halt (.crash "TypeError: environment frame is missing"), s)
    | some fr =>
      if mapHas fr.vars name.lexeme then
        (.ok (), { s with frames := s.frames.set ref { fr with vars := mapSet fr.vars name.lexeme v } })
      else
        match fr.parent with
        | some p => env_assign f s p name v
        | none => (.halt (.err name ("Undefined variable " ++ name.lexeme)), s)

/-- Interpreter.look_up_variable: a recorded distance uses
`env.get_at`, otherwise `globals.get` (frame 0). -/
def look_up_variable (s : RState) (name : Token) (nid : Nat) :
    Res Value × RState :=
  match localsGet s.locals nid with
  | some d => get_at s s.envRef d name.lexeme
  | none => (env_get (s.frames.length + 1) s 0 name, s)

/-- LoxFunction.bind: a one-frame environment extension defining `this`
to the instance, closing a copy of the method over it. -/
def bindMethod (m : LoxFunctionV) (iid : Nat) (s : RState) :
    LoxFunctionV × RState :=
  let newRef := s.frames.length
  ({ m with closure := newRef },
   { s with frames := s.frames ++ [⟨[("this", Value.inst iid)], some m.closure⟩] })

/-- The parameter-defining loop of LoxFunction.call; `args[i]` beyond
the end of the array is JS `undefined` (unreachable after the arity
check in visitCallExpr). -/
def defineParams (params : List Token) (args : List Value) (ref : Nat)
    (s : RState) : RState :=
  match params, args with
  | [], _ => s
  | t :: ps, a :: vs => defineParams ps vs ref (s.defineVar ref t.lexeme a)
  | t :: ps, [] => defineParams ps [] ref (s.defineVar ref t.lexeme .undef)

mutual

/-- Interpreter.evaluate / the visitXxxExpr methods, fuel-indexed.
The Call case follows the source order exactly: the arguments are
evaluated first (left to right), then the callee, then the
`instanceof LoxCallable` test, then the arity check, then the call.
The Class/Get/Set/This machinery of the evaluator is present even
though the parser of this repository cannot produce such nodes. -/
def evalExpr : Nat → Expr → RState → Res Value × RState
  | 0, _, s => (.halt .timeout, s)
  | f + 1, e, s =>
    match e with
    | .literal v => (.ok (litToValue v), s)
    | .grouping inner => evalExpr f inner s
    | .unary op rgt =>
      match evalExpr f rgt s with
      | (.ok v, s1) => (unaryOp op v, s1)
      | (.halt h, s1) => (.halt h, s1)
    | .binary l op rgt =>
      match evalExpr f l s with
      | (.ok lv, s1) =>
        match evalExpr f rgt s1 with
        | (.ok rv, s2) => (binaryOp op lv rv, s2)
        | (.halt h, s2) => (.halt h, s2)
      | (.halt h, s1) => (.halt h, s1)
    | .logical l op rgt =>
      match evalExpr f l s with
      | (.ok lv, s1) =>
        if op.type = .OR then
          if is_truth lv then (.ok lv, s1) else evalExpr f rgt s1
        else if op.type = .AND then
          if !is_truth lv then (.ok lv, s1) else evalExpr f rgt s1
        else (.halt (.err op "Unknown logical operator"), s1)
      | (.halt h, s1) => (.halt h, s1)
    | .varE name nid => look_up_variable s name nid
    | .assign name v nid =>
      match evalExpr f v s with
      | (.ok val, s1) =>
        match localsGet s1.locals nid with
        | some d =>
          match assign_at s1 s1.envRef d name.lexeme val with
          | (.ok _, s2) => (.ok val, s2)
          | (.halt h, s2) => (.halt h, s2)
        | none =>
          match env_assign (s1.frames.length + 1) s1 0 name val with
          | (.ok _, s2) => (.ok val, s2)
          | (.halt h, s2) => (.halt h, s2)
      | (.halt h, s1) => (.halt h, s1)
    | .call callee paren args =>
      match evalArgs f args s with
      | (.ok vs, s1) =>
        match evalExpr f callee s1 with
        | (.ok fv, s2) =>
          match fv.arity with
          | none => (.halt (.err paren "Can only call functions and classes."), s2)
          | some n =>
            if vs.length ≠ n then
              (.halt (.err paren ("Expected " ++ Nat.repr n ++ " arguments but got "
                ++ Nat.repr vs.length ++ ".")), s2)
            else callValue f fv vs s2
        | (.halt h, s2) => (.halt h, s2)
      | (.halt h, s1) => (.halt h, s1)
    | .getE obj name =>
      match evalExpr f obj s with
      | (.ok ov, s1) =>
        match ov with
        | .inst iid =>
          match s1.insts[iid]? with
          | none => (.halt (.crash "TypeError: instance record is missing"), s1)
          | some ir =>
            match mapGet ir.fields name.lexeme with
            | some v => (.ok v, s1)
            | none =>
              match find_method ir.klass name.lexeme with
              | some m =>
                let (bound, s2) := bindMethod m iid s1
                (.ok (.func bound), s2)
              | none => (.halt (.err name ("Undefined property " ++ name.lexeme)), s1)
        | _ => (.halt (.err name "Only instances have properties."), s1)
      | (.halt h, s1) => (.halt h, s1)
    | .setE obj name v =>
      match evalExpr f obj s with
      | (.ok ov, s1) =>
        match ov with
        | .inst iid =>
          match evalExpr f v s1 with
          | (.ok val, s2) =>
            match s2.insts[iid]? with
            | none => (.halt (.crash "TypeError: instance record is missing"), s2)
            | some ir =>
              let ir1 : InstRec := { ir with fields := mapSet ir.fields name.lexeme val }
              (.ok val, { s2 with insts := s2.insts.set iid ir1 })
          | (.halt h, s2) => (.halt h, s2)
        | _ => (.halt (.err name "Only instances have fields."), s1)
      | (.halt h, s1) => (.halt h, s1)
    | .thisE keyword nid => look_up_variable s keyword nid

/-- The argument loop of Interpreter.visitCallExpr (left to right). -/
def evalArgs : Nat → List Expr → RState → Res (List Value) × RState
  | 0, _, s => (.halt .timeout, s)
  | _ + 1, [], s => (.ok [], s)
  | f + 1, e :: rest, s =>
    match evalExpr f e s with
    | (.ok v, s1) =>
      match evalArgs f rest s1 with
      | (.ok vs, s2) => (.ok (v :: vs), s2)
      | (.halt h, s2) => (.halt h, s2)
    | (.halt h, s1) => (.halt h, s1)

/-- LoxCallable.call for each callable: GlobalClock returns the host
clock (abstracted into the state), LoxFunction builds the parameter
frame and runs the body catching only the Return unwind, LoxClass
allocates the instance and runs a bound `init` if there is one. -/
def callValue : Nat → Value → List Value → RState → Res Value × RState
  | 0, _, _, s => (.halt .timeout, s)
  | f + 1, fv, vs, s =>
    match fv with
    | .clock => (.ok (.num s.clockNow), s)
    | .func lf =>
      let newRef := s.frames.length
      let s1 := { s with frames := s.frames ++ [⟨[], some lf.closure⟩] }
      let s2 := defineParams lf.func.params vs newRef s1
      match execute_block f lf.func.body newRef s2 with
      | (.ok _, s3) =>
        if lf.is_initializer then get_at s3 lf.closure 0 "this" else (.ok .nil, s3)
      | (.halt (.ret v), s3) =>
        if lf.is_initializer then get_at s3 lf.closure 0 "this" else (.ok v, s3)
      | (.halt h, s3) => (.halt h, s3)
    | .klass c =>
      let iid := s.insts.length
      let s1 := { s with insts := s.insts ++ [⟨c, []⟩] }
      match find_method c "init" with
      | none => (.ok (.inst iid), s1)
      | some m =>
        let (bound, s2) := bindMethod m iid s1
        match callValue f (.func bound) vs s2 with
        | (.ok _, s3) => (.ok (.inst iid), s3)
        | (.halt h, s3) => (.halt h, s3)
    | _ => (.halt (.crash "call on a value that is not a LoxCallable"), s)

/-- Interpreter.execute / the visitXxxStmt methods.  visitClassStmt
reads `stmt.superclass`, a field the ClassStmt class does not declare;
the JS value is `undefined`, the `!== null` test passes, and
`evaluate(undefined)` throws a TypeError - hence the crash outcome. -/
def execStmt : Nat → Stmt → RState → Res Unit × RState
  | 0, _, s => (.halt .timeout, s)
  | f + 1, st, s =>
    match st with
    | .expr e =>
      match evalExpr f e s with
      | (.ok _, s1) => (.ok (), s1)
      | (.halt h, s1) => (.halt h, s1)
    | .print e =>
      match evalExpr f e s with
      | (.ok v, s1) => (.ok (), { s1 with console := s1.console ++ [.val v] })
      | (.halt h, s1) => (.halt h, s1)
    | .varD name init =>
      match init with
      | none => (.ok (), s.defineVar s.envRef name.lexeme .nil)
      | some e =>
        match evalExpr f e s with
        | (.ok v, s1) => (.ok (), s1.defineVar s1.envRef name.lexeme v)
        | (.halt h, s1) => (.halt h, s1)
    | .block stmts =>
      let newRef := s.frames.length
      execute_block f stmts newRef
        { s with frames := s.frames ++ [⟨[], some s.envRef⟩] }
    | .ifS c t e? =>
      match evalExpr f c s with
      | (.ok cv, s1) =>
        if is_truth cv then execStmt f t s1
        else
          match e? with
          | some e => execStmt f e s1
          | none => (.ok (), s1)
      | (.halt h, s1) => (.halt h, s1)
    | .whileS c b =>
      match evalExpr f c s with
      | (.ok cv, s1) =>
        if is_truth cv then
          match execStmt f b s1 with
          | (.ok _, s2) => execStmt f (.whileS c b) s2
          | (.halt h, s2) => (.halt h, s2)
        else (.ok (), s1)
      | (.halt h, s1) => (.halt h, s1)
    | .function fs =>
      (.ok (), s.defineVar s.envRef fs.name.lexeme (.func ⟨fs, s.envRef, false⟩))
    | .ret _ v? =>
      match v? with
      | none => (.halt (.ret .nil), s)
      | some e =>
        match evalExpr f e s with
        | (.ok v, s1) => (.halt (.ret v), s1)
        | (.halt h, s1) => (.halt h, s1)
    | .classS _ _ =>
      (.halt (.crash "TypeError: evaluate(stmt.superclass) with stmt.superclass undefined"), s)

/-- The statement loop shared by interpret and execute_block. -/
def execStmts : Nat → List Stmt → RState → Res Unit × RState
  | 0, _, s => (.halt .timeout, s)
  | _ + 1, [], s => (.ok (), s)
  | f + 1, st :: rest, s =>
    match execStmt f st s with
    | (.ok _, s1) => execStmts f rest s1
    | (.halt h, s1) => (.halt h, s1)

/-- Interpreter.execute_block: save `this.env`, run the statements in
the given environment, and restore the saved environment in a
`finally` - on the normal, Return-unwind, RuntimeError and host-crash
paths alike. -/
def execute_block : Nat → List Stmt → Nat → RState → Res Unit × RState
  | 0, _, _, s => (.halt .timeout, s)
  | f + 1, stmts, env, s =>
    let prev := s.envRef
    match execStmts f stmts { s with envRef := env } with
    | (r, s1) => (r, { s1 with envRef := prev })

end

/-- Lox.runtime_error: print `MESSAGE\n[line N]` and set the flag. -/
def runtime_error (tok : Token) (msg : String) (s : RState) : RState :=
  { s with
    console := s.console ++ [.text (msg ++ "\n[line " ++ Nat.repr tok.line ++ "]")],
    had_runtime_error := true }

/-- Interpreter.interpret: run the statements inside a try whose catch
receives every exception but reports only RuntimeError; a Return
unwind or a host exception reaching this point is silently discarded
(`catch (err) { if (err instanceof RuntimeError) ... }` with no else). -/
def interpret (f : Nat) (stmts : List Stmt) (s : RState) : Res Unit × RState :=
  match execStmts f stmts s with
  | (.ok _, s1) => (.ok (), s1)
  | (.halt (.err tok msg), s1) => (.ok (), runtime_error tok msg s1)
  | (.halt (.ret _), s1) => (.ok (), s1)
  | (.halt (.crash _), s1) => (.ok (), s1)
  | (.halt .timeout, s1) => (.halt .timeout, s1)

/-- The interpreter state at startup: the globals frame holding the
`clock` native, the side table delivered by the resolver, and stdout
carried over from scanning. -/
def initState (console0 : List ConsoleEntry) (tbl : List (Nat × Nat)) : RState :=
  { frames := [⟨[("clock", .clock)], none⟩], insts := [], envRef := 0,
    locals := tbl, console := console0, had_runtime_error := false,
    clockNow := 0, unbound_reads := 0 }

/-- The observable outcome of Lox.run: a completed run (stdout and the
runtime-error flag), an uncaught static exception from parse or
resolve (stdout is whatever scanning printed), or fuel exhaustion. -/
inductive RunResult where
  | done (console : List ConsoleEntry) (had_runtime_error : Bool)
  | staticError (msg : String) (console : List ConsoleEntry)
  | timeout

/-- Lox.run on a source string: scan (scanning errors are only logged),
parse, resolve, interpret.  A parse or resolve exception propagates
out of `run` uncaught, so evaluation never starts. -/
def runLox (f : Nat) (src : String) : RunResult :=
  match scan_tokens f (initLexSt src) with
  | (toks, lst) =>
    match parseProgram f toks with
    | .error .fuel => .timeout
    | .error (.thrown m) => .staticError m lst.console
    | .error (.crash m) => .staticError m lst.console
    | .ok stmts =>
      match resolveProgram f stmts with
      | .error .fuel => .timeout
      | .error (.thrown m) => .staticError m lst.console
      | .ok tbl =>
        match interpret f stmts (initState lst.console tbl) with
        | (.halt _, _) => .timeout
        | (.ok _, s) => .done s.console s.had_runtime_error

attribute [simp] scan_tokens scan_loop next_token ident_loop digits_loop string_loop
  comment_loop initLexSt LexSt.has_more LexSt.peek_char LexSt.peek_next_char
  LexSt.next_char LexSt.check_next LexSt.make_token is_digit is_identifier
  keywordType keywords sliceChars numValue digitsVal loxErrorEntry

attribute [simp] parseProgram Parser.parse Parser.parse_loop Parser.declaration
  Parser.var_declaration Parser.function Parser.function_tail Parser.params_loop
  Parser.block Parser.block_loop Parser.statement Parser.if_statement
  Parser.while_statement Parser.for_statement Parser.for_tail Parser.for_tail2
  Parser.for_tail3 Parser.return_statement Parser.print_statement
  Parser.expression_statement Parser.expression Parser.assignment Parser.or
  Parser.or_loop Parser.and Parser.and_loop Parser.equality Parser.equality_loop
  Parser.comparison Parser.comparison_loop Parser.term Parser.term_loop
  Parser.factor Parser.factor_loop Parser.unary Parser.call Parser.call_loop
  Parser.finish_call Parser.arguments Parser.args_loop Parser.primary
  PSt.peekT PSt.nextT PSt.has_moreT PSt.freshId peek_matchT expectT

attribute [simp] resolveProgram resolveStmts resolveStmt resolveExpr resolveExprs
  resolve_function declParams resolve_local RSt.begin_scope RSt.end_scope
  RSt.has_scope RSt.declare RSt.define bmapGet bmapSet bmapHas localsSet localsGet
  Token.toString typeName

attribute [simp] interpret execStmts execStmt execute_block evalExpr evalArgs
  callValue look_up_variable get_at assign_at env_get env_assign ancestor
  RState.defineVar defineParams bindMethod mapGet mapSet mapHas methodsGet
  find_method Value.arity is_truth js_eq litToValue binaryOp unaryOp initState
  runtime_error runLox

/-! ### Auxiliary definitions and artifacts for the individual claims -/

/-- Modelled from the spec sentence "the callee expression itself is
evaluated *before* the arguments": the Call evaluation order the spec
asserts, stated as a named definition so it can be compared with
`evalExpr` (which implements the source order). -/
def evalCallCalleeFirst (f : Nat) (callee : Expr) (paren : Token)
    (args : List Expr) (s : RState) : Res Value × RState :=
  match evalExpr f callee s with
  | (.ok fv, s1) =>
    match evalArgs f args s1 with
    | (.ok vs, s2) =>
      match fv.arity with
      | none => (.halt (.err paren "Can only call functions and classes."), s2)
      | some n =>
        if vs.length ≠ n then
          (.halt (.err paren ("Expected " ++ Nat.repr n ++ " arguments but got "
            ++ Nat.repr vs.length ++ ".")), s2)
        else callValue f fv vs s2
    | (.halt h, s2) => (.halt h, s2)
  | (.halt h, s1) => (.halt h, s1)

/-- The arguments-then-callee order of Interpreter.visitCallExpr, as a
named definition (it is the body of the Call case of `evalExpr`). -/
def evalCallArgsFirst (f : Nat) (callee : Expr) (paren : Token)
    (args : List Expr) (s : RState) : Res Value × RState :=
  match evalArgs f args s with
  | (.ok vs, s1) =>
    match evalExpr f callee s1 with
    | (.ok fv, s2) =>
      match fv.arity with
      | none => (.halt (.err paren "Can only call functions and classes."), s2)
      | some n =>
        if vs.length ≠ n then
          (.halt (.err paren ("Expected " ++ Nat.repr n ++ " arguments but got "
            ++ Nat.repr vs.length ++ ".")), s2)
        else callValue f fv vs s2
    | (.halt h, s2) => (.halt h, s2)
  | (.halt h, s1) => (.halt h, s1)

def aTok : Token := ⟨.IDENTIFIER, "a", .str "a", 1⟩

def gTok : Token := ⟨.IDENTIFIER, "g", .str "g", 1⟩

def xTok : Token := ⟨.IDENTIFIER, "x", .str "x", 1⟩

def iTok : Token := ⟨.IDENTIFIER, "i", .str "i", 1⟩

def parenTok : Token := ⟨.RIGHT_PAREN, ")", .null, 1⟩

/-- The Lox function `fun g(x) { print x; }` (the body's `x` reference
carries node id 1, resolved at distance 0). -/
def gDecl : FunctionStmt := ⟨gTok, [xTok], [.print (.varE xTok 1)]⟩

/-- The call expression `(a = g)(a)`: the callee writes `a` and the
argument reads `a`, so the two evaluation orders are observably
different. -/
def orderProbe : Expr :=
  .call (.grouping (.assign aTok (.varE gTok 2) 3)) parenTok [.varE aTok 4]

/-- The state after `var a; fun g(x) { print x; }` at the globals:
`a = nil`, `g` bound, and the resolver's table for `g`'s body. -/
def orderState : RState :=
  { frames := [⟨[("clock", .clock), ("a", .nil), ("g", .func ⟨gDecl, 0, false⟩)], none⟩],
    insts := [], envRef := 0, locals := [(1, 0)], console := [],
    had_runtime_error := false, clockNow := 0, unbound_reads := 0 }

/-- The token stream of `class A { }`. -/
def classToks : List Token :=
  [⟨.CLASS, "class", .str "class", 1⟩, ⟨.IDENTIFIER, "A", .str "A", 1⟩,
   ⟨.LEFT_BRACE, "\x7b", .null, 1⟩, ⟨.RIGHT_BRACE, "\x7d", .null, 1⟩,
   ⟨.EOF, "", .str "", 1⟩]

/-- The token stream of `for (var i = 0; i < 3; i = i + 1) print i;`. -/
def forGoodToks : List Token :=
  [⟨.FOR, "for", .str "for", 1⟩, ⟨.LEFT_PAREN, "(", .null, 1⟩,
   ⟨.VAR, "var", .str "var", 1⟩, iTok, ⟨.EQUAL, "=", .null, 1⟩,
   ⟨.NUMBER, "0", .num 0, 1⟩, ⟨.SEMICOLON, ";", .null, 1⟩,
   iTok, ⟨.LESS, "<", .null, 1⟩, ⟨.NUMBER, "3", .num 3, 1⟩,
   ⟨.SEMICOLON, ";", .null, 1⟩, iTok, ⟨.EQUAL, "=", .null, 1⟩,
   iTok, ⟨.PLUS, "+", .null, 1⟩, ⟨.NUMBER, "1", .num 1, 1⟩,
   ⟨.RIGHT_PAREN, ")", .null, 1⟩, ⟨.PRINT, "print", .str "print", 1⟩,
   iTok, ⟨.SEMICOLON, ";", .null, 1⟩, ⟨.EOF, "", .str "", 1⟩]

/-- The desugared AST the parser produces for that for statement:
`{ var i = 0; while (i < 3) { print i; i = i + 1; } }`. -/
def forGoodAst : Stmt :=
  .block
    [.varD iTok (some (.literal (.num 0))),
     .whileS (.binary (.varE iTok 0) ⟨.LESS, "<", .null, 1⟩ (.literal (.num 3)))
       (.block
         [.print (.varE iTok 4),
          .expr (.assign iTok
            (.binary (.varE iTok 2) ⟨.PLUS, "+", .null, 1⟩ (.literal (.num 1))) 3)])]

/-! ### Claim theorems -/

/-- C9: on every exit path from execute_block - normal completion,
return-unwind, runtime error, host crash (and the fuel artifact) - the
interpreter's current environment is restored exactly to the
environment that was current before entry. -/
theorem execute_block_restores_env (f : Nat) (stmts : List Stmt) (env : Nat)
    (s : RState) : ((execute_block f stmts env s).2).envRef = s.envRef := by
  cases f with
  | zero => rfl
  | succ f =>
    show ((match execStmts f stmts { s with envRef := env } with
      | (r, s1) => (r, { s1 with envRef := s.envRef })).2).envRef = s.envRef
    cases execStmts f stmts { s with envRef := env } with
    | mk r s1 => rfl

/-- C1 (failing input): running `class A { }` aborts with the parse
error "Unexpected token type" - Parser.declaration has no `class`
branch and Parser.primary's default throws - so no Class statement node
is ever produced, although the grammar, the README and the evaluator
all have classes (and ClassStmt lacks the superclass field and no
SuperExpr type exists). -/
theorem class_declaration_is_rejected :
    runLox 60 "class A \x7b \x7d" = .staticError "Unexpected token type" [] := by
  have hscan : scan_tokens 60 (initLexSt "class A \x7b \x7d")
      = (classToks, ⟨"class A \x7b \x7d".toList, 10, 11, 1, []⟩) := by
    simp +decide [classToks, List.lookup, List.take, List.drop]
  have hparse : parseProgram 60 classToks = .error (.thrown "Unexpected token type") := rfl
  simp only [runLox, hscan, hparse]

/-- C8 (failing input): `for (;;) print 1;` aborts with a parse error -
the empty-initializer semicolon is only peeked at, never consumed, so
`expect(SEMICOLON)` after the condition slot eats the first `;` and the
increment slot tries to parse the second `;` as an expression.  With an
initializer present the desugaring does work: the second conjunct shows
the exact AST `{ var i = 0; while (i < 3) { print i; i = i + 1; } }`
produced for `for (var i = 0; i < 3; i = i + 1) print i;`. -/
theorem for_with_missing_initializer_is_rejected :
    runLox 60 "for (;;) print 1;" = .staticError "Unexpected token type" [] ∧
    parseProgram 90 forGoodToks = .ok [forGoodAst] := by
  constructor
  · have hscan : scan_tokens 60 (initLexSt "for (;;) print 1;")
        = ([⟨.FOR, "for", .str "for", 1⟩, ⟨.LEFT_PAREN, "(", .null, 1⟩,
            ⟨.SEMICOLON, ";", .null, 1⟩, ⟨.SEMICOLON, ";", .null, 1⟩,
            ⟨.RIGHT_PAREN, ")", .null, 1⟩, ⟨.PRINT, "print", .str "print", 1⟩,
            ⟨.NUMBER, "1", .num 1, 1⟩, ⟨.SEMICOLON, ";", .null, 1⟩,
            ⟨.EOF, "", .str "", 1⟩],
           ⟨"for (;;) print 1;".toList, 16, 17, 1, []⟩) := by
      simp +decide [List.lookup, List.take, List.drop]
    have hparse : parseProgram 60
        [⟨.FOR, "for", .str "for", 1⟩, ⟨.LEFT_PAREN, "(", .null, 1⟩,
         ⟨.SEMICOLON, ";", .null, 1⟩, ⟨.SEMICOLON, ";", .null, 1⟩,
         ⟨.RIGHT_PAREN, ")", .null, 1⟩, ⟨.PRINT, "print", .str "print", 1⟩,
         ⟨.NUMBER, "1", .num 1, 1⟩, ⟨.SEMICOLON, ";", .null, 1⟩,
         ⟨.EOF, "", .str "", 1⟩]
        = .error (.thrown "Unexpected token type") := rfl
    simp only [runLox, hscan, hparse]
  · rfl

/-- C2 (counterexample): evaluating the call `(a = g)(a)` in a state
where `a = nil` and `g` is a unary function that prints its argument:
the interpreter evaluates the argument first (reading `nil`) and the
callee afterwards, printing `nil`; the callee-first order the claim
asserts would print the function value.  The two orders produce
different results, refuting the claim at this input. -/
theorem call_evaluates_arguments_before_callee :
    (evalExpr 30 orderProbe orderState).2.console = [.val .nil] ∧
    (evalCallCalleeFirst 29 (.grouping (.assign aTok (.varE gTok 2) 3))
        parenTok [.varE aTok 4] orderState).2.console
      = [.val (.func ⟨gDecl, 0, false⟩)] ∧
    evalExpr 30 orderProbe orderState ≠
      evalCallCalleeFirst 29 (.grouping (.assign aTok (.varE gTok 2) 3))
        parenTok [.varE aTok 4] orderState := by
  refine ⟨rfl, rfl, fun h => ?_⟩
  have e1 : (evalExpr 30 orderProbe orderState).2.console = [.val .nil] := rfl
  have e2 : (evalCallCalleeFirst 29 (.grouping (.assign aTok (.varE gTok 2) 3))
      parenTok [.varE aTok 4] orderState).2.console
      = [.val (.func ⟨gDecl, 0, false⟩)] := rfl
  have hc : ([ConsoleEntry.val Value.nil] : List ConsoleEntry)
      = [ConsoleEntry.val (Value.func ⟨gDecl, 0, false⟩)] := by
    rw [← e1, ← e2, h]
  injection hc with h1 _
  injection h1 with h2
  exact Value.noConfusion h2

/-- C2 (amended): for every call expression the interpreter evaluates
the arguments left to right first, then the callee, then performs the
callable and arity checks and invokes the callee. -/
theorem call_order_is_arguments_then_callee (f : Nat) (callee : Expr)
    (paren : Token) (args : List Expr) (s : RState) :
    evalExpr (f + 1) (.call callee paren args) s
      = evalCallArgsFirst f callee paren args s :=
  rfl

/-- C4 (counterexample): the string form of a class is not the class
name - LoxClass.to_string returns the empty string. -/
theorem class_to_string_is_not_the_class_name :
    LoxClassV.to_string (.mk "A" none []) ≠ "A" := by
  decide

/-- C4 (amended): a print statement appends exactly one stdout entry,
the raw evaluated value handed to console.log (host formatting, not an
interpreter-side string form); of the interpreter's own to_string
renderings, a function is `<fn NAME>` but a class is the empty string,
not the class name. -/
theorem print_emits_raw_value_and_to_string_forms :
    (∀ fn : LoxFunctionV, fn.to_string = "<fn " ++ fn.func.name.lexeme ++ ">") ∧
    (∀ c : LoxClassV, c.to_string = "") ∧
    (∀ (f : Nat) (e : Expr) (s : RState) (v : Value) (s1 : RState),
      evalExpr f e s = (.ok v, s1) →
      execStmt (f + 1) (.print e) s
        = (.ok (), { s1 with console := s1.console ++ [.val v] })) := by
  refine ⟨fun fn => rfl, fun c => rfl, fun f e s v s1 h => ?_⟩
  simp only [execStmt, h]

/-- C4 (witness for the amended claim): `print 1;` from the start state
appends the single raw value 1. -/
theorem print_emits_raw_value_witness :
    execStmt 2 (.print (.literal (.num 1))) (initState [] [])
      = (.ok (), { initState [] [] with console := [.val (.num 1)] }) := by
  have h := print_emits_raw_value_and_to_string_forms.2.2 1
    (.literal (.num 1)) (initState [] []) (.num 1) (initState [] []) rfl
  exact h

/-- C5 (counterexample): scanning the unterminated string `"ab` reports
the error but still produces a STRING token (whose literal is the
text after the opening quote), refuting "produces no token". -/
theorem unterminated_string_produces_a_token :
    (scan_tokens 10 (initLexSt "\"ab")).1
      = [⟨.STRING, "\"ab", .str "ab", 1⟩, ⟨.EOF, "", .str "", 1⟩] ∧
    (scan_tokens 10 (initLexSt "\"ab")).2.console
      = [.text "Error: Unterminated string."] := by
  constructor
  · simp +decide [List.lookup, List.take, List.drop]
  · simp +decide [List.lookup, List.take, List.drop]

/-- C6 (counterexample): running `@print 1;` logs the lexer error for
`@` as `Error: Unknown token @` - a report that does not contain the
line number 1 - and then still parses and evaluates the rest of the
file, printing 1: a lex error neither carries a line number nor aborts
the run. -/
theorem lex_error_has_no_line_and_does_not_abort :
    runLox 25 "@print 1;" = .done [.text "Error: Unknown token @", .val (.num 1)] false ∧
    ¬ '1' ∈ "Error: Unknown token @".toList := by
  constructor
  · have hscan : scan_tokens 25 (initLexSt "@print 1;")
        = ([⟨.PRINT, "print", .str "print", 1⟩, ⟨.NUMBER, "1", .num 1, 1⟩,
            ⟨.SEMICOLON, ";", .null, 1⟩, ⟨.EOF, "", .str "", 1⟩],
           ⟨"@print 1;".toList, 8, 9, 1, [.text "Error: Unknown token @"]⟩) := by
      simp +decide [List.lookup, List.take, List.drop]
    have hparse : parseProgram 25
        [⟨.PRINT, "print", .str "print", 1⟩, ⟨.NUMBER, "1", .num 1, 1⟩,
         ⟨.SEMICOLON, ";", .null, 1⟩, ⟨.EOF, "", .str "", 1⟩]
        = .ok [.print (.literal (.num 1))] := rfl
    have hres : resolveProgram 25 [.print (.literal (.num 1))] = .ok [] := rfl
    have hint : interpret 25 [.print (.literal (.num 1))]
        (initState [.text "Error: Unknown token @"] [])
        = (.ok (), { initState [.text "Error: Unknown token @"] [] with
            console := [.text "Error: Unknown token @", .val (.num 1)] }) := rfl
    simp only [runLox, hscan, hparse, hres, hint]
    rfl
  · decide

/-- Helper for the unterminated-string analysis: the string-body loop
consumes everything up to the end of input when no closing quote
exists, counting newlines into `line`. -/
theorem string_loop_no_quote : ∀ (k : Nat) (st : LexSt),
    st.code.length - st.current = k →
    st.current ≤ st.code.length →
    (∀ c ∈ st.code.drop st.current, c ≠ '"') →
    string_loop st = { st with
      current := st.code.length,
      line := st.line + ((st.code.drop st.current).filter (fun c => c = '\n')).length } := by
  intro k
  induction k with
  | zero =>
    intro st hk hle hq
    obtain ⟨code, start, cur, line, console⟩ := st
    simp only at hk hle hq
    have hcur : cur = code.length := by omega
    rw [string_loop]
    have hnot : ¬ ((⟨code, start, cur, line, console⟩ : LexSt).peek_char ≠ some '"' ∧
        (⟨code, start, cur, line, console⟩ : LexSt).has_more) := by
      simp only [LexSt.has_more, not_and, decide_eq_true_eq]
      intro _
      omega
    rw [dif_neg hnot]
    have hdr : code.drop cur = [] := by
      rw [hcur]
      exact List.drop_length _
    simp [hdr, hcur]
  | succ k ih =>
    intro st hk hle hq
    obtain ⟨code, start, cur, line, console⟩ := st
    simp only at hk hle hq ⊢
    have hlt : cur < code.length := by omega
    have hdrop : code.drop cur = code[cur] :: code.drop (cur + 1) :=
      List.drop_eq_getElem_cons hlt
    have hpk : (⟨code, start, cur, line, console⟩ : LexSt).peek_char = some code[cur] := by
      simp [LexSt.peek_char, List.getElem?_eq_getElem hlt]
    have hno : code[cur] ≠ '"' := by
      apply hq
      rw [hdrop]
      exact List.mem_cons_self _ _
    rw [string_loop]
    rw [dif_pos ?hc]
    case hc =>
      constructor
      · rw [hpk]
        intro hcon
        exact hno (by injection hcon)
      · simp only [LexSt.has_more, decide_eq_true_eq]
        omega
    rw [ih _ (by simp only; omega) (by simp only; omega) ?hq2]
    case hq2 =>
      intro c hc
      apply hq
      rw [hdrop]
      exact List.mem_cons_of_mem _ hc
    rw [hpk]
    simp only [hdrop, List.filter_cons, LexSt.mk.injEq, true_and, and_true]
    by_cases hnl : code[cur] = '\n'
    · simp [hnl]
      omega
    · simp [hnl]


set_option maxHeartbeats 1000000

/-- Helper for the amended C5: next_token at any state whose cursor
sits on a double quote with no closing quote in the rest of the input
logs "Unterminated string." at the post-literal line and produces the
STRING token holding the entire remaining text. -/
theorem next_token_unterminated (f : Nat) (code : List Char) (pos line0 : Nat)
    (console0 : List ConsoleEntry)
    (hq : code[pos]? = some '"')
    (hrest : ∀ c ∈ code.drop (pos + 1), c ≠ '"') :
    next_token (f + 1) ⟨code, pos, pos, line0, console0⟩
      = (some ⟨.STRING, String.mk (code.drop pos),
           .str (String.mk (code.drop (pos + 1))),
           line0 + ((code.drop (pos + 1)).filter (fun c => c = '\n')).length⟩,
         ⟨code, pos, code.length + 1,
          line0 + ((code.drop (pos + 1)).filter (fun c => c = '\n')).length,
          console0 ++ [loxErrorEntry
            (line0 + ((code.drop (pos + 1)).filter (fun c => c = '\n')).length)
            "Unterminated string."]⟩) := by
  have hlt : pos < code.length := by
    by_contra hc
    rw [List.getElem?_eq_none (by omega)] at hq
    exact Option.noConfusion hq
  have hsl := string_loop_no_quote (code.length - (pos + 1))
    ⟨code, pos, pos + 1, line0, console0⟩ rfl (by simp only; omega)
    (by simpa using hrest)
  rw [next_token]
  simp only [LexSt.next_char, LexSt.peek_char]
  simp only [hq]
  simp +decide only []
  rw [hsl]
  simp +decide [LexSt.has_more, LexSt.make_token, LexSt.next_char, sliceChars,
    loxErrorEntry, List.take_of_length_le]

/-- C5 (amended): at any point of scanning any source - arbitrary code
before the literal, cursor position, current line, prior output and
prior tokens - an opening double quote never closed before end of input
makes the scanner report "Unterminated string." at the current
(post-literal) line and still emit a STRING token whose literal is the
entire remaining text after the opening quote, finishing the scan. -/
theorem unterminated_string_reports_and_emits :
    ∀ (f : Nat) (code : List Char) (start0 pos line0 : Nat)
      (console0 : List ConsoleEntry) (acc : List Token),
    code[pos]? = some '"' →
    (∀ c ∈ code.drop (pos + 1), c ≠ '"') →
    scan_loop (f + 2) ⟨code, start0, pos, line0, console0⟩ acc
      = (acc ++ [⟨.STRING, String.mk (code.drop pos),
           .str (String.mk (code.drop (pos + 1))),
           line0 + ((code.drop (pos + 1)).filter (fun c => c = '\n')).length⟩],
         ⟨code, pos, code.length + 1,
          line0 + ((code.drop (pos + 1)).filter (fun c => c = '\n')).length,
          console0 ++ [loxErrorEntry
            (line0 + ((code.drop (pos + 1)).filter (fun c => c = '\n')).length)
            "Unterminated string."]⟩) := by
  intro f code start0 pos line0 console0 acc hq hrest
  have hlt : pos < code.length := by
    by_contra hc
    rw [List.getElem?_eq_none (by omega)] at hq
    exact Option.noConfusion hq
  have hnt := next_token_unterminated f code pos line0 console0 hq hrest
  have hloop2 : scan_loop (f + 1)
      ⟨code, pos, code.length + 1,
       line0 + ((code.drop (pos + 1)).filter (fun c => c = '\n')).length,
       console0 ++ [loxErrorEntry
         (line0 + ((code.drop (pos + 1)).filter (fun c => c = '\n')).length)
         "Unterminated string."]⟩
      (acc ++ [⟨.STRING, String.mk (code.drop pos),
        .str (String.mk (code.drop (pos + 1))),
        line0 + ((code.drop (pos + 1)).filter (fun c => c = '\n')).length⟩])
      = (acc ++ [⟨.STRING, String.mk (code.drop pos),
           .str (String.mk (code.drop (pos + 1))),
           line0 + ((code.drop (pos + 1)).filter (fun c => c = '\n')).length⟩],
         ⟨code, pos, code.length + 1,
          line0 + ((code.drop (pos + 1)).filter (fun c => c = '\n')).length,
          console0 ++ [loxErrorEntry
            (line0 + ((code.drop (pos + 1)).filter (fun c => c = '\n')).length)
            "Unterminated string."]⟩) := by
    rw [scan_loop]
    rw [if_neg ?hnm]
    case hnm =>
      simp only [LexSt.has_more, decide_eq_true_eq]
      omega
  rw [scan_loop]
  rw [if_pos ?hm]
  case hm =>
    simp only [LexSt.has_more, decide_eq_true_eq]
    omega
  simp only [hnt]
  exact hloop2


/-- C5 (witness for the amended claim): scanning `var x = "ab` from the
opening quote at position 8, with the three tokens of the prefix
already accumulated, reports the error and emits the STRING token
holding the rest. -/
theorem unterminated_string_reports_and_emits_witness :
    ("var x = \"ab".toList[8]? = some '"' ∧
      (∀ c ∈ "var x = \"ab".toList.drop 9, c ≠ '"')) ∧
    scan_loop 12 ⟨"var x = \"ab".toList, 0, 8, 1, []⟩
      [⟨.VAR, "var", .str "var", 1⟩, ⟨.IDENTIFIER, "x", .str "x", 1⟩,
       ⟨.EQUAL, "=", .null, 1⟩]
      = ([⟨.VAR, "var", .str "var", 1⟩, ⟨.IDENTIFIER, "x", .str "x", 1⟩,
          ⟨.EQUAL, "=", .null, 1⟩,
          ⟨.STRING, String.mk ("var x = \"ab".toList.drop 8),
           .str (String.mk ("var x = \"ab".toList.drop 9)), 1⟩],
         ⟨"var x = \"ab".toList, 8, 12, 1,
          [loxErrorEntry 1 "Unterminated string."]⟩) :=
  ⟨⟨by decide, by decide⟩, by
    have h := unterminated_string_reports_and_emits 10 "var x = \"ab".toList 0 8 1
      [] [⟨.VAR, "var", .str "var", 1⟩, ⟨.IDENTIFIER, "x", .str "x", 1⟩,
       ⟨.EQUAL, "=", .null, 1⟩] (by decide) (by decide)
    exact h⟩

/-- C6 (amended): Lox.error renders `Error: MESSAGE` with no line
number; a parse exception aborts the run before evaluation, as does a
resolution exception - the run result is the static error and stdout
is exactly what scanning printed, with no evaluation output.  Parse
error messages carry no line number, but one resolution error does:
Token.toString renders `LINE: TYPE LEXEME`, and the resolver's check
against reading a variable in its own initializer interpolates the
offending token into `Unable to resolve variable TOKEN`, demonstrated
end to end on the block program declaring `a` from `a`. -/
theorem static_errors_abort_before_evaluation :
    (∀ (l : Nat) (m : String), loxErrorEntry l m = .text ("Error: " ++ m)) ∧
    (∀ (f : Nat) (src : String) (m : String),
      parseProgram f (scan_tokens f (initLexSt src)).1 = .error (.thrown m) →
      runLox f src = .staticError m (scan_tokens f (initLexSt src)).2.console) ∧
    (∀ (f : Nat) (src : String) (stmts : List Stmt) (m : String),
      parseProgram f (scan_tokens f (initLexSt src)).1 = .ok stmts →
      resolveProgram f stmts = .error (.thrown m) →
      runLox f src = .staticError m (scan_tokens f (initLexSt src)).2.console) ∧
    (∀ t : Token, Token.toString t
      = Nat.repr t.line ++ ": " ++ typeName t.type ++ " " ++ t.lexeme) ∧
    (∀ (f : Nat) (name : Token) (nid : Nat) (r : RSt),
      r.has_scope = true →
      bmapGet (r.scopes.headD []) name.lexeme = some false →
      resolveExpr (f + 1) (.varE name nid) r
        = .error (.thrown ("Unable to resolve variable " ++ Token.toString name))) ∧
    (runLox 25 "\x7b var a = a; \x7d"
      = .staticError
          ("Unable to resolve variable " ++ Nat.repr 1 ++ ": IDENTIFIER a") []) := by
  refine ⟨fun l m => rfl, fun f src m h => ?_, fun f src stmts m h1 h2 => ?_,
    fun t => rfl, fun f name nid r h1 h2 => ?_, ?_⟩
  · rcases hsc : scan_tokens f (initLexSt src) with ⟨toks, lst⟩
    rw [hsc] at h
    simp only at h
    simp only [runLox, hsc, h]
  · rcases hsc : scan_tokens f (initLexSt src) with ⟨toks, lst⟩
    rw [hsc] at h1
    simp only at h1
    simp only [runLox, hsc, h1, h2]
  · simp only [resolveExpr]
    rw [if_pos ⟨h1, h2⟩]
  · have hscan : scan_tokens 25 (initLexSt "\x7b var a = a; \x7d")
        = ([⟨.LEFT_BRACE, "\x7b", .null, 1⟩, ⟨.VAR, "var", .str "var", 1⟩,
            ⟨.IDENTIFIER, "a", .str "a", 1⟩, ⟨.EQUAL, "=", .null, 1⟩,
            ⟨.IDENTIFIER, "a", .str "a", 1⟩, ⟨.SEMICOLON, ";", .null, 1⟩,
            ⟨.RIGHT_BRACE, "\x7d", .null, 1⟩, ⟨.EOF, "", .str "", 1⟩],
           ⟨"\x7b var a = a; \x7d".toList, 13, 14, 1, []⟩) := by
      simp +decide [List.lookup, List.take, List.drop]
    simp only [runLox, hscan]
    rfl

/-- C6 (witness for the amended claim): `print;` is a parse error and
the run aborts with no output. -/
theorem static_errors_abort_witness :
    runLox 25 "print;" = .staticError "Unexpected token type" [] := by
  have hscan : scan_tokens 25 (initLexSt "print;")
      = ([⟨.PRINT, "print", .str "print", 1⟩, ⟨.SEMICOLON, ";", .null, 1⟩,
          ⟨.EOF, "", .str "", 1⟩],
         ⟨"print;".toList, 5, 6, 1, []⟩) := by
    simp +decide [List.lookup, List.take, List.drop]
  have hp : parseProgram 25 (scan_tokens 25 (initLexSt "print;")).1
      = .error (.thrown "Unexpected token type") := by
    rw [hscan]
    rfl
  have h := static_errors_abort_before_evaluation.2.1 25 "print;"
    "Unexpected token type" hp
  rw [hscan] at h
  exact h


/-- Is this outcome the Return unwind? -/
def Halt.isRet : Halt → Bool
  | .ret _ => true
  | _ => false

def Res.isRet {α : Type} : Res α → Bool
  | .halt h => h.isRet
  | .ok _ => false

mutual
/-- A statement whose execution can never surface the Return unwind:
no ReturnStmt occurs outside a nested function body. -/
def retSafeS : Stmt → Bool
  | .ret _ _ => false
  | .block ss => retSafeL ss
  | .ifS _ t e? =>
    retSafeS t && (match e? with | some e => retSafeS e | none => true)
  | .whileS _ b => retSafeS b
  | _ => true

def retSafeL : List Stmt → Bool
  | [] => true
  | s :: rest => retSafeS s && retSafeL rest
end

theorem binaryOp_not_ret (op : Token) (l r : Value) : (binaryOp op l r).isRet = false := by
  unfold binaryOp
  split <;> first
    | rfl
    | (split <;> rfl)

theorem unaryOp_not_ret (op : Token) (v : Value) : (unaryOp op v).isRet = false := by
  unfold unaryOp
  split <;> first
    | rfl
    | (split <;> rfl)

theorem get_at_not_ret (s : RState) (ref d : Nat) (n : String) :
    ((get_at s ref d n).1).isRet = false := by
  unfold get_at
  split <;> try rfl
  split <;> try rfl
  split <;> rfl

theorem env_get_not_ret : ∀ (f : Nat) (s : RState) (ref : Nat) (tok : Token),
    (env_get f s ref tok).isRet = false := by
  intro f
  induction f with
  | zero => intro s ref tok; rfl
  | succ f ih =>
    intro s ref tok
    unfold env_get
    split <;> try rfl
    split <;> try rfl
    split
    · exact ih _ _ _
    · rfl

theorem env_assign_not_ret : ∀ (f : Nat) (s : RState) (ref : Nat) (tok : Token) (v : Value),
    ((env_assign f s ref tok v).1).isRet = false := by
  intro f
  induction f with
  | zero => intro s ref tok v; rfl
  | succ f ih =>
    intro s ref tok v
    unfold env_assign
    split <;> try rfl
    split <;> try rfl
    split
    · exact ih _ _ _ _
    · rfl

theorem look_up_not_ret (s : RState) (tok : Token) (nid : Nat) :
    ((look_up_variable s tok nid).1).isRet = false := by
  unfold look_up_variable
  split
  · exact get_at_not_ret _ _ _ _
  · exact env_get_not_ret _ _ _ _

theorem assign_at_not_ret (s : RState) (ref d : Nat) (n : String) (v : Value) :
    ((assign_at s ref d n v).1).isRet = false := by
  unfold assign_at
  split <;> try rfl
  split <;> rfl

theorem isRet_halt {α : Type} {x : Res α × RState} {h : Halt} {s1 : RState}
    (he : x = (.halt h, s1)) (hx : (x.1).isRet = false) : h.isRet = false := by
  rw [he] at hx
  exact hx

theorem never_ret : ∀ f : Nat,
    (∀ e s, ((evalExpr f e s).1).isRet = false) ∧
    (∀ es s, ((evalArgs f es s).1).isRet = false) ∧
    (∀ v vs s, ((callValue f v vs s).1).isRet = false) ∧
    (∀ st s, retSafeS st = true → ((execStmt f st s).1).isRet = false) ∧
    (∀ sts s, retSafeL sts = true → ((execStmts f sts s).1).isRet = false) ∧
    (∀ sts env s, retSafeL sts = true → ((execute_block f sts env s).1).isRet = false) := by
  intro f
  induction f with
  | zero =>
    exact ⟨fun e s => rfl, fun es s => rfl, fun v vs s => rfl,
           fun st s _ => rfl, fun sts s _ => rfl, fun sts env s _ => rfl⟩
  | succ f ih =>
    obtain ⟨ihE, ihA, ihC, ihS, ihL, ihB⟩ := ih
    refine ⟨?_, ?_, ?_, ?_, ?_, ?_⟩
    · intro e s
      cases e <;> simp only [evalExpr] <;> (repeat' split) <;> (try rfl) <;>
        (rename_i heq) <;>
        first
          | exact unaryOp_not_ret _ _
          | exact binaryOp_not_ret _ _ _
          | exact look_up_not_ret _ _ _
          | exact ihE _ _
          | exact ihC _ _ _
          | exact isRet_halt heq (ihE _ _)
          | exact isRet_halt heq (ihA _ _)
          | exact isRet_halt heq (ihC _ _ _)
          | exact isRet_halt heq (assign_at_not_ret _ _ _ _ _)
          | exact isRet_halt heq (env_assign_not_ret _ _ _ _ _)
    · intro es s
      cases es with
      | nil => rfl
      | cons e rest =>
        simp only [evalArgs]
        split
        · split
          · rfl
          · rename_i heq
            exact isRet_halt heq (ihA _ _)
        · rename_i heq
          exact isRet_halt heq (ihE _ _)
    · intro v vs s
      cases v with
      | clock => rfl
      | func lf =>
        simp only [callValue]
        split
        · split
          · exact get_at_not_ret _ _ _ _
          · rfl
        · split
          · exact get_at_not_ret _ _ _ _
          · rfl
        · rename_i h s3 hne heq
          cases h with
          | ret v => exact absurd rfl (hne v)
          | err a b => rfl
          | crash m => rfl
          | timeout => rfl
      | klass c =>
        simp only [callValue]
        (repeat' split) <;> (try rfl)
        all_goals (rename_i heq; exact isRet_halt heq (ihC _ _ _))
      | nil => rfl
      | boolean b => rfl
      | num n => rfl
      | str t => rfl
      | inst iid => rfl
      | undef => rfl
    · intro st s hsafe
      cases st with
      | expr e =>
        simp only [execStmt]
        split
        · rfl
        · rename_i heq
          exact isRet_halt heq (ihE _ _)
      | print e =>
        simp only [execStmt]
        split
        · rfl
        · rename_i heq
          exact isRet_halt heq (ihE _ _)
      | varD name init =>
        simp only [execStmt]
        (repeat' split) <;> (try rfl)
        rename_i heq
        exact isRet_halt heq (ihE _ _)
      | block stmts =>
        simp only [execStmt]
        exact ihB stmts _ _ (by simpa [retSafeS] using hsafe)
      | ifS c t e? =>
        cases e? with
        | none =>
          have ht : retSafeS t = true := by simpa [retSafeS] using hsafe
          simp only [execStmt]
          split
          · split
            · exact ihS t _ ht
            · rfl
          · rename_i heq
            exact isRet_halt heq (ihE _ _)
        | some e =>
          have h1 : retSafeS t = true ∧ retSafeS e = true := by
            simpa [retSafeS, Bool.and_eq_true] using hsafe
          simp only [execStmt]
          split
          · split
            · exact ihS t _ h1.1
            · exact ihS e _ h1.2
          · rename_i heq
            exact isRet_halt heq (ihE _ _)
      | whileS c b =>
        have hb : retSafeS b = true := by simpa [retSafeS] using hsafe
        simp only [execStmt]
        split
        · split
          · split
            · exact ihS (.whileS c b) _ hsafe
            · rename_i heq
              exact isRet_halt heq (ihS b _ hb)
          · rfl
        · rename_i heq
          exact isRet_halt heq (ihE _ _)
      | function fs => rfl
      | ret k v? => exact absurd hsafe (by simp [retSafeS])
      | classS n m => rfl
    · intro sts s hsafe
      cases sts with
      | nil => rfl
      | cons st rest =>
        have h1 : retSafeS st = true ∧ retSafeL rest = true := by
          simpa [retSafeL, Bool.and_eq_true] using hsafe
        simp only [execStmts]
        split
        · exact ihL rest _ h1.2
        · rename_i heq
          exact isRet_halt heq (ihS st _ h1.1)
    · intro sts env s hsafe
      have h := ihL sts { s with envRef := env } hsafe
      rcases hE : execStmts f sts { s with envRef := env } with ⟨r, s1⟩
      rw [hE] at h
      simp only [execute_block, hE]
      exact h

theorem resolve_local_cf (nid : Nat) (name : Token) (r : RSt) :
    (resolve_local nid name r).current_function = r.current_function := by
  unfold resolve_local
  split <;> rfl

theorem define_cf (name : Token) (r : RSt) :
    (RSt.define name r).current_function = r.current_function := by
  unfold RSt.define
  split <;> rfl

theorem declare_cf {name : Token} {r r1 : RSt} (h : RSt.declare name r = .ok r1) :
    r1.current_function = r.current_function := by
  unfold RSt.declare at h
  split at h
  · injection h with h1
    rw [← h1]
  · split at h
    · exact Except.noConfusion h
    · injection h with h1
      rw [← h1]

theorem declParams_cf : ∀ (params : List Token) (r r1 : RSt),
    declParams params r = .ok r1 → r1.current_function = r.current_function := by
  intro params
  induction params with
  | nil =>
    intro r r1 h
    injection h with h1
    rw [← h1]
  | cons t rest ih =>
    intro r r1 h
    simp only [declParams] at h
    split at h
    · exact Except.noConfusion h
    · rename_i r2 heq
      rw [ih _ _ h, define_cf, declare_cf heq]

theorem resolver_preserves_cf : ∀ f : Nat,
    (∀ e r r', resolveExpr f e r = .ok r' →
      r'.current_function = r.current_function) ∧
    (∀ es r r', resolveExprs f es r = .ok r' →
      r'.current_function = r.current_function) ∧
    (∀ st r r', resolveStmt f st r = .ok r' →
      r'.current_function = r.current_function) ∧
    (∀ sts r r', resolveStmts f sts r = .ok r' →
      r'.current_function = r.current_function) ∧
    (∀ fs ty r r', resolve_function f fs ty r = .ok r' →
      r'.current_function = r.current_function) := by
  intro f
  induction f with
  | zero =>
    exact ⟨fun _ _ _ h => Except.noConfusion h, fun _ _ _ h => Except.noConfusion h,
           fun _ _ _ h => Except.noConfusion h, fun _ _ _ h => Except.noConfusion h,
           fun _ _ _ _ h => Except.noConfusion h⟩
  | succ f ih =>
    obtain ⟨ihE, ihA, ihS, ihL, ihF⟩ := ih
    refine ⟨?_, ?_, ?_, ?_, ?_⟩
    · intro e r r' h
      cases e with
      | assign name v nid =>
        simp only [resolveExpr] at h
        split at h
        · exact Except.noConfusion h
        · rename_i r1 heq
          injection h with h1
          rw [← h1, resolve_local_cf, ihE _ _ _ heq]
      | binary l op rgt =>
        simp only [resolveExpr] at h
        split at h
        · exact Except.noConfusion h
        · rename_i r1 heq
          rw [ihE _ _ _ h, ihE _ _ _ heq]
      | call callee paren args =>
        simp only [resolveExpr] at h
        split at h
        · exact Except.noConfusion h
        · rename_i r1 heq
          rw [ihA _ _ _ h, ihE _ _ _ heq]
      | grouping e =>
        simp only [resolveExpr] at h
        exact ihE _ _ _ h
      | literal v =>
        simp only [resolveExpr] at h
        injection h with h1
        rw [← h1]
      | logical l op rgt =>
        simp only [resolveExpr] at h
        split at h
        · exact Except.noConfusion h
        · rename_i r1 heq
          rw [ihE _ _ _ h, ihE _ _ _ heq]
      | unary op rgt =>
        simp only [resolveExpr] at h
        exact ihE _ _ _ h
      | varE name nid =>
        simp only [resolveExpr] at h
        split at h
        · exact Except.noConfusion h
        · injection h with h1
          rw [← h1, resolve_local_cf]
      | getE obj name => exact Except.noConfusion h
      | setE obj name v => exact Except.noConfusion h
      | thisE k nid => exact Except.noConfusion h
    · intro es r r' h
      cases es with
      | nil =>
        injection h with h1
        rw [← h1]
      | cons e rest =>
        simp only [resolveExprs] at h
        split at h
        · exact Except.noConfusion h
        · rename_i r1 heq
          rw [ihA _ _ _ h, ihE _ _ _ heq]
    · intro st r r' h
      cases st with
      | expr e =>
        simp only [resolveStmt] at h
        exact ihE _ _ _ h
      | print e =>
        simp only [resolveStmt] at h
        exact ihE _ _ _ h
      | varD name init =>
        simp only [resolveStmt] at h
        split at h
        · exact Except.noConfusion h
        · rename_i r1 heq
          split at h
          · split at h
            · exact Except.noConfusion h
            · rename_i r2 heq2
              injection h with h1
              rw [← h1, define_cf, ihE _ _ _ heq2, declare_cf heq]
          · injection h with h1
            rw [← h1, define_cf, declare_cf heq]
      | block stmts =>
        simp only [resolveStmt] at h
        split at h
        · exact Except.noConfusion h
        · rename_i r1 heq
          injection h with h1
          rw [← h1]
          exact ihL stmts r.begin_scope r1 heq
      | ifS c t e? =>
        simp only [resolveStmt] at h
        split at h
        · exact Except.noConfusion h
        · rename_i r1 heq
          split at h
          · exact Except.noConfusion h
          · rename_i r2 heq2
            split at h
            · rw [ihS _ _ _ h, ihS _ _ _ heq2, ihE _ _ _ heq]
            · injection h with h1
              rw [← h1, ihS _ _ _ heq2, ihE _ _ _ heq]
      | whileS c b =>
        simp only [resolveStmt] at h
        split at h
        · exact Except.noConfusion h
        · rename_i r1 heq
          rw [ihS _ _ _ h, ihE _ _ _ heq]
      | function fs =>
        simp only [resolveStmt] at h
        split at h
        · exact Except.noConfusion h
        · rename_i r1 heq
          rw [ihF _ _ _ _ h, define_cf, declare_cf heq]
      | ret k v? =>
        simp only [resolveStmt] at h
        split at h
        · exact Except.noConfusion h
        · split at h
          · exact ihE _ _ _ h
          · injection h with h1
            rw [← h1]
      | classS n m => exact Except.noConfusion h
    · intro sts r r' h
      cases sts with
      | nil =>
        injection h with h1
        rw [← h1]
      | cons st rest =>
        simp only [resolveStmts] at h
        split at h
        · exact Except.noConfusion h
        · rename_i r1 heq
          rw [ihL _ _ _ h, ihS _ _ _ heq]
    · intro fs ty r r' h
      cases fs with
      | mk n params body =>
        simp only [resolve_function] at h
        split at h
        · exact Except.noConfusion h
        · rename_i r1 heq
          split at h
          · exact Except.noConfusion h
          · rename_i r2 heq2
            injection h with h1
            rw [← h1]

theorem resolver_ok_retSafe : ∀ f : Nat,
    (∀ st r r', resolveStmt f st r = .ok r' →
      r.current_function = .NONE → retSafeS st = true) ∧
    (∀ sts r r', resolveStmts f sts r = .ok r' →
      r.current_function = .NONE → retSafeL sts = true) := by
  intro f
  induction f with
  | zero =>
    exact ⟨fun _ _ _ h => Except.noConfusion h, fun _ _ _ h => Except.noConfusion h⟩
  | succ f ih =>
    obtain ⟨ihS, ihL⟩ := ih
    refine ⟨?_, ?_⟩
    · intro st r r' h hN
      cases st with
      | expr e => rfl
      | print e => rfl
      | varD name init => rfl
      | block stmts =>
        simp only [resolveStmt] at h
        split at h
        · exact Except.noConfusion h
        · rename_i r1 heq
          simp only [retSafeS]
          exact ihL _ _ _ heq hN
      | ifS c t e? =>
        simp only [resolveStmt] at h
        split at h
        · exact Except.noConfusion h
        · rename_i r1 heq
          have hN1 : r1.current_function = .NONE := by
            rw [(resolver_preserves_cf f).1 _ _ _ heq]
            exact hN
          split at h
          · exact Except.noConfusion h
          · rename_i r2 heq2
            have hN2 : r2.current_function = .NONE := by
              rw [(resolver_preserves_cf f).2.2.1 _ _ _ heq2]
              exact hN1
            split at h
            · simp only [retSafeS, Bool.and_eq_true]
              exact ⟨ihS _ _ _ heq2 hN1, ihS _ _ _ h hN2⟩
            · simp only [retSafeS, Bool.and_eq_true]
              exact ⟨ihS _ _ _ heq2 hN1, trivial⟩
      | whileS c b =>
        simp only [resolveStmt] at h
        split at h
        · exact Except.noConfusion h
        · rename_i r1 heq
          have hN1 : r1.current_function = .NONE := by
            rw [(resolver_preserves_cf f).1 _ _ _ heq]
            exact hN
          simp only [retSafeS]
          exact ihS _ _ _ h hN1
      | function fs => rfl
      | ret k v? =>
        simp only [resolveStmt] at h
        rw [hN] at h
        simp at h
      | classS n m => rfl
    · intro sts r r' h hN
      cases sts with
      | nil => rfl
      | cons st rest =>
        simp only [resolveStmts] at h
        split at h
        · exact Except.noConfusion h
        · rename_i r1 heq
          have hN1 : r1.current_function = .NONE := by
            rw [(resolver_preserves_cf f).2.2.1 _ _ _ heq]
            exact hN
          simp only [retSafeL, Bool.and_eq_true]
          exact ⟨ihS _ _ _ heq hN, ihL _ _ _ h hN1⟩

theorem resolveProgram_retSafe {f : Nat} {stmts : List Stmt} {tbl : List (Nat × Nat)}
    (h : resolveProgram f stmts = .ok tbl) : retSafeL stmts = true := by
  unfold resolveProgram at h
  split at h
  · exact Except.noConfusion h
  · rename_i r heq
    exact (resolver_ok_retSafe f).2 _ _ _ heq rfl

def C7prog : List Stmt := [.expr (.assign xTok (.literal (.num 1)) 0)]

/-- C7: every RuntimeError unwinding out of the statement list reaches the
top-level interpret boundary, which reports exactly the message followed by
`[line N]` on stdout, sets the runtime-error flag and terminates the run
normally; and for any program the resolver accepts, execution can never
produce the Return unwind at the top level, so the boundary's bare catch
never receives (and never silently discards) a Return. -/
theorem runtime_errors_reported_and_no_return_escapes :
    (∀ (f : Nat) (stmts : List Stmt) (s : RState) (tok : Token) (msg : String)
      (s1 : RState),
      execStmts f stmts s = (.halt (.err tok msg), s1) →
      interpret f stmts s =
        (.ok (), { s1 with
          console := s1.console ++
            [.text (msg ++ "\n[line " ++ Nat.repr tok.line ++ "]")],
          had_runtime_error := true })) ∧
    (∀ (fr : Nat) (stmts : List Stmt) (tbl : List (Nat × Nat)),
      resolveProgram fr stmts = .ok tbl →
      ∀ (f : Nat) (s : RState), ((execStmts f stmts s).1).isRet = false) := by
  constructor
  · intro f stmts s tok msg s1 h
    simp only [interpret, h, runtime_error]
  · intro fr stmts tbl hres f s
    exact (never_ret f).2.2.2.2.1 stmts s (resolveProgram_retSafe hres)

/-- C7 witness: assigning to the undefined global `x` raises the
RuntimeError `Undefined variable x`, which interpret reports as the message
plus `[line 1]`; and the resolver accepts the program, so its execution
never yields a top-level Return unwind. -/
theorem runtime_errors_reported_witness :
    interpret 9 C7prog (initState [] []) =
      (.ok (), { initState [] [] with
        console := [.text "Undefined variable x\n[line 1]"],
        had_runtime_error := true }) ∧
    ((execStmts 9 C7prog (initState [] [])).1).isRet = false :=
  ⟨runtime_errors_reported_and_no_return_escapes.1 9 C7prog (initState [] [])
      xTok "Undefined variable x" (initState [] []) (by rfl),
   runtime_errors_reported_and_no_return_escapes.2 9 C7prog []
      (by rfl) 9 (initState [] [])⟩

mutual

/-- No GetExpr, SetExpr or ThisExpr node occurs in this expression. -/
def exprClassFree : Expr → Bool
  | .binary l _ r => exprClassFree l && exprClassFree r
  | .grouping e => exprClassFree e
  | .literal _ => true
  | .logical l _ r => exprClassFree l && exprClassFree r
  | .unary _ r => exprClassFree r
  | .varE _ _ => true
  | .assign _ v _ => exprClassFree v
  | .call c _ args => exprClassFree c && exprListClassFree args
  | .getE _ _ => false
  | .setE _ _ _ => false
  | .thisE _ _ => false

def exprListClassFree : List Expr → Bool
  | [] => true
  | e :: rest => exprClassFree e && exprListClassFree rest

end

mutual

/-- No ClassStmt node and no class-only expression node occurs in this
statement (including inside nested function bodies). -/
def stmtClassFree : Stmt → Bool
  | .expr e => exprClassFree e
  | .print e => exprClassFree e
  | .varD _ none => true
  | .varD _ (some e) => exprClassFree e
  | .block ss => stmtListClassFree ss
  | .ifS c t e? =>
    exprClassFree c && stmtClassFree t &&
      (match e? with | some e => stmtClassFree e | none => true)
  | .whileS c b => exprClassFree c && stmtClassFree b
  | .function (.mk _ _ body) => stmtListClassFree body
  | .ret _ none => true
  | .ret _ (some e) => exprClassFree e
  | .classS _ _ => false

def stmtListClassFree : List Stmt → Bool
  | [] => true
  | st :: rest => stmtClassFree st && stmtListClassFree rest

end

def optExprClassFree : Option Expr → Bool
  | none => true
  | some e => exprClassFree e

def optStmtClassFree : Option Stmt → Bool
  | none => true
  | some st => stmtClassFree st

theorem okPair {α β : Type} {a a' : α} {b b' : β}
    (h : (Except.ok (a, b) : Except PErr (α × β)) = .ok (a', b')) : a' = a := by
  injection h with h1
  injection h1 with ha hb
  exact ha.symm

theorem exprListClassFree_append {xs : List Expr} {a : Expr}
    (hxs : exprListClassFree xs = true) (ha : exprClassFree a = true) :
    exprListClassFree (xs ++ [a]) = true := by
  induction xs with
  | nil =>
    simp only [List.nil_append, exprListClassFree, Bool.and_eq_true]
    exact ⟨ha, trivial⟩
  | cons x rest ih =>
    simp only [exprListClassFree, Bool.and_eq_true] at hxs
    simp only [List.cons_append, exprListClassFree, Bool.and_eq_true]
    exact ⟨hxs.1, ih hxs.2⟩

theorem stmtListClassFree_append {xs : List Stmt} {a : Stmt}
    (hxs : stmtListClassFree xs = true) (ha : stmtClassFree a = true) :
    stmtListClassFree (xs ++ [a]) = true := by
  induction xs with
  | nil =>
    simp only [List.nil_append, stmtListClassFree, Bool.and_eq_true]
    exact ⟨ha, trivial⟩
  | cons x rest ih =>
    simp only [stmtListClassFree, Bool.and_eq_true] at hxs
    simp only [List.cons_append, stmtListClassFree, Bool.and_eq_true]
    exact ⟨hxs.1, ih hxs.2⟩

theorem parser_exprs_class_free : ∀ f : Nat,
    (∀ p e p', Parser.expression f p = .ok (e, p') → exprClassFree e = true) ∧
    (∀ p e p', Parser.assignment f p = .ok (e, p') → exprClassFree e = true) ∧
    (∀ p e p', Parser.or f p = .ok (e, p') → exprClassFree e = true) ∧
    (∀ a p e p', exprClassFree a = true →
      Parser.or_loop f a p = .ok (e, p') → exprClassFree e = true) ∧
    (∀ p e p', Parser.and f p = .ok (e, p') → exprClassFree e = true) ∧
    (∀ a p e p', exprClassFree a = true →
      Parser.and_loop f a p = .ok (e, p') → exprClassFree e = true) ∧
    (∀ p e p', Parser.equality f p = .ok (e, p') → exprClassFree e = true) ∧
    (∀ a p e p', exprClassFree a = true →
      Parser.equality_loop f a p = .ok (e, p') → exprClassFree e = true) ∧
    (∀ p e p', Parser.comparison f p = .ok (e, p') → exprClassFree e = true) ∧
    (∀ a p e p', exprClassFree a = true →
      Parser.comparison_loop f a p = .ok (e, p') → exprClassFree e = true) ∧
    (∀ p e p', Parser.term f p = .ok (e, p') → exprClassFree e = true) ∧
    (∀ a p e p', exprClassFree a = true →
      Parser.term_loop f a p = .ok (e, p') → exprClassFree e = true) ∧
    (∀ p e p', Parser.factor f p = .ok (e, p') → exprClassFree e = true) ∧
    (∀ a p e p', exprClassFree a = true →
      Parser.factor_loop f a p = .ok (e, p') → exprClassFree e = true) ∧
    (∀ p e p', Parser.unary f p = .ok (e, p') → exprClassFree e = true) ∧
    (∀ p e p', Parser.call f p = .ok (e, p') → exprClassFree e = true) ∧
    (∀ a p e p', exprClassFree a = true →
      Parser.call_loop f a p = .ok (e, p') → exprClassFree e = true) ∧
    (∀ a p e p', exprClassFree a = true →
      Parser.finish_call f a p = .ok (e, p') → exprClassFree e = true) ∧
    (∀ p e p', Parser.primary f p = .ok (e, p') → exprClassFree e = true) ∧
    (∀ p es p', Parser.arguments f p = .ok (es, p') → exprListClassFree es = true) ∧
    (∀ acc p es p', exprListClassFree acc = true →
      Parser.args_loop f acc p = .ok (es, p') → exprListClassFree es = true) := by
  intro f
  induction f with
  | zero =>
    exact ⟨fun _ _ _ h => Except.noConfusion h, fun _ _ _ h => Except.noConfusion h,
      fun _ _ _ h => Except.noConfusion h, fun _ _ _ _ _ h => Except.noConfusion h,
      fun _ _ _ h => Except.noConfusion h, fun _ _ _ _ _ h => Except.noConfusion h,
      fun _ _ _ h => Except.noConfusion h, fun _ _ _ _ _ h => Except.noConfusion h,
      fun _ _ _ h => Except.noConfusion h, fun _ _ _ _ _ h => Except.noConfusion h,
      fun _ _ _ h => Except.noConfusion h, fun _ _ _ _ _ h => Except.noConfusion h,
      fun _ _ _ h => Except.noConfusion h, fun _ _ _ _ _ h => Except.noConfusion h,
      fun _ _ _ h => Except.noConfusion h, fun _ _ _ h => Except.noConfusion h,
      fun _ _ _ _ _ h => Except.noConfusion h, fun _ _ _ _ _ h => Except.noConfusion h,
      fun _ _ _ h => Except.noConfusion h, fun _ _ _ h => Except.noConfusion h,
      fun _ _ _ _ _ h => Except.noConfusion h⟩
  | succ f ih =>
    obtain ⟨ihExpr, ihAsgn, ihOr, ihOrL, ihAnd, ihAndL, ihEq, ihEqL, ihCmp, ihCmpL,
      ihTerm, ihTermL, ihFac, ihFacL, ihUn, ihCall, ihCallL, ihFin, ihPrim,
      ihArgs, ihArgsL⟩ := ih
    refine ⟨?_, ?_, ?_, ?_, ?_, ?_, ?_, ?_, ?_, ?_, ?_, ?_, ?_, ?_, ?_, ?_, ?_,
      ?_, ?_, ?_, ?_⟩
    · intro p e p' h
      simp only [Parser.expression] at h
      exact ihAsgn _ _ _ h
    · intro p e p' h
      simp only [Parser.assignment, PSt.freshId] at h
      split at h
      · exact Except.noConfusion h
      · rename_i e1 p1 heq1
        split at h
        · exact Except.noConfusion h
        · split at h
          · exact Except.noConfusion h
          · split at h
            · exact Except.noConfusion h
            · rename_i v p3 heqv
              split at h
              · rename_i name nid
                rw [okPair h]
                simp only [exprClassFree]
                exact ihAsgn _ _ _ heqv
              · exact Except.noConfusion h
        · rw [okPair h]
          exact ihOr _ _ _ heq1
    · intro p e p' h
      simp only [Parser.or] at h
      split at h
      · exact Except.noConfusion h
      · rename_i e1 p1 heq
        exact ihOrL _ _ _ _ (ihAnd _ _ _ heq) h
    · intro a p e p' ha h
      simp only [Parser.or_loop] at h
      split at h
      · exact Except.noConfusion h
      · split at h
        · exact Except.noConfusion h
        · split at h
          · exact Except.noConfusion h
          · rename_i r p2 heq
            refine ihOrL _ _ _ _ ?_ h
            simp only [exprClassFree, Bool.and_eq_true]
            exact ⟨ha, ihAnd _ _ _ heq⟩
      · rw [okPair h]
        exact ha
    · intro p e p' h
      simp only [Parser.and] at h
      split at h
      · exact Except.noConfusion h
      · rename_i e1 p1 heq
        exact ihAndL _ _ _ _ (ihEq _ _ _ heq) h
    · intro a p e p' ha h
      simp only [Parser.and_loop] at h
      split at h
      · exact Except.noConfusion h
      · split at h
        · exact Except.noConfusion h
        · split at h
          · exact Except.noConfusion h
          · rename_i r p2 heq
            refine ihAndL _ _ _ _ ?_ h
            simp only [exprClassFree, Bool.and_eq_true]
            exact ⟨ha, ihEq _ _ _ heq⟩
      · rw [okPair h]
        exact ha
    · intro p e p' h
      simp only [Parser.equality] at h
      split at h
      · exact Except.noConfusion h
      · rename_i e1 p1 heq
        exact ihEqL _ _ _ _ (ihCmp _ _ _ heq) h
    · intro a p e p' ha h
      simp only [Parser.equality_loop] at h
      split at h
      · exact Except.noConfusion h
      · split at h
        · exact Except.noConfusion h
        · split at h
          · exact Except.noConfusion h
          · rename_i r p2 heq
            refine ihEqL _ _ _ _ ?_ h
            simp only [exprClassFree, Bool.and_eq_true]
            exact ⟨ha, ihCmp _ _ _ heq⟩
      · rw [okPair h]
        exact ha
    · intro p e p' h
      simp only [Parser.comparison] at h
      split at h
      · exact Except.noConfusion h
      · rename_i e1 p1 heq
        exact ihCmpL _ _ _ _ (ihTerm _ _ _ heq) h
    · intro a p e p' ha h
      simp only [Parser.comparison_loop] at h
      split at h
      · exact Except.noConfusion h
      · split at h
        · exact Except.noConfusion h
        · split at h
          · exact Except.noConfusion h
          · rename_i r p2 heq
            refine ihCmpL _ _ _ _ ?_ h
            simp only [exprClassFree, Bool.and_eq_true]
            exact ⟨ha, ihTerm _ _ _ heq⟩
      · rw [okPair h]
        exact ha
    · intro p e p' h
      simp only [Parser.term] at h
      split at h
      · exact Except.noConfusion h
      · rename_i e1 p1 heq
        exact ihTermL _ _ _ _ (ihFac _ _ _ heq) h
    · intro a p e p' ha h
      simp only [Parser.term_loop] at h
      split at h
      · exact Except.noConfusion h
      · split at h
        · exact Except.noConfusion h
        · split at h
          · exact Except.noConfusion h
          · rename_i r p2 heq
            refine ihTermL _ _ _ _ ?_ h
            simp only [exprClassFree, Bool.and_eq_true]
            exact ⟨ha, ihFac _ _ _ heq⟩
      · rw [okPair h]
        exact ha
    · intro p e p' h
      simp only [Parser.factor] at h
      split at h
      · exact Except.noConfusion h
      · rename_i e1 p1 heq
        exact ihFacL _ _ _ _ (ihUn _ _ _ heq) h
    · intro a p e p' ha h
      simp only [Parser.factor_loop] at h
      split at h
      · exact Except.noConfusion h
      · split at h
        · exact Except.noConfusion h
        · split at h
          · exact Except.noConfusion h
          · rename_i r p2 heq
            refine ihFacL _ _ _ _ ?_ h
            simp only [exprClassFree, Bool.and_eq_true]
            exact ⟨ha, ihUn _ _ _ heq⟩
      · rw [okPair h]
        exact ha
    · intro p e p' h
      simp only [Parser.unary] at h
      split at h
      · exact Except.noConfusion h
      · split at h
        · exact Except.noConfusion h
        · split at h
          · exact Except.noConfusion h
          · rename_i r p2 heq
            rw [okPair h]
            simp only [exprClassFree]
            exact ihUn _ _ _ heq
      · exact ihCall _ _ _ h
    · intro p e p' h
      simp only [Parser.call] at h
      split at h
      · exact Except.noConfusion h
      · rename_i e1 p1 heq
        exact ihCallL _ _ _ _ (ihPrim _ _ _ heq) h
    · intro a p e p' ha h
      simp only [Parser.call_loop] at h
      split at h
      · exact Except.noConfusion h
      · split at h
        · exact Except.noConfusion h
        · rename_i e1 p1 heq
          exact ihCallL _ _ _ _ (ihFin _ _ _ _ ha heq) h
      · rw [okPair h]
        exact ha
    · intro a p e p' ha h
      simp only [Parser.finish_call] at h
      split at h
      · exact Except.noConfusion h
      · split at h
        · exact Except.noConfusion h
        · split at h
          · exact Except.noConfusion h
          · rename_i args p2 heq
            split at h
            · exact Except.noConfusion h
            · rw [okPair h]
              simp only [exprClassFree, Bool.and_eq_true]
              exact ⟨ha, ihArgs _ _ _ heq⟩
        · split at h
          · exact Except.noConfusion h
          · rw [okPair h]
            simp only [exprClassFree, Bool.and_eq_true]
            exact ⟨ha, rfl⟩
    · intro p e p' h
      simp only [Parser.primary, PSt.freshId] at h
      split at h
      · exact Except.noConfusion h
      · split at h
        · rw [okPair h]
          rfl
        · rw [okPair h]
          rfl
        · rw [okPair h]
          rfl
        · rw [okPair h]
          rfl
        · rw [okPair h]
          rfl
        · split at h
          · exact Except.noConfusion h
          · rename_i e2 p2 heq
            split at h
            · exact Except.noConfusion h
            · rw [okPair h]
              simp only [exprClassFree]
              exact ihExpr _ _ _ heq
        · rw [okPair h]
          rfl
        · exact Except.noConfusion h
    · intro p es p' h
      simp only [Parser.arguments] at h
      split at h
      · exact Except.noConfusion h
      · rename_i a p1 heq
        refine ihArgsL _ _ _ _ ?_ h
        simp only [exprListClassFree, Bool.and_eq_true]
        exact ⟨ihExpr _ _ _ heq, trivial⟩
    · intro acc p es p' hacc h
      simp only [Parser.args_loop] at h
      split at h
      · exact Except.noConfusion h
      · split at h
        · exact Except.noConfusion h
        · split at h
          · exact Except.noConfusion h
          · rename_i a p2 heq
            split at h
            · exact Except.noConfusion h
            · exact ihArgsL _ _ _ _
                (exprListClassFree_append hacc (ihExpr _ _ _ heq)) h
      · rw [okPair h]
        exact hacc

theorem parser_stmts_class_free : ∀ f : Nat,
    (∀ p st p', Parser.declaration f p = .ok (st, p') → stmtClassFree st = true) ∧
    (∀ p st p', Parser.var_declaration f p = .ok (st, p') → stmtClassFree st = true) ∧
    (∀ p st p', Parser.function f p = .ok (st, p') → stmtClassFree st = true) ∧
    (∀ name params p st p', Parser.function_tail f name params p = .ok (st, p') →
      stmtClassFree st = true) ∧
    (∀ p sts p', Parser.block f p = .ok (sts, p') → stmtListClassFree sts = true) ∧
    (∀ acc p sts p', stmtListClassFree acc = true →
      Parser.block_loop f acc p = .ok (sts, p') → stmtListClassFree sts = true) ∧
    (∀ p st p', Parser.statement f p = .ok (st, p') → stmtClassFree st = true) ∧
    (∀ p st p', Parser.if_statement f p = .ok (st, p') → stmtClassFree st = true) ∧
    (∀ p st p', Parser.while_statement f p = .ok (st, p') → stmtClassFree st = true) ∧
    (∀ p st p', Parser.for_statement f p = .ok (st, p') → stmtClassFree st = true) ∧
    (∀ init p st p', optStmtClassFree init = true →
      Parser.for_tail f init p = .ok (st, p') → stmtClassFree st = true) ∧
    (∀ init cond p st p', optStmtClassFree init = true →
      optExprClassFree cond = true →
      Parser.for_tail2 f init cond p = .ok (st, p') → stmtClassFree st = true) ∧
    (∀ init cond incr p st p', optStmtClassFree init = true →
      optExprClassFree cond = true → optExprClassFree incr = true →
      Parser.for_tail3 f init cond incr p = .ok (st, p') → stmtClassFree st = true) ∧
    (∀ p st p', Parser.return_statement f p = .ok (st, p') → stmtClassFree st = true) ∧
    (∀ p st p', Parser.print_statement f p = .ok (st, p') → stmtClassFree st = true) ∧
    (∀ p st p', Parser.expression_statement f p = .ok (st, p') →
      stmtClassFree st = true) ∧
    (∀ acc p sts p', stmtListClassFree acc = true →
      Parser.parse_loop f acc p = .ok (sts, p') → stmtListClassFree sts = true) := by
  intro f
  induction f with
  | zero =>
    exact ⟨fun _ _ _ h => Except.noConfusion h, fun _ _ _ h => Except.noConfusion h,
      fun _ _ _ h => Except.noConfusion h, fun _ _ _ _ _ h => Except.noConfusion h,
      fun _ _ _ h => Except.noConfusion h, fun _ _ _ _ _ h => Except.noConfusion h,
      fun _ _ _ h => Except.noConfusion h, fun _ _ _ h => Except.noConfusion h,
      fun _ _ _ h => Except.noConfusion h, fun _ _ _ h => Except.noConfusion h,
      fun _ _ _ _ _ h => Except.noConfusion h,
      fun _ _ _ _ _ _ _ h => Except.noConfusion h,
      fun _ _ _ _ _ _ _ _ _ h => Except.noConfusion h,
      fun _ _ _ h => Except.noConfusion h, fun _ _ _ h => Except.noConfusion h,
      fun _ _ _ h => Except.noConfusion h, fun _ _ _ _ _ h => Except.noConfusion h⟩
  | succ f ih =>
    obtain ⟨ihDecl, ihVar, ihFun, ihTail, ihBlock, ihBlockL, ihStmt, ihIf, ihWhile,
      ihFor, ihForT, ihForT2, ihForT3, ihRet, ihPrint, ihExprS, ihParseL⟩ := ih
    have hExpr := (parser_exprs_class_free f).1
    refine ⟨?_, ?_, ?_, ?_, ?_, ?_, ?_, ?_, ?_, ?_, ?_, ?_, ?_, ?_, ?_, ?_, ?_⟩
    · intro p st p' h
      simp only [Parser.declaration] at h
      split at h
      · exact Except.noConfusion h
      · split at h
        · exact Except.noConfusion h
        · exact ihVar _ _ _ h
      · split at h
        · exact Except.noConfusion h
        · split at h
          · exact Except.noConfusion h
          · exact ihFun _ _ _ h
        · exact ihStmt _ _ _ h
    · intro p st p' h
      simp only [Parser.var_declaration] at h
      split at h
      · exact Except.noConfusion h
      · split at h
        · exact Except.noConfusion h
        · split at h
          · exact Except.noConfusion h
          · split at h
            · exact Except.noConfusion h
            · rename_i init p3 heq
              split at h
              · exact Except.noConfusion h
              · rw [okPair h]
                simp only [stmtClassFree]
                exact hExpr _ _ _ heq
        · split at h
          · exact Except.noConfusion h
          · rw [okPair h]
            rfl
    · intro p st p' h
      simp only [Parser.function] at h
      split at h
      · exact Except.noConfusion h
      · split at h
        · exact Except.noConfusion h
        · split at h
          · exact Except.noConfusion h
          · split at h
            · exact Except.noConfusion h
            · exact ihTail _ _ _ _ _ h
          · split at h
            · exact Except.noConfusion h
            · split at h
              · exact Except.noConfusion h
              · exact ihTail _ _ _ _ _ h
    · intro name params p st p' h
      simp only [Parser.function_tail] at h
      split at h
      · exact Except.noConfusion h
      · split at h
        · exact Except.noConfusion h
        · rename_i stmts p2 heq
          rw [okPair h]
          simp only [stmtClassFree]
          exact ihBlock _ _ _ heq
    · intro p sts p' h
      simp only [Parser.block] at h
      split at h
      · exact Except.noConfusion h
      · rename_i stmts p1 heq
        split at h
        · exact Except.noConfusion h
        · rw [okPair h]
          exact ihBlockL [] _ stmts _ rfl heq
    · intro acc p sts p' hacc h
      simp only [Parser.block_loop] at h
      split at h
      · exact Except.noConfusion h
      · rw [okPair h]
        exact hacc
      · split at h
        · exact Except.noConfusion h
        · rw [okPair h]
          exact hacc
        · split at h
          · exact Except.noConfusion h
          · rename_i s1 p1 heq
            exact ihBlockL _ _ _ _
              (stmtListClassFree_append hacc (ihDecl _ _ _ heq)) h
    · intro p st p' h
      simp only [Parser.statement] at h
      split at h
      · exact Except.noConfusion h
      · split at h
        · exact Except.noConfusion h
        · exact ihPrint _ _ _ h
      · split at h
        · exact Except.noConfusion h
        · split at h
          · exact Except.noConfusion h
          · split at h
            · exact Except.noConfusion h
            · rename_i stmts p2 heq
              rw [okPair h]
              simp only [stmtClassFree]
              exact ihBlock _ _ _ heq
        · split at h
          · exact Except.noConfusion h
          · split at h
            · exact Except.noConfusion h
            · exact ihIf _ _ _ h
          · split at h
            · exact Except.noConfusion h
            · split at h
              · exact Except.noConfusion h
              · exact ihWhile _ _ _ h
            · split at h
              · exact Except.noConfusion h
              · split at h
                · exact Except.noConfusion h
                · exact ihFor _ _ _ h
              · split at h
                · exact Except.noConfusion h
                · exact ihRet _ _ _ h
                · exact ihExprS _ _ _ h
    · intro p st p' h
      simp only [Parser.if_statement] at h
      split at h
      · exact Except.noConfusion h
      · split at h
        · exact Except.noConfusion h
        · rename_i cond p2 heqC
          split at h
          · exact Except.noConfusion h
          · split at h
            · exact Except.noConfusion h
            · rename_i thenB p4 heqT
              split at h
              · exact Except.noConfusion h
              · split at h
                · exact Except.noConfusion h
                · split at h
                  · exact Except.noConfusion h
                  · rename_i elseB p6 heqE
                    rw [okPair h]
                    simp only [stmtClassFree, Bool.and_eq_true]
                    exact ⟨⟨hExpr _ _ _ heqC, ihStmt _ _ _ heqT⟩, ihStmt _ _ _ heqE⟩
              · rw [okPair h]
                simp only [stmtClassFree, Bool.and_eq_true]
                exact ⟨⟨hExpr _ _ _ heqC, ihStmt _ _ _ heqT⟩, trivial⟩
    · intro p st p' h
      simp only [Parser.while_statement] at h
      split at h
      · exact Except.noConfusion h
      · split at h
        · exact Except.noConfusion h
        · rename_i cond p2 heqC
          split at h
          · exact Except.noConfusion h
          · split at h
            · exact Except.noConfusion h
            · rename_i body p4 heqB
              rw [okPair h]
              simp only [stmtClassFree, Bool.and_eq_true]
              exact ⟨hExpr _ _ _ heqC, ihStmt _ _ _ heqB⟩
    · intro p st p' h
      simp only [Parser.for_statement] at h
      split at h
      · exact Except.noConfusion h
      · split at h
        · exact Except.noConfusion h
        · split at h
          · exact Except.noConfusion h
          · split at h
            · exact Except.noConfusion h
            · rename_i i p3 heqI
              refine ihForT _ _ _ _ ?_ h
              simp only [optStmtClassFree]
              exact ihVar _ _ _ heqI
        · split at h
          · exact Except.noConfusion h
          · split at h
            · exact Except.noConfusion h
            · rename_i i p2 heqI
              refine ihForT _ _ _ _ ?_ h
              simp only [optStmtClassFree]
              exact ihExprS _ _ _ heqI
          · exact ihForT none _ _ _ rfl h
    · intro init p st p' hI h
      simp only [Parser.for_tail] at h
      split at h
      · exact Except.noConfusion h
      · split at h
        · exact Except.noConfusion h
        · rename_i c p1 heqC
          refine ihForT2 _ _ _ _ _ hI ?_ h
          simp only [optExprClassFree]
          exact hExpr _ _ _ heqC
      · exact ihForT2 init none _ _ _ hI rfl h
    · intro init cond p st p' hI hC h
      simp only [Parser.for_tail2] at h
      split at h
      · exact Except.noConfusion h
      · split at h
        · exact Except.noConfusion h
        · split at h
          · exact Except.noConfusion h
          · rename_i u p2 heqU
            refine ihForT3 _ _ _ _ _ _ hI hC ?_ h
            simp only [optExprClassFree]
            exact hExpr _ _ _ heqU
        · exact ihForT3 init cond none _ _ _ hI hC rfl h
    · intro init cond incr p st p' hI hC hU h
      cases incr <;> cases cond <;> cases init <;>
        (simp only [Parser.for_tail3] at h
         split at h
         · exact Except.noConfusion h
         · split at h
           · exact Except.noConfusion h
           · rename_i body p2 heqB
             have hB := ihStmt _ _ _ heqB
             rw [okPair h]
             simp only [optStmtClassFree, optExprClassFree] at hI hC hU
             simp only [stmtClassFree, stmtListClassFree, exprClassFree,
               Bool.and_eq_true, Bool.and_true, Bool.true_and, and_true]
             (repeat constructor) <;> first | assumption | trivial)
    · intro p st p' h
      simp only [Parser.return_statement] at h
      split at h
      · exact Except.noConfusion h
      · split at h
        · exact Except.noConfusion h
        · split at h
          · exact Except.noConfusion h
          · rename_i v p2 heqV
            split at h
            · exact Except.noConfusion h
            · rw [okPair h]
              simp only [stmtClassFree]
              exact hExpr _ _ _ heqV
        · split at h
          · exact Except.noConfusion h
          · rw [okPair h]
            rfl
    · intro p st p' h
      simp only [Parser.print_statement] at h
      split at h
      · exact Except.noConfusion h
      · rename_i v p1 heq
        split at h
        · exact Except.noConfusion h
        · rw [okPair h]
          simp only [stmtClassFree]
          exact hExpr _ _ _ heq
    · intro p st p' h
      simp only [Parser.expression_statement] at h
      split at h
      · exact Except.noConfusion h
      · rename_i v p1 heq
        split at h
        · exact Except.noConfusion h
        · rw [okPair h]
          simp only [stmtClassFree]
          exact hExpr _ _ _ heq
    · intro acc p sts p' hacc h
      simp only [Parser.parse_loop] at h
      split at h
      · exact Except.noConfusion h
      · split at h
        · exact Except.noConfusion h
        · rename_i s1 p1 heq
          exact ihParseL _ _ _ _
            (stmtListClassFree_append hacc (ihDecl _ _ _ heq)) h
      · rw [okPair h]
        exact hacc

/-- C10: every statement list the parser accepts is class-free - it
contains no ClassStmt, GetExpr, SetExpr or ThisExpr node anywhere (and the
embedding has no SuperExpr constructor at all, mirroring the source, whose
interpreter imports a SuperExpr that no module defines), so the
evaluator's class, instance, property-access and `this` code paths are
unreachable for any parsed program. -/
theorem parsed_programs_are_class_free :
    ∀ (f : Nat) (toks : List Token) (stmts : List Stmt),
      parseProgram f toks = .ok stmts → stmtListClassFree stmts = true := by
  intro f toks stmts h
  simp only [parseProgram, Parser.parse] at h
  split at h
  · exact Except.noConfusion h
  · rename_i l p1 heq
    injection h with h1
    rw [← h1]
    exact (parser_stmts_class_free f).2.2.2.2.2.2.2.2.2.2.2.2.2.2.2.2 [] _ l _ rfl heq

/-- C10 witness: the desugared `for` program parses and its statement
list is class-free. -/
theorem parsed_programs_are_class_free_witness :
    parseProgram 90 forGoodToks = .ok [forGoodAst] ∧
      stmtListClassFree [forGoodAst] = true :=
  ⟨rfl, parsed_programs_are_class_free 90 forGoodToks [forGoodAst] (by rfl)⟩

mutual

/-- The node identities occurring in an expression, in traversal order. -/
def exprIds : Expr → List Nat
  | .binary l _ r => exprIds l ++ exprIds r
  | .grouping e => exprIds e
  | .literal _ => []
  | .logical l _ r => exprIds l ++ exprIds r
  | .unary _ r => exprIds r
  | .varE _ i => [i]
  | .assign _ v i => exprIds v ++ [i]
  | .call c _ args => exprIds c ++ exprListIds args
  | .getE o _ => exprIds o
  | .setE o _ v => exprIds o ++ exprIds v
  | .thisE _ i => [i]

def exprListIds : List Expr → List Nat
  | [] => []
  | e :: rest => exprIds e ++ exprListIds rest

end

mutual

/-- The node identities occurring in a statement (class methods carry
none; the parser of this repository cannot produce a ClassStmt). -/
def stmtIds : Stmt → List Nat
  | .expr e => exprIds e
  | .print e => exprIds e
  | .varD _ none => []
  | .varD _ (some e) => exprIds e
  | .block ss => stmtListIds ss
  | .ifS c t e? =>
    exprIds c ++ stmtIds t ++ (match e? with | some e => stmtIds e | none => [])
  | .whileS c b => exprIds c ++ stmtIds b
  | .function (.mk _ _ body) => stmtListIds body
  | .ret _ none => []
  | .ret _ (some e) => exprIds e
  | .classS _ _ => []

def stmtListIds : List Stmt → List Nat
  | [] => []
  | st :: rest => stmtIds st ++ stmtListIds rest

end

/-- The identity list is duplicate-free with every element in [lo, hi). -/
def idsOK (lo hi : Nat) (l : List Nat) : Prop :=
  l.Nodup ∧ ∀ i ∈ l, lo ≤ i ∧ i < hi

theorem idsOK_nil (lo hi : Nat) : idsOK lo hi [] :=
  ⟨List.nodup_nil, by intro i hi1; cases hi1⟩

theorem idsOK_single {lo hi i : Nat} (h1 : lo ≤ i) (h2 : i < hi) :
    idsOK lo hi [i] := by
  refine ⟨List.nodup_singleton i, ?_⟩
  intro j hj
  rw [List.mem_singleton] at hj
  rw [hj]
  exact ⟨h1, h2⟩

theorem idsOK_append {lo m hi : Nat} {a b : List Nat} (hm1 : lo ≤ m)
    (hm2 : m ≤ hi) (ha : idsOK lo m a) (hb : idsOK m hi b) :
    idsOK lo hi (a ++ b) := by
  refine ⟨List.Nodup.append ha.1 hb.1 ?_, ?_⟩
  · intro x hxa hxb
    have h1 := (ha.2 x hxa).2
    have h2 := (hb.2 x hxb).1
    omega
  · intro i hi1
    rcases List.mem_append.mp hi1 with h | h
    · have := ha.2 i h
      omega
    · have := hb.2 i h
      omega

theorem idsOK_mono {lo lo' hi hi' : Nat} {l : List Nat} (h1 : lo' ≤ lo)
    (h2 : hi ≤ hi') (h : idsOK lo hi l) : idsOK lo' hi' l := by
  refine ⟨h.1, ?_⟩
  intro i hi1
  have := h.2 i hi1
  omega

theorem nextT_nid {p : PSt} {t : Token} {p1 : PSt}
    (h : p.nextT = .ok (t, p1)) : p1.nid = p.nid := by
  unfold PSt.nextT at h
  split at h
  · injection h with h1
    injection h1 with ha hb
    rw [← hb]
  · exact Except.noConfusion h

theorem expectT_nid {tys : List TokenType} {p : PSt} {t : Token} {p1 : PSt}
    (h : expectT tys p = .ok (t, p1)) : p1.nid = p.nid := by
  unfold expectT at h
  split at h
  · exact Except.noConfusion h
  · exact nextT_nid h
  · exact Except.noConfusion h

theorem okPair2 {α β : Type} {a a' : α} {b b' : β}
    (h : (Except.ok (a, b) : Except PErr (α × β)) = .ok (a', b')) : b' = b := by
  injection h with h1
  injection h1 with ha hb
  exact hb.symm

theorem exprListIds_append (xs ys : List Expr) :
    exprListIds (xs ++ ys) = exprListIds xs ++ exprListIds ys := by
  induction xs with
  | nil => simp [exprListIds]
  | cons x rest ih =>
    simp only [List.cons_append, exprListIds, List.append_eq, ih, List.append_assoc]

theorem stmtListIds_append (xs ys : List Stmt) :
    stmtListIds (xs ++ ys) = stmtListIds xs ++ stmtListIds ys := by
  induction xs with
  | nil => simp [stmtListIds]
  | cons x rest ih =>
    simp only [List.cons_append, stmtListIds, List.append_eq, ih, List.append_assoc]

theorem parser_expr_ids : ∀ f : Nat,
    (∀ p e p', Parser.expression f p = .ok (e, p') →
      p.nid ≤ p'.nid ∧ idsOK p.nid p'.nid (exprIds e)) ∧
    (∀ p e p', Parser.assignment f p = .ok (e, p') →
      p.nid ≤ p'.nid ∧ idsOK p.nid p'.nid (exprIds e)) ∧
    (∀ p e p', Parser.or f p = .ok (e, p') →
      p.nid ≤ p'.nid ∧ idsOK p.nid p'.nid (exprIds e)) ∧
    (∀ lo a p e p', lo ≤ p.nid → idsOK lo p.nid (exprIds a) →
      Parser.or_loop f a p = .ok (e, p') →
      p.nid ≤ p'.nid ∧ idsOK lo p'.nid (exprIds e)) ∧
    (∀ p e p', Parser.and f p = .ok (e, p') →
      p.nid ≤ p'.nid ∧ idsOK p.nid p'.nid (exprIds e)) ∧
    (∀ lo a p e p', lo ≤ p.nid → idsOK lo p.nid (exprIds a) →
      Parser.and_loop f a p = .ok (e, p') →
      p.nid ≤ p'.nid ∧ idsOK lo p'.nid (exprIds e)) ∧
    (∀ p e p', Parser.equality f p = .ok (e, p') →
      p.nid ≤ p'.nid ∧ idsOK p.nid p'.nid (exprIds e)) ∧
    (∀ lo a p e p', lo ≤ p.nid → idsOK lo p.nid (exprIds a) →
      Parser.equality_loop f a p = .ok (e, p') →
      p.nid ≤ p'.nid ∧ idsOK lo p'.nid (exprIds e)) ∧
    (∀ p e p', Parser.comparison f p = .ok (e, p') →
      p.nid ≤ p'.nid ∧ idsOK p.nid p'.nid (exprIds e)) ∧
    (∀ lo a p e p', lo ≤ p.nid → idsOK lo p.nid (exprIds a) →
      Parser.comparison_loop f a p = .ok (e, p') →
      p.nid ≤ p'.nid ∧ idsOK lo p'.nid (exprIds e)) ∧
    (∀ p e p', Parser.term f p = .ok (e, p') →
      p.nid ≤ p'.nid ∧ idsOK p.nid p'.nid (exprIds e)) ∧
    (∀ lo a p e p', lo ≤ p.nid → idsOK lo p.nid (exprIds a) →
      Parser.term_loop f a p = .ok (e, p') →
      p.nid ≤ p'.nid ∧ idsOK lo p'.nid (exprIds e)) ∧
    (∀ p e p', Parser.factor f p = .ok (e, p') →
      p.nid ≤ p'.nid ∧ idsOK p.nid p'.nid (exprIds e)) ∧
    (∀ lo a p e p', lo ≤ p.nid → idsOK lo p.nid (exprIds a) →
      Parser.factor_loop f a p = .ok (e, p') →
      p.nid ≤ p'.nid ∧ idsOK lo p'.nid (exprIds e)) ∧
    (∀ p e p', Parser.unary f p = .ok (e, p') →
      p.nid ≤ p'.nid ∧ idsOK p.nid p'.nid (exprIds e)) ∧
    (∀ p e p', Parser.call f p = .ok (e, p') →
      p.nid ≤ p'.nid ∧ idsOK p.nid p'.nid (exprIds e)) ∧
    (∀ lo a p e p', lo ≤ p.nid → idsOK lo p.nid (exprIds a) →
      Parser.call_loop f a p = .ok (e, p') →
      p.nid ≤ p'.nid ∧ idsOK lo p'.nid (exprIds e)) ∧
    (∀ lo a p e p', lo ≤ p.nid → idsOK lo p.nid (exprIds a) →
      Parser.finish_call f a p = .ok (e, p') →
      p.nid ≤ p'.nid ∧ idsOK lo p'.nid (exprIds e)) ∧
    (∀ p e p', Parser.primary f p = .ok (e, p') →
      p.nid ≤ p'.nid ∧ idsOK p.nid p'.nid (exprIds e)) ∧
    (∀ p es p', Parser.arguments f p = .ok (es, p') →
      p.nid ≤ p'.nid ∧ idsOK p.nid p'.nid (exprListIds es)) ∧
    (∀ lo acc p es p', lo ≤ p.nid → idsOK lo p.nid (exprListIds acc) →
      Parser.args_loop f acc p = .ok (es, p') →
      p.nid ≤ p'.nid ∧ idsOK lo p'.nid (exprListIds es)) := by
  intro f
  induction f with
  | zero =>
    exact ⟨fun _ _ _ h => Except.noConfusion h, fun _ _ _ h => Except.noConfusion h,
      fun _ _ _ h => Except.noConfusion h, fun _ _ _ _ _ _ _ h => Except.noConfusion h,
      fun _ _ _ h => Except.noConfusion h, fun _ _ _ _ _ _ _ h => Except.noConfusion h,
      fun _ _ _ h => Except.noConfusion h, fun _ _ _ _ _ _ _ h => Except.noConfusion h,
      fun _ _ _ h => Except.noConfusion h, fun _ _ _ _ _ _ _ h => Except.noConfusion h,
      fun _ _ _ h => Except.noConfusion h, fun _ _ _ _ _ _ _ h => Except.noConfusion h,
      fun _ _ _ h => Except.noConfusion h, fun _ _ _ _ _ _ _ h => Except.noConfusion h,
      fun _ _ _ h => Except.noConfusion h, fun _ _ _ h => Except.noConfusion h,
      fun _ _ _ _ _ _ _ h => Except.noConfusion h,
      fun _ _ _ _ _ _ _ h => Except.noConfusion h,
      fun _ _ _ h => Except.noConfusion h, fun _ _ _ h => Except.noConfusion h,
      fun _ _ _ _ _ _ _ h => Except.noConfusion h⟩
  | succ f ih =>
    obtain ⟨ihExpr, ihAsgn, ihOr, ihOrL, ihAnd, ihAndL, ihEq, ihEqL, ihCmp, ihCmpL,
      ihTerm, ihTermL, ihFac, ihFacL, ihUn, ihCall, ihCallL, ihFin, ihPrim,
      ihArgs, ihArgsL⟩ := ih
    refine ⟨?_, ?_, ?_, ?_, ?_, ?_, ?_, ?_, ?_, ?_, ?_, ?_, ?_, ?_, ?_, ?_, ?_,
      ?_, ?_, ?_, ?_⟩
    · intro p e p' h
      simp only [Parser.expression] at h
      exact ihAsgn _ _ _ h
    · intro p e p' h
      simp only [Parser.assignment, PSt.freshId] at h
      split at h
      · exact Except.noConfusion h
      · rename_i e1 p1 heq1
        have h1 := ihOr _ _ _ heq1
        split at h
        · exact Except.noConfusion h
        · split at h
          · exact Except.noConfusion h
          · rename_i t2 p2 heqN
            have hn2 : p2.nid = p1.nid := nextT_nid heqN
            split at h
            · exact Except.noConfusion h
            · rename_i v p3 heqv
              have h2 := ihAsgn _ _ _ heqv
              split at h
              · rename_i name nid0
                have he := okPair h
                have hp : p'.nid = p3.nid + 1 := by rw [okPair2 h]
                have h11 := h1.1
                have h21 := h2.1
                refine ⟨by omega, ?_⟩
                rw [he]
                simp only [exprIds]
                exact idsOK_append (by omega) (by omega)
                  (idsOK_mono (by omega) (le_refl _) h2.2)
                  (idsOK_single (le_refl _) (by omega))
              · exact Except.noConfusion h
        · have he := okPair h
          have hp : p' = p1 := okPair2 h
          rw [he, hp]
          exact h1
    · intro p e p' h
      simp only [Parser.or] at h
      split at h
      · exact Except.noConfusion h
      · rename_i e1 p1 heq
        have h1 := ihAnd _ _ _ heq
        have h2 := ihOrL p.nid e1 p1 e p' h1.1 h1.2 h
        exact ⟨le_trans h1.1 h2.1, h2.2⟩
    · intro lo a p e p' hlo hacc h
      simp only [Parser.or_loop] at h
      split at h
      · exact Except.noConfusion h
      · split at h
        · exact Except.noConfusion h
        · rename_i op p1 heqN
          have hn1 : p1.nid = p.nid := nextT_nid heqN
          split at h
          · exact Except.noConfusion h
          · rename_i r p2 heq
            have h1 := ihAnd _ _ _ heq
            have h11 := h1.1
            have hargs : idsOK lo p2.nid (exprIds (.logical a op r)) := by
              simp only [exprIds]
              exact idsOK_append hlo (by omega) hacc
                (idsOK_mono (by omega) (le_refl _) h1.2)
            have h2 := ihOrL lo _ p2 e p' (by omega) hargs h
            exact ⟨by omega, h2.2⟩
      · have he := okPair h
        have hp : p' = p := okPair2 h
        rw [he, hp]
        exact ⟨le_refl _, hacc⟩
    · intro p e p' h
      simp only [Parser.and] at h
      split at h
      · exact Except.noConfusion h
      · rename_i e1 p1 heq
        have h1 := ihEq _ _ _ heq
        have h2 := ihAndL p.nid e1 p1 e p' h1.1 h1.2 h
        exact ⟨le_trans h1.1 h2.1, h2.2⟩
    · intro lo a p e p' hlo hacc h
      simp only [Parser.and_loop] at h
      split at h
      · exact Except.noConfusion h
      · split at h
        · exact Except.noConfusion h
        · rename_i op p1 heqN
          have hn1 : p1.nid = p.nid := nextT_nid heqN
          split at h
          · exact Except.noConfusion h
          · rename_i r p2 heq
            have h1 := ihEq _ _ _ heq
            have h11 := h1.1
            have hargs : idsOK lo p2.nid (exprIds (.logical a op r)) := by
              simp only [exprIds]
              exact idsOK_append hlo (by omega) hacc
                (idsOK_mono (by omega) (le_refl _) h1.2)
            have h2 := ihAndL lo _ p2 e p' (by omega) hargs h
            exact ⟨by omega, h2.2⟩
      · have he := okPair h
        have hp : p' = p := okPair2 h
        rw [he, hp]
        exact ⟨le_refl _, hacc⟩
    · intro p e p' h
      simp only [Parser.equality] at h
      split at h
      · exact Except.noConfusion h
      · rename_i e1 p1 heq
        have h1 := ihCmp _ _ _ heq
        have h2 := ihEqL p.nid e1 p1 e p' h1.1 h1.2 h
        exact ⟨le_trans h1.1 h2.1, h2.2⟩
    · intro lo a p e p' hlo hacc h
      simp only [Parser.equality_loop] at h
      split at h
      · exact Except.noConfusion h
      · split at h
        · exact Except.noConfusion h
        · rename_i op p1 heqN
          have hn1 : p1.nid = p.nid := nextT_nid heqN
          split at h
          · exact Except.noConfusion h
          · rename_i r p2 heq
            have h1 := ihCmp _ _ _ heq
            have h11 := h1.1
            have hargs : idsOK lo p2.nid (exprIds (.binary a op r)) := by
              simp only [exprIds]
              exact idsOK_append hlo (by omega) hacc
                (idsOK_mono (by omega) (le_refl _) h1.2)
            have h2 := ihEqL lo _ p2 e p' (by omega) hargs h
            exact ⟨by omega, h2.2⟩
      · have he := okPair h
        have hp : p' = p := okPair2 h
        rw [he, hp]
        exact ⟨le_refl _, hacc⟩
    · intro p e p' h
      simp only [Parser.comparison] at h
      split at h
      · exact Except.noConfusion h
      · rename_i e1 p1 heq
        have h1 := ihTerm _ _ _ heq
        have h2 := ihCmpL p.nid e1 p1 e p' h1.1 h1.2 h
        exact ⟨le_trans h1.1 h2.1, h2.2⟩
    · intro lo a p e p' hlo hacc h
      simp only [Parser.comparison_loop] at h
      split at h
      · exact Except.noConfusion h
      · split at h
        · exact Except.noConfusion h
        · rename_i op p1 heqN
          have hn1 : p1.nid = p.nid := nextT_nid heqN
          split at h
          · exact Except.noConfusion h
          · rename_i r p2 heq
            have h1 := ihTerm _ _ _ heq
            have h11 := h1.1
            have hargs : idsOK lo p2.nid (exprIds (.binary a op r)) := by
              simp only [exprIds]
              exact idsOK_append hlo (by omega) hacc
                (idsOK_mono (by omega) (le_refl _) h1.2)
            have h2 := ihCmpL lo _ p2 e p' (by omega) hargs h
            exact ⟨by omega, h2.2⟩
      · have he := okPair h
        have hp : p' = p := okPair2 h
        rw [he, hp]
        exact ⟨le_refl _, hacc⟩
    · intro p e p' h
      simp only [Parser.term] at h
      split at h
      · exact Except.noConfusion h
      · rename_i e1 p1 heq
        have h1 := ihFac _ _ _ heq
        have h2 := ihTermL p.nid e1 p1 e p' h1.1 h1.2 h
        exact ⟨le_trans h1.1 h2.1, h2.2⟩
    · intro lo a p e p' hlo hacc h
      simp only [Parser.term_loop] at h
      split at h
      · exact Except.noConfusion h
      · split at h
        · exact Except.noConfusion h
        · rename_i op p1 heqN
          have hn1 : p1.nid = p.nid := nextT_nid heqN
          split at h
          · exact Except.noConfusion h
          · rename_i r p2 heq
            have h1 := ihFac _ _ _ heq
            have h11 := h1.1
            have hargs : idsOK lo p2.nid (exprIds (.binary a op r)) := by
              simp only [exprIds]
              exact idsOK_append hlo (by omega) hacc
                (idsOK_mono (by omega) (le_refl _) h1.2)
            have h2 := ihTermL lo _ p2 e p' (by omega) hargs h
            exact ⟨by omega, h2.2⟩
      · have he := okPair h
        have hp : p' = p := okPair2 h
        rw [he, hp]
        exact ⟨le_refl _, hacc⟩
    · intro p e p' h
      simp only [Parser.factor] at h
      split at h
      · exact Except.noConfusion h
      · rename_i e1 p1 heq
        have h1 := ihUn _ _ _ heq
        have h2 := ihFacL p.nid e1 p1 e p' h1.1 h1.2 h
        exact ⟨le_trans h1.1 h2.1, h2.2⟩
    · intro lo a p e p' hlo hacc h
      simp only [Parser.factor_loop] at h
      split at h
      · exact Except.noConfusion h
      · split at h
        · exact Except.noConfusion h
        · rename_i op p1 heqN
          have hn1 : p1.nid = p.nid := nextT_nid heqN
          split at h
          · exact Except.noConfusion h
          · rename_i r p2 heq
            have h1 := ihUn _ _ _ heq
            have h11 := h1.1
            have hargs : idsOK lo p2.nid (exprIds (.binary a op r)) := by
              simp only [exprIds]
              exact idsOK_append hlo (by omega) hacc
                (idsOK_mono (by omega) (le_refl _) h1.2)
            have h2 := ihFacL lo _ p2 e p' (by omega) hargs h
            exact ⟨by omega, h2.2⟩
      · have he := okPair h
        have hp : p' = p := okPair2 h
        rw [he, hp]
        exact ⟨le_refl _, hacc⟩
    · intro p e p' h
      simp only [Parser.unary] at h
      split at h
      · exact Except.noConfusion h
      · split at h
        · exact Except.noConfusion h
        · rename_i op p1 heqN
          have hn1 : p1.nid = p.nid := nextT_nid heqN
          split at h
          · exact Except.noConfusion h
          · rename_i r p2 heq
            have h1 := ihUn _ _ _ heq
            have h11 := h1.1
            have he := okPair h
            have hp : p' = p2 := okPair2 h
            rw [he, hp]
            refine ⟨by omega, ?_⟩
            simp only [exprIds]
            exact idsOK_mono (by omega) (le_refl _) h1.2
      · exact ihCall _ _ _ h
    · intro p e p' h
      simp only [Parser.call] at h
      split at h
      · exact Except.noConfusion h
      · rename_i e1 p1 heq
        have h1 := ihPrim _ _ _ heq
        have h2 := ihCallL p.nid e1 p1 e p' h1.1 h1.2 h
        exact ⟨le_trans h1.1 h2.1, h2.2⟩
    · intro lo a p e p' hlo hacc h
      simp only [Parser.call_loop] at h
      split at h
      · exact Except.noConfusion h
      · split at h
        · exact Except.noConfusion h
        · rename_i e1 p1 heq
          have h1 := ihFin lo a p e1 p1 hlo hacc heq
          have h2 := ihCallL lo e1 p1 e p' (le_trans hlo h1.1) h1.2 h
          exact ⟨le_trans h1.1 h2.1, h2.2⟩
      · have he := okPair h
        have hp : p' = p := okPair2 h
        rw [he, hp]
        exact ⟨le_refl _, hacc⟩
    · intro lo a p e p' hlo hacc h
      simp only [Parser.finish_call] at h
      split at h
      · exact Except.noConfusion h
      · rename_i paren p1 heqN
        have hn1 : p1.nid = p.nid := nextT_nid heqN
        split at h
        · exact Except.noConfusion h
        · split at h
          · exact Except.noConfusion h
          · rename_i args p2 heqA
            have h1 := ihArgs _ _ _ heqA
            have h11 := h1.1
            split at h
            · exact Except.noConfusion h
            · rename_i t3 p3 heqN2
              have hn3 : p3.nid = p2.nid := nextT_nid heqN2
              have he := okPair h
              have hp : p' = p3 := okPair2 h
              rw [he, hp]
              refine ⟨by omega, ?_⟩
              simp only [exprIds]
              exact idsOK_append hlo (by omega) hacc
                (idsOK_mono (by omega) (by omega) h1.2)
        · split at h
          · exact Except.noConfusion h
          · rename_i t2 p2 heqN2
            have hn2 : p2.nid = p1.nid := nextT_nid heqN2
            have he := okPair h
            have hp : p' = p2 := okPair2 h
            rw [he, hp]
            refine ⟨by omega, ?_⟩
            simp only [exprIds, exprListIds, List.append_nil]
            exact idsOK_mono (le_refl _) (by omega) hacc
    · intro p e p' h
      simp only [Parser.primary, PSt.freshId] at h
      split at h
      · exact Except.noConfusion h
      · rename_i token p1 heqN
        have hn1 : p1.nid = p.nid := nextT_nid heqN
        split at h
        · have he := okPair h
          have hp : p' = p1 := okPair2 h
          rw [he, hp]
          exact ⟨by omega, by rw [hn1]; exact idsOK_nil _ _⟩
        · have he := okPair h
          have hp : p' = p1 := okPair2 h
          rw [he, hp]
          exact ⟨by omega, by rw [hn1]; exact idsOK_nil _ _⟩
        · have he := okPair h
          have hp : p' = p1 := okPair2 h
          rw [he, hp]
          exact ⟨by omega, by rw [hn1]; exact idsOK_nil _ _⟩
        · have he := okPair h
          have hp : p' = p1 := okPair2 h
          rw [he, hp]
          exact ⟨by omega, by rw [hn1]; exact idsOK_nil _ _⟩
        · have he := okPair h
          have hp : p' = p1 := okPair2 h
          rw [he, hp]
          exact ⟨by omega, by rw [hn1]; exact idsOK_nil _ _⟩
        · split at h
          · exact Except.noConfusion h
          · rename_i e2 p2 heq
            have h1 := ihExpr _ _ _ heq
            have h11 := h1.1
            split at h
            · exact Except.noConfusion h
            · rename_i t3 p3 heqE
              have hn3 : p3.nid = p2.nid := expectT_nid heqE
              have he := okPair h
              have hp : p' = p3 := okPair2 h
              rw [he, hp]
              refine ⟨by omega, ?_⟩
              simp only [exprIds]
              exact idsOK_mono (by omega) (by omega) h1.2
        · have he := okPair h
          have hp : p'.nid = p1.nid + 1 := by rw [okPair2 h]
          refine ⟨by omega, ?_⟩
          rw [he]
          simp only [exprIds]
          exact idsOK_single (by omega) (by omega)
        · exact Except.noConfusion h
    · intro p es p' h
      simp only [Parser.arguments] at h
      split at h
      · exact Except.noConfusion h
      · rename_i a p1 heq
        have h1 := ihExpr _ _ _ heq
        have hone : idsOK p.nid p1.nid (exprListIds [a]) := by
          simp only [exprListIds, List.append_nil]
          exact h1.2
        have h2 := ihArgsL p.nid [a] p1 es p' h1.1 hone h
        exact ⟨le_trans h1.1 h2.1, h2.2⟩
    · intro lo acc p es p' hlo hacc h
      simp only [Parser.args_loop] at h
      split at h
      · exact Except.noConfusion h
      · split at h
        · exact Except.noConfusion h
        · rename_i t1 p1 heqN
          have hn1 : p1.nid = p.nid := nextT_nid heqN
          split at h
          · exact Except.noConfusion h
          · rename_i a p2 heqE
            have h1 := ihExpr _ _ _ heqE
            have h11 := h1.1
            split at h
            · exact Except.noConfusion h
            · have hnew : idsOK lo p2.nid (exprListIds (acc ++ [a])) := by
                rw [exprListIds_append]
                simp only [exprListIds, List.append_nil]
                exact idsOK_append hlo (by omega) hacc
                  (idsOK_mono (by omega) (le_refl _) h1.2)
              have h2 := ihArgsL lo (acc ++ [a]) p2 es p' (by omega) hnew h
              exact ⟨by omega, h2.2⟩
      · have he := okPair h
        have hp : p' = p := okPair2 h
        rw [he, hp]
        exact ⟨le_refl _, hacc⟩

def optExprIds : Option Expr → List Nat
  | none => []
  | some e => exprIds e

def optStmtIds : Option Stmt → List Nat
  | none => []
  | some st => stmtIds st

theorem idsOK_append_rev {lo m hi : Nat} {a b : List Nat} (hm1 : lo ≤ m)
    (hm2 : m ≤ hi) (ha : idsOK m hi a) (hb : idsOK lo m b) :
    idsOK lo hi (a ++ b) := by
  refine ⟨List.Nodup.append ha.1 hb.1 ?_, ?_⟩
  · intro x hxa hxb
    have h1 := (ha.2 x hxa).1
    have h2 := (hb.2 x hxb).2
    omega
  · intro i hi1
    rcases List.mem_append.mp hi1 with h | h
    · have := ha.2 i h
      omega
    · have := hb.2 i h
      omega

theorem parser_stmt_ids : ∀ f : Nat,
    (∀ p st p', Parser.declaration f p = .ok (st, p') →
      p.nid ≤ p'.nid ∧ idsOK p.nid p'.nid (stmtIds st)) ∧
    (∀ p st p', Parser.var_declaration f p = .ok (st, p') →
      p.nid ≤ p'.nid ∧ idsOK p.nid p'.nid (stmtIds st)) ∧
    (∀ p st p', Parser.function f p = .ok (st, p') →
      p.nid ≤ p'.nid ∧ idsOK p.nid p'.nid (stmtIds st)) ∧
    (∀ name params p st p', Parser.function_tail f name params p = .ok (st, p') →
      p.nid ≤ p'.nid ∧ idsOK p.nid p'.nid (stmtIds st)) ∧
    (∀ acc p ts p', Parser.params_loop f acc p = .ok (ts, p') → p'.nid = p.nid) ∧
    (∀ p sts p', Parser.block f p = .ok (sts, p') →
      p.nid ≤ p'.nid ∧ idsOK p.nid p'.nid (stmtListIds sts)) ∧
    (∀ lo acc p sts p', lo ≤ p.nid → idsOK lo p.nid (stmtListIds acc) →
      Parser.block_loop f acc p = .ok (sts, p') →
      p.nid ≤ p'.nid ∧ idsOK lo p'.nid (stmtListIds sts)) ∧
    (∀ p st p', Parser.statement f p = .ok (st, p') →
      p.nid ≤ p'.nid ∧ idsOK p.nid p'.nid (stmtIds st)) ∧
    (∀ p st p', Parser.if_statement f p = .ok (st, p') →
      p.nid ≤ p'.nid ∧ idsOK p.nid p'.nid (stmtIds st)) ∧
    (∀ p st p', Parser.while_statement f p = .ok (st, p') →
      p.nid ≤ p'.nid ∧ idsOK p.nid p'.nid (stmtIds st)) ∧
    (∀ p st p', Parser.for_statement f p = .ok (st, p') →
      p.nid ≤ p'.nid ∧ idsOK p.nid p'.nid (stmtIds st)) ∧
    (∀ lo init p st p', lo ≤ p.nid → idsOK lo p.nid (optStmtIds init) →
      Parser.for_tail f init p = .ok (st, p') →
      p.nid ≤ p'.nid ∧ idsOK lo p'.nid (stmtIds st)) ∧
    (∀ lo m init cond p st p', lo ≤ m → m ≤ p.nid →
      idsOK lo m (optStmtIds init) → idsOK m p.nid (optExprIds cond) →
      Parser.for_tail2 f init cond p = .ok (st, p') →
      p.nid ≤ p'.nid ∧ idsOK lo p'.nid (stmtIds st)) ∧
    (∀ lo m1 m2 init cond incr p st p', lo ≤ m1 → m1 ≤ m2 → m2 ≤ p.nid →
      idsOK lo m1 (optStmtIds init) → idsOK m1 m2 (optExprIds cond) →
      idsOK m2 p.nid (optExprIds incr) →
      Parser.for_tail3 f init cond incr p = .ok (st, p') →
      p.nid ≤ p'.nid ∧ idsOK lo p'.nid (stmtIds st)) ∧
    (∀ p st p', Parser.return_statement f p = .ok (st, p') →
      p.nid ≤ p'.nid ∧ idsOK p.nid p'.nid (stmtIds st)) ∧
    (∀ p st p', Parser.print_statement f p = .ok (st, p') →
      p.nid ≤ p'.nid ∧ idsOK p.nid p'.nid (stmtIds st)) ∧
    (∀ p st p', Parser.expression_statement f p = .ok (st, p') →
      p.nid ≤ p'.nid ∧ idsOK p.nid p'.nid (stmtIds st)) ∧
    (∀ lo acc p sts p', lo ≤ p.nid → idsOK lo p.nid (stmtListIds acc) →
      Parser.parse_loop f acc p = .ok (sts, p') →
      p.nid ≤ p'.nid ∧ idsOK lo p'.nid (stmtListIds sts)) := by
  intro f
  induction f with
  | zero =>
    exact ⟨fun _ _ _ h => Except.noConfusion h, fun _ _ _ h => Except.noConfusion h,
      fun _ _ _ h => Except.noConfusion h, fun _ _ _ _ _ h => Except.noConfusion h,
      fun _ _ _ _ h => Except.noConfusion h, fun _ _ _ h => Except.noConfusion h,
      fun _ _ _ _ _ _ _ h => Except.noConfusion h,
      fun _ _ _ h => Except.noConfusion h, fun _ _ _ h => Except.noConfusion h,
      fun _ _ _ h => Except.noConfusion h, fun _ _ _ h => Except.noConfusion h,
      fun _ _ _ _ _ _ _ h => Except.noConfusion h,
      fun _ _ _ _ _ _ _ _ _ _ _ h => Except.noConfusion h,
      fun _ _ _ _ _ _ _ _ _ _ _ _ _ _ _ h => Except.noConfusion h,
      fun _ _ _ h => Except.noConfusion h, fun _ _ _ h => Except.noConfusion h,
      fun _ _ _ h => Except.noConfusion h,
      fun _ _ _ _ _ _ _ h => Except.noConfusion h⟩
  | succ f ih =>
    obtain ⟨ihDecl, ihVar, ihFun, ihTail, ihParams, ihBlock, ihBlockL, ihStmt,
      ihIf, ihWhile, ihFor, ihForT, ihForT2, ihForT3, ihRet, ihPrint, ihExprS,
      ihParseL⟩ := ih
    have hExpr := (parser_expr_ids f).1
    refine ⟨?_, ?_, ?_, ?_, ?_, ?_, ?_, ?_, ?_, ?_, ?_, ?_, ?_, ?_, ?_, ?_, ?_, ?_⟩
    · intro p st p' h
      simp only [Parser.declaration] at h
      split at h
      · exact Except.noConfusion h
      · split at h
        · exact Except.noConfusion h
        · rename_i t1 p1 heqN
          have hn1 : p1.nid = p.nid := nextT_nid heqN
          have h1 := ihVar _ _ _ h
          exact ⟨by omega, idsOK_mono (by omega) (le_refl _) h1.2⟩
      · split at h
        · exact Except.noConfusion h
        · split at h
          · exact Except.noConfusion h
          · rename_i t1 p1 heqN
            have hn1 : p1.nid = p.nid := nextT_nid heqN
            have h1 := ihFun _ _ _ h
            exact ⟨by omega, idsOK_mono (by omega) (le_refl _) h1.2⟩
        · exact ihStmt _ _ _ h
    · intro p st p' h
      simp only [Parser.var_declaration] at h
      split at h
      · exact Except.noConfusion h
      · rename_i name p1 heqE
        have hn1 : p1.nid = p.nid := expectT_nid heqE
        split at h
        · exact Except.noConfusion h
        · split at h
          · exact Except.noConfusion h
          · rename_i t2 p2 heqN
            have hn2 : p2.nid = p1.nid := nextT_nid heqN
            split at h
            · exact Except.noConfusion h
            · rename_i init p3 heq
              have h1 := hExpr _ _ _ heq
              have h11 := h1.1
              split at h
              · exact Except.noConfusion h
              · rename_i t4 p4 heqE2
                have hn4 : p4.nid = p3.nid := expectT_nid heqE2
                have he := okPair h
                have hp : p' = p4 := okPair2 h
                rw [he, hp]
                refine ⟨by omega, ?_⟩
                simp only [stmtIds]
                exact idsOK_mono (by omega) (by omega) h1.2
        · split at h
          · exact Except.noConfusion h
          · rename_i t2 p2 heqE2
            have hn2 : p2.nid = p1.nid := expectT_nid heqE2
            have he := okPair h
            have hp : p' = p2 := okPair2 h
            rw [he, hp]
            exact ⟨by omega, ⟨List.nodup_nil, by intro i hi1; cases hi1⟩⟩
    · intro p st p' h
      simp only [Parser.function] at h
      split at h
      · exact Except.noConfusion h
      · rename_i name p1 heqE
        have hn1 : p1.nid = p.nid := expectT_nid heqE
        split at h
        · exact Except.noConfusion h
        · rename_i t2 p2 heqE2
          have hn2 : p2.nid = p1.nid := expectT_nid heqE2
          split at h
          · exact Except.noConfusion h
          · split at h
            · exact Except.noConfusion h
            · rename_i t3 p3 heqN
              have hn3 : p3.nid = p2.nid := nextT_nid heqN
              have h1 := ihTail _ _ _ _ _ h
              exact ⟨by omega, idsOK_mono (by omega) (le_refl _) h1.2⟩
          · split at h
            · exact Except.noConfusion h
            · rename_i params p3 heqP
              have hn3 : p3.nid = p2.nid := ihParams _ _ _ _ heqP
              split at h
              · exact Except.noConfusion h
              · rename_i t4 p4 heqN
                have hn4 : p4.nid = p3.nid := nextT_nid heqN
                have h1 := ihTail _ _ _ _ _ h
                exact ⟨by omega, idsOK_mono (by omega) (le_refl _) h1.2⟩
    · intro name params p st p' h
      simp only [Parser.function_tail] at h
      split at h
      · exact Except.noConfusion h
      · rename_i t1 p1 heqE
        have hn1 : p1.nid = p.nid := expectT_nid heqE
        split at h
        · exact Except.noConfusion h
        · rename_i stmts p2 heq
          have h1 := ihBlock _ _ _ heq
          have he := okPair h
          have hp : p' = p2 := okPair2 h
          rw [he, hp]
          refine ⟨by omega, ?_⟩
          simp only [stmtIds]
          exact idsOK_mono (by omega) (le_refl _) h1.2
    · intro acc p ts p' h
      simp only [Parser.params_loop] at h
      split at h
      · exact Except.noConfusion h
      · rename_i t1 p1 heqE
        have hn1 : p1.nid = p.nid := expectT_nid heqE
        split at h
        · exact Except.noConfusion h
        · split at h
          · exact Except.noConfusion h
          · split at h
            · exact Except.noConfusion h
            · rename_i t2 p2 heqN
              have hn2 : p2.nid = p1.nid := nextT_nid heqN
              have h1 := ihParams _ _ _ _ h
              omega
          · have hp : p' = p1 := okPair2 h
            rw [hp]
            omega
    · intro p sts p' h
      simp only [Parser.block] at h
      split at h
      · exact Except.noConfusion h
      · rename_i stmts p1 heq
        have h1 := ihBlockL p.nid [] p stmts p1 (le_refl _)
          ⟨List.nodup_nil, by intro i hi1; cases hi1⟩ heq
        split at h
        · exact Except.noConfusion h
        · rename_i t2 p2 heqE
          have hn2 : p2.nid = p1.nid := expectT_nid heqE
          have he := okPair h
          have hp : p' = p2 := okPair2 h
          rw [he, hp]
          have h11 := h1.1
          exact ⟨by omega, idsOK_mono (le_refl _) (by omega) h1.2⟩
    · intro lo acc p sts p' hlo hacc h
      simp only [Parser.block_loop] at h
      split at h
      · exact Except.noConfusion h
      · have he := okPair h
        have hp : p' = p := okPair2 h
        rw [he, hp]
        exact ⟨le_refl _, hacc⟩
      · split at h
        · exact Except.noConfusion h
        · have he := okPair h
          have hp : p' = p := okPair2 h
          rw [he, hp]
          exact ⟨le_refl _, hacc⟩
        · split at h
          · exact Except.noConfusion h
          · rename_i s1 p1 heq
            have h1 := ihDecl _ _ _ heq
            have h11 := h1.1
            have hnew : idsOK lo p1.nid (stmtListIds (acc ++ [s1])) := by
              rw [stmtListIds_append]
              simp only [stmtListIds, List.append_nil]
              exact idsOK_append hlo (by omega) hacc h1.2
            have h2 := ihBlockL lo (acc ++ [s1]) p1 sts p' (by omega) hnew h
            exact ⟨by omega, h2.2⟩
    · intro p st p' h
      simp only [Parser.statement] at h
      split at h
      · exact Except.noConfusion h
      · split at h
        · exact Except.noConfusion h
        · rename_i t1 p1 heqN
          have hn1 : p1.nid = p.nid := nextT_nid heqN
          have h1 := ihPrint _ _ _ h
          exact ⟨by omega, idsOK_mono (by omega) (le_refl _) h1.2⟩
      · split at h
        · exact Except.noConfusion h
        · split at h
          · exact Except.noConfusion h
          · rename_i t1 p1 heqN
            have hn1 : p1.nid = p.nid := nextT_nid heqN
            split at h
            · exact Except.noConfusion h
            · rename_i stmts p2 heq
              have h1 := ihBlock _ _ _ heq
              have he := okPair h
              have hp : p' = p2 := okPair2 h
              rw [he, hp]
              have h11 := h1.1
              refine ⟨by omega, ?_⟩
              simp only [stmtIds]
              exact idsOK_mono (by omega) (le_refl _) h1.2
        · split at h
          · exact Except.noConfusion h
          · split at h
            · exact Except.noConfusion h
            · rename_i t1 p1 heqN
              have hn1 : p1.nid = p.nid := nextT_nid heqN
              have h1 := ihIf _ _ _ h
              exact ⟨by omega, idsOK_mono (by omega) (le_refl _) h1.2⟩
          · split at h
            · exact Except.noConfusion h
            · split at h
              · exact Except.noConfusion h
              · rename_i t1 p1 heqN
                have hn1 : p1.nid = p.nid := nextT_nid heqN
                have h1 := ihWhile _ _ _ h
                exact ⟨by omega, idsOK_mono (by omega) (le_refl _) h1.2⟩
            · split at h
              · exact Except.noConfusion h
              · split at h
                · exact Except.noConfusion h
                · rename_i t1 p1 heqN
                  have hn1 : p1.nid = p.nid := nextT_nid heqN
                  have h1 := ihFor _ _ _ h
                  exact ⟨by omega, idsOK_mono (by omega) (le_refl _) h1.2⟩
              · split at h
                · exact Except.noConfusion h
                · exact ihRet _ _ _ h
                · exact ihExprS _ _ _ h
    · intro p st p' h
      simp only [Parser.if_statement] at h
      split at h
      · exact Except.noConfusion h
      · rename_i t1 p1 heqE
        have hn1 : p1.nid = p.nid := expectT_nid heqE
        split at h
        · exact Except.noConfusion h
        · rename_i cond p2 heqC
          have h1 := hExpr _ _ _ heqC
          have h11 := h1.1
          split at h
          · exact Except.noConfusion h
          · rename_i t3 p3 heqE2
            have hn3 : p3.nid = p2.nid := expectT_nid heqE2
            split at h
            · exact Except.noConfusion h
            · rename_i thenB p4 heqT
              have h2 := ihStmt _ _ _ heqT
              have h21 := h2.1
              split at h
              · exact Except.noConfusion h
              · split at h
                · exact Except.noConfusion h
                · rename_i t5 p5 heqN
                  have hn5 : p5.nid = p4.nid := nextT_nid heqN
                  split at h
                  · exact Except.noConfusion h
                  · rename_i elseB p6 heqEl
                    have h3 := ihStmt _ _ _ heqEl
                    have h31 := h3.1
                    have he := okPair h
                    have hp : p' = p6 := okPair2 h
                    rw [he, hp]
                    refine ⟨by omega, ?_⟩
                    simp only [stmtIds]
                    have hCT : idsOK p.nid p4.nid (exprIds cond ++ stmtIds thenB) :=
                      idsOK_append (by omega) (by omega)
                        (idsOK_mono (by omega) (le_refl _) h1.2)
                        (idsOK_mono (by omega) (by omega) h2.2)
                    exact idsOK_append (by omega) (by omega) hCT
                      (idsOK_mono (by omega) (le_refl _) h3.2)
              · have he := okPair h
                have hp : p' = p4 := okPair2 h
                rw [he, hp]
                refine ⟨by omega, ?_⟩
                simp only [stmtIds, List.append_nil]
                exact idsOK_append (by omega) (by omega)
                  (idsOK_mono (by omega) (le_refl _) h1.2)
                  (idsOK_mono (by omega) (by omega) h2.2)
    · intro p st p' h
      simp only [Parser.while_statement] at h
      split at h
      · exact Except.noConfusion h
      · rename_i t1 p1 heqE
        have hn1 : p1.nid = p.nid := expectT_nid heqE
        split at h
        · exact Except.noConfusion h
        · rename_i cond p2 heqC
          have h1 := hExpr _ _ _ heqC
          have h11 := h1.1
          split at h
          · exact Except.noConfusion h
          · rename_i t3 p3 heqE2
            have hn3 : p3.nid = p2.nid := expectT_nid heqE2
            split at h
            · exact Except.noConfusion h
            · rename_i body p4 heqB
              have h2 := ihStmt _ _ _ heqB
              have h21 := h2.1
              have he := okPair h
              have hp : p' = p4 := okPair2 h
              rw [he, hp]
              refine ⟨by omega, ?_⟩
              simp only [stmtIds]
              exact idsOK_append (by omega) (by omega)
                (idsOK_mono (by omega) (le_refl _) h1.2)
                (idsOK_mono (by omega) (by omega) h2.2)
    · intro p st p' h
      simp only [Parser.for_statement] at h
      split at h
      · exact Except.noConfusion h
      · rename_i t1 p1 heqE
        have hn1 : p1.nid = p.nid := expectT_nid heqE
        split at h
        · exact Except.noConfusion h
        · split at h
          · exact Except.noConfusion h
          · rename_i t2 p2 heqN
            have hn2 : p2.nid = p1.nid := nextT_nid heqN
            split at h
            · exact Except.noConfusion h
            · rename_i i p3 heqI
              have h1 := ihVar _ _ _ heqI
              have h11 := h1.1
              have h2 := ihForT p2.nid (some i) p3 st p' (by omega) h1.2 h
              exact ⟨by omega, idsOK_mono (by omega) (le_refl _) h2.2⟩
        · split at h
          · exact Except.noConfusion h
          · split at h
            · exact Except.noConfusion h
            · rename_i i p2 heqI
              have h1 := ihExprS _ _ _ heqI
              have h11 := h1.1
              have h2 := ihForT p1.nid (some i) p2 st p' (by omega) h1.2 h
              exact ⟨by omega, idsOK_mono (by omega) (le_refl _) h2.2⟩
          · have h2 := ihForT p1.nid none p1 st p' (le_refl _)
              ⟨List.nodup_nil, by intro i hi1; cases hi1⟩ h
            exact ⟨by omega, idsOK_mono (by omega) (le_refl _) h2.2⟩
    · intro lo init p st p' hlo hacc h
      simp only [Parser.for_tail] at h
      split at h
      · exact Except.noConfusion h
      · split at h
        · exact Except.noConfusion h
        · rename_i c p1 heqC
          have h1 := hExpr _ _ _ heqC
          have h11 := h1.1
          have h2 := ihForT2 lo p.nid init (some c) p1 st p' hlo (by omega)
            hacc h1.2 h
          exact ⟨by omega, h2.2⟩
      · exact ihForT2 lo p.nid init none p st p' hlo (le_refl _) hacc
          ⟨List.nodup_nil, by intro i hi1; cases hi1⟩ h
    · intro lo m init cond p st p' hlo hm hI hC h
      simp only [Parser.for_tail2] at h
      split at h
      · exact Except.noConfusion h
      · rename_i t1 p1 heqE
        have hn1 : p1.nid = p.nid := expectT_nid heqE
        split at h
        · exact Except.noConfusion h
        · split at h
          · exact Except.noConfusion h
          · rename_i u p2 heqU
            have h1 := hExpr _ _ _ heqU
            have h11 := h1.1
            have h2 := ihForT3 lo m p.nid init cond (some u) p2 st p' hlo hm
              (by omega) hI hC
              (idsOK_mono (le_refl _) (le_refl _)
                (idsOK_mono (by omega) (le_refl _) h1.2)) h
            exact ⟨by omega, h2.2⟩
        · have h2 := ihForT3 lo m p.nid init cond none p1 st p' hlo hm
            (by omega) hI hC ⟨List.nodup_nil, by intro i hi1; cases hi1⟩ h
          exact ⟨by omega, h2.2⟩
    · intro lo m1 m2 init cond incr p st p' hlo hm1 hm2 hI hC hU h
      simp only [optStmtIds, optExprIds] at hI hC hU
      cases init with
      | none =>
        cases cond with
        | none =>
          cases incr with
          | none =>
            simp only [Parser.for_tail3] at h
            split at h
            · exact Except.noConfusion h
            · rename_i t1 p1 heqE
              have hn1 : p1.nid = p.nid := expectT_nid heqE
              split at h
              · exact Except.noConfusion h
              · rename_i body p2 heqB
                have h1 := ihStmt _ _ _ heqB
                have h11 := h1.1
                have he := okPair h
                have hp : p' = p2 := okPair2 h
                rw [he, hp]
                refine ⟨by omega, ?_⟩
                simp only [stmtIds, exprIds, List.nil_append]
                exact idsOK_mono (by omega) (le_refl _) h1.2
          | some u =>
            simp only [Parser.for_tail3] at h
            split at h
            · exact Except.noConfusion h
            · rename_i t1 p1 heqE
              have hn1 : p1.nid = p.nid := expectT_nid heqE
              split at h
              · exact Except.noConfusion h
              · rename_i body p2 heqB
                have h1 := ihStmt _ _ _ heqB
                have h11 := h1.1
                have he := okPair h
                have hp : p' = p2 := okPair2 h
                rw [he, hp]
                refine ⟨by omega, ?_⟩
                simp only [stmtIds, stmtListIds, exprIds, List.nil_append,
                  List.append_nil]
                have hB1 : idsOK p.nid p2.nid (stmtIds body) :=
                  idsOK_mono (by omega) (le_refl _) h1.2
                exact idsOK_mono (by omega) (le_refl _)
                  (idsOK_append_rev (by omega) (by omega) hB1 hU)
        | some c =>
          cases incr with
          | none =>
            simp only [Parser.for_tail3] at h
            split at h
            · exact Except.noConfusion h
            · rename_i t1 p1 heqE
              have hn1 : p1.nid = p.nid := expectT_nid heqE
              split at h
              · exact Except.noConfusion h
              · rename_i body p2 heqB
                have h1 := ihStmt _ _ _ heqB
                have h11 := h1.1
                have he := okPair h
                have hp : p' = p2 := okPair2 h
                rw [he, hp]
                refine ⟨by omega, ?_⟩
                simp only [stmtIds, exprIds, List.nil_append]
                have hB2 : idsOK m2 p2.nid (stmtIds body) :=
                  idsOK_mono (by omega) (le_refl _) h1.2
                exact idsOK_mono (by omega) (le_refl _)
                  (idsOK_append (by omega) (by omega) hC hB2)
          | some u =>
            simp only [Parser.for_tail3] at h
            split at h
            · exact Except.noConfusion h
            · rename_i t1 p1 heqE
              have hn1 : p1.nid = p.nid := expectT_nid heqE
              split at h
              · exact Except.noConfusion h
              · rename_i body p2 heqB
                have h1 := ihStmt _ _ _ heqB
                have h11 := h1.1
                have he := okPair h
                have hp : p' = p2 := okPair2 h
                rw [he, hp]
                refine ⟨by omega, ?_⟩
                simp only [stmtIds, stmtListIds, exprIds, List.nil_append,
                  List.append_nil]
                have hB1 : idsOK p.nid p2.nid (stmtIds body) :=
                  idsOK_mono (by omega) (le_refl _) h1.2
                have hBU : idsOK m2 p2.nid (stmtIds body ++ exprIds u) :=
                  idsOK_append_rev (by omega) (by omega) hB1 hU
                exact idsOK_mono (by omega) (le_refl _)
                  (idsOK_append (by omega) (by omega) hC hBU)
      | some i =>
        cases cond with
        | none =>
          cases incr with
          | none =>
            simp only [Parser.for_tail3] at h
            split at h
            · exact Except.noConfusion h
            · rename_i t1 p1 heqE
              have hn1 : p1.nid = p.nid := expectT_nid heqE
              split at h
              · exact Except.noConfusion h
              · rename_i body p2 heqB
                have h1 := ihStmt _ _ _ heqB
                have h11 := h1.1
                have he := okPair h
                have hp : p' = p2 := okPair2 h
                rw [he, hp]
                refine ⟨by omega, ?_⟩
                simp only [stmtIds, stmtListIds, exprIds, List.nil_append,
                  List.append_nil]
                have hB2 : idsOK m1 p2.nid (stmtIds body) :=
                  idsOK_mono (by omega) (le_refl _) h1.2
                exact idsOK_append (by omega) (by omega) hI hB2
          | some u =>
            simp only [Parser.for_tail3] at h
            split at h
            · exact Except.noConfusion h
            · rename_i t1 p1 heqE
              have hn1 : p1.nid = p.nid := expectT_nid heqE
              split at h
              · exact Except.noConfusion h
              · rename_i body p2 heqB
                have h1 := ihStmt _ _ _ heqB
                have h11 := h1.1
                have he := okPair h
                have hp : p' = p2 := okPair2 h
                rw [he, hp]
                refine ⟨by omega, ?_⟩
                simp only [stmtIds, stmtListIds, exprIds, List.nil_append,
                  List.append_nil]
                have hB1 : idsOK p.nid p2.nid (stmtIds body) :=
                  idsOK_mono (by omega) (le_refl _) h1.2
                have hU1 : idsOK m1 p.nid (exprIds u) :=
                  idsOK_mono (by omega) (le_refl _) hU
                have hBU : idsOK m1 p2.nid (stmtIds body ++ exprIds u) :=
                  idsOK_append_rev (by omega) (by omega) hB1 hU1
                exact idsOK_append (by omega) (by omega) hI hBU
        | some c =>
          cases incr with
          | none =>
            simp only [Parser.for_tail3] at h
            split at h
            · exact Except.noConfusion h
            · rename_i t1 p1 heqE
              have hn1 : p1.nid = p.nid := expectT_nid heqE
              split at h
              · exact Except.noConfusion h
              · rename_i body p2 heqB
                have h1 := ihStmt _ _ _ heqB
                have h11 := h1.1
                have he := okPair h
                have hp : p' = p2 := okPair2 h
                rw [he, hp]
                refine ⟨by omega, ?_⟩
                simp only [stmtIds, stmtListIds, exprIds, List.nil_append,
                  List.append_nil]
                have hB2 : idsOK m2 p2.nid (stmtIds body) :=
                  idsOK_mono (by omega) (le_refl _) h1.2
                have hCB : idsOK m1 p2.nid (exprIds c ++ stmtIds body) :=
                  idsOK_append (by omega) (by omega) hC hB2
                exact idsOK_append (by omega) (by omega) hI hCB
          | some u =>
            simp only [Parser.for_tail3] at h
            split at h
            · exact Except.noConfusion h
            · rename_i t1 p1 heqE
              have hn1 : p1.nid = p.nid := expectT_nid heqE
              split at h
              · exact Except.noConfusion h
              · rename_i body p2 heqB
                have h1 := ihStmt _ _ _ heqB
                have h11 := h1.1
                have he := okPair h
                have hp : p' = p2 := okPair2 h
                rw [he, hp]
                refine ⟨by omega, ?_⟩
                simp only [stmtIds, stmtListIds, exprIds, List.nil_append,
                  List.append_nil]
                have hB1 : idsOK p.nid p2.nid (stmtIds body) :=
                  idsOK_mono (by omega) (le_refl _) h1.2
                have hBU : idsOK m2 p2.nid (stmtIds body ++ exprIds u) :=
                  idsOK_append_rev (by omega) (by omega) hB1 hU
                have hCBU : idsOK m1 p2.nid
                    (exprIds c ++ (stmtIds body ++ exprIds u)) :=
                  idsOK_append (by omega) (by omega) hC hBU
                exact idsOK_append (by omega) (by omega) hI hCBU
    · intro p st p' h
      simp only [Parser.return_statement] at h
      split at h
      · exact Except.noConfusion h
      · rename_i keyword p1 heqN
        have hn1 : p1.nid = p.nid := nextT_nid heqN
        split at h
        · exact Except.noConfusion h
        · split at h
          · exact Except.noConfusion h
          · rename_i v p2 heqV
            have h1 := hExpr _ _ _ heqV
            have h11 := h1.1
            split at h
            · exact Except.noConfusion h
            · rename_i t3 p3 heqE
              have hn3 : p3.nid = p2.nid := expectT_nid heqE
              have he := okPair h
              have hp : p' = p3 := okPair2 h
              rw [he, hp]
              refine ⟨by omega, ?_⟩
              simp only [stmtIds]
              exact idsOK_mono (by omega) (by omega) h1.2
        · split at h
          · exact Except.noConfusion h
          · rename_i t2 p2 heqE
            have hn2 : p2.nid = p1.nid := expectT_nid heqE
            have he := okPair h
            have hp : p' = p2 := okPair2 h
            rw [he, hp]
            exact ⟨by omega, ⟨List.nodup_nil, by intro i hi1; cases hi1⟩⟩
    · intro p st p' h
      simp only [Parser.print_statement] at h
      split at h
      · exact Except.noConfusion h
      · rename_i v p1 heq
        have h1 := hExpr _ _ _ heq
        have h11 := h1.1
        split at h
        · exact Except.noConfusion h
        · rename_i t2 p2 heqE
          have hn2 : p2.nid = p1.nid := expectT_nid heqE
          have he := okPair h
          have hp : p' = p2 := okPair2 h
          rw [he, hp]
          refine ⟨by omega, ?_⟩
          simp only [stmtIds]
          exact idsOK_mono (le_refl _) (by omega) h1.2
    · intro p st p' h
      simp only [Parser.expression_statement] at h
      split at h
      · exact Except.noConfusion h
      · rename_i v p1 heq
        have h1 := hExpr _ _ _ heq
        have h11 := h1.1
        split at h
        · exact Except.noConfusion h
        · rename_i t2 p2 heqE
          have hn2 : p2.nid = p1.nid := expectT_nid heqE
          have he := okPair h
          have hp : p' = p2 := okPair2 h
          rw [he, hp]
          refine ⟨by omega, ?_⟩
          simp only [stmtIds]
          exact idsOK_mono (le_refl _) (by omega) h1.2
    · intro lo acc p sts p' hlo hacc h
      simp only [Parser.parse_loop] at h
      split at h
      · exact Except.noConfusion h
      · split at h
        · exact Except.noConfusion h
        · rename_i s1 p1 heq
          have h1 := ihDecl _ _ _ heq
          have h11 := h1.1
          have hnew : idsOK lo p1.nid (stmtListIds (acc ++ [s1])) := by
            rw [stmtListIds_append]
            simp only [stmtListIds, List.append_nil]
            exact idsOK_append hlo (by omega) hacc h1.2
          have h2 := ihParseL lo (acc ++ [s1]) p1 sts p' (by omega) hnew h
          exact ⟨by omega, h2.2⟩
      · have he := okPair h
        have hp : p' = p := okPair2 h
        rw [he, hp]
        exact ⟨le_refl _, hacc⟩

theorem parseProgram_ids_nodup {f : Nat} {toks : List Token} {stmts : List Stmt}
    (h : parseProgram f toks = .ok stmts) : (stmtListIds stmts).Nodup := by
  simp only [parseProgram, Parser.parse] at h
  split at h
  · exact Except.noConfusion h
  · rename_i l p1 heq
    injection h with h1
    rw [← h1]
    have h2 := ((parser_stmt_ids f).2.2.2.2.2.2.2.2.2.2.2.2.2.2.2.2.2) 0 [] ⟨toks, 0⟩
      l p1 (Nat.zero_le _) ⟨List.nodup_nil, by intro i hi1; cases hi1⟩ heq
    exact h2.2.1

mutual

/-- A statement in `statement` position, as the parser produces them:
no VarStmt, FunctionStmt-declaration or ClassStmt at the top, and every
nested block holds declaration-position statements. -/
def stmtShaped : Stmt → Bool
  | .expr _ => true
  | .print _ => true
  | .varD _ _ => false
  | .block sts => declListShaped sts
  | .ifS _ t e? =>
    stmtShaped t && (match e? with | some e => stmtShaped e | none => true)
  | .whileS _ b => stmtShaped b
  | .function _ => false
  | .ret _ _ => true
  | .classS _ _ => false

/-- A statement in `declaration` position: additionally allows VarStmt
and FunctionStmt (whose body is again declaration-position). -/
def declShaped : Stmt → Bool
  | .expr _ => true
  | .print _ => true
  | .varD _ _ => true
  | .block sts => declListShaped sts
  | .ifS _ t e? =>
    stmtShaped t && (match e? with | some e => stmtShaped e | none => true)
  | .whileS _ b => stmtShaped b
  | .function (.mk _ _ body) => declListShaped body
  | .ret _ _ => true
  | .classS _ _ => false

def declListShaped : List Stmt → Bool
  | [] => true
  | st :: rest => declShaped st && declListShaped rest

end

def optDeclShaped : Option Stmt → Bool
  | none => true
  | some st => declShaped st

theorem stmtShaped_declShaped {st : Stmt} (h : stmtShaped st = true) :
    declShaped st = true := by
  cases st with
  | expr e => rfl
  | print e => rfl
  | varD n i => exact absurd h (by simp [stmtShaped])
  | block sts =>
    simp only [stmtShaped] at h
    simp only [declShaped]
    exact h
  | ifS c t e? =>
    cases e? with
    | none =>
      simp only [stmtShaped] at h
      simp only [declShaped]
      exact h
    | some e =>
      simp only [stmtShaped] at h
      simp only [declShaped]
      exact h
  | whileS c b =>
    simp only [stmtShaped] at h
    simp only [declShaped]
    exact h
  | function fs => exact absurd h (by simp [stmtShaped])
  | ret k v => rfl
  | classS n m => exact absurd h (by simp [stmtShaped])

theorem parser_stmts_shaped : ∀ f : Nat,
    (∀ p st p', Parser.declaration f p = .ok (st, p') → declShaped st = true) ∧
    (∀ p st p', Parser.var_declaration f p = .ok (st, p') → declShaped st = true) ∧
    (∀ p st p', Parser.function f p = .ok (st, p') → declShaped st = true) ∧
    (∀ name params p st p', Parser.function_tail f name params p = .ok (st, p') →
      declShaped st = true) ∧
    (∀ p sts p', Parser.block f p = .ok (sts, p') → declListShaped sts = true) ∧
    (∀ acc p sts p', declListShaped acc = true →
      Parser.block_loop f acc p = .ok (sts, p') → declListShaped sts = true) ∧
    (∀ p st p', Parser.statement f p = .ok (st, p') → stmtShaped st = true) ∧
    (∀ p st p', Parser.if_statement f p = .ok (st, p') → stmtShaped st = true) ∧
    (∀ p st p', Parser.while_statement f p = .ok (st, p') → stmtShaped st = true) ∧
    (∀ p st p', Parser.for_statement f p = .ok (st, p') → stmtShaped st = true) ∧
    (∀ init p st p', optDeclShaped init = true →
      Parser.for_tail f init p = .ok (st, p') → stmtShaped st = true) ∧
    (∀ init cond p st p', optDeclShaped init = true →
      Parser.for_tail2 f init cond p = .ok (st, p') → stmtShaped st = true) ∧
    (∀ init cond incr p st p', optDeclShaped init = true →
      Parser.for_tail3 f init cond incr p = .ok (st, p') → stmtShaped st = true) ∧
    (∀ p st p', Parser.return_statement f p = .ok (st, p') → stmtShaped st = true) ∧
    (∀ p st p', Parser.print_statement f p = .ok (st, p') → stmtShaped st = true) ∧
    (∀ p st p', Parser.expression_statement f p = .ok (st, p') →
      stmtShaped st = true) ∧
    (∀ acc p sts p', declListShaped acc = true →
      Parser.parse_loop f acc p = .ok (sts, p') → declListShaped sts = true) := by
  intro f
  induction f with
  | zero =>
    exact ⟨fun _ _ _ h => Except.noConfusion h, fun _ _ _ h => Except.noConfusion h,
      fun _ _ _ h => Except.noConfusion h, fun _ _ _ _ _ h => Except.noConfusion h,
      fun _ _ _ h => Except.noConfusion h, fun _ _ _ _ _ h => Except.noConfusion h,
      fun _ _ _ h => Except.noConfusion h, fun _ _ _ h => Except.noConfusion h,
      fun _ _ _ h => Except.noConfusion h, fun _ _ _ h => Except.noConfusion h,
      fun _ _ _ _ _ h => Except.noConfusion h,
      fun _ _ _ _ _ _ h => Except.noConfusion h,
      fun _ _ _ _ _ _ _ h => Except.noConfusion h,
      fun _ _ _ h => Except.noConfusion h, fun _ _ _ h => Except.noConfusion h,
      fun _ _ _ h => Except.noConfusion h, fun _ _ _ _ _ h => Except.noConfusion h⟩
  | succ f ih =>
    obtain ⟨ihDecl, ihVar, ihFun, ihTail, ihBlock, ihBlockL, ihStmt, ihIf, ihWhile,
      ihFor, ihForT, ihForT2, ihForT3, ihRet, ihPrint, ihExprS, ihParseL⟩ := ih
    refine ⟨?_, ?_, ?_, ?_, ?_, ?_, ?_, ?_, ?_, ?_, ?_, ?_, ?_, ?_, ?_, ?_, ?_⟩
    · intro p st p' h
      simp only [Parser.declaration] at h
      split at h
      · exact Except.noConfusion h
      · split at h
        · exact Except.noConfusion h
        · exact ihVar _ _ _ h
      · split at h
        · exact Except.noConfusion h
        · split at h
          · exact Except.noConfusion h
          · exact ihFun _ _ _ h
        · exact stmtShaped_declShaped (ihStmt _ _ _ h)
    · intro p st p' h
      simp only [Parser.var_declaration] at h
      split at h
      · exact Except.noConfusion h
      · split at h
        · exact Except.noConfusion h
        · split at h
          · exact Except.noConfusion h
          · split at h
            · exact Except.noConfusion h
            · split at h
              · exact Except.noConfusion h
              · rw [okPair h]
                rfl
        · split at h
          · exact Except.noConfusion h
          · rw [okPair h]
            rfl
    · intro p st p' h
      simp only [Parser.function] at h
      split at h
      · exact Except.noConfusion h
      · split at h
        · exact Except.noConfusion h
        · split at h
          · exact Except.noConfusion h
          · split at h
            · exact Except.noConfusion h
            · exact ihTail _ _ _ _ _ h
          · split at h
            · exact Except.noConfusion h
            · split at h
              · exact Except.noConfusion h
              · exact ihTail _ _ _ _ _ h
    · intro name params p st p' h
      simp only [Parser.function_tail] at h
      split at h
      · exact Except.noConfusion h
      · split at h
        · exact Except.noConfusion h
        · rename_i stmts p2 heq
          rw [okPair h]
          simp only [declShaped]
          exact ihBlock _ _ _ heq
    · intro p sts p' h
      simp only [Parser.block] at h
      split at h
      · exact Except.noConfusion h
      · rename_i stmts p1 heq
        split at h
        · exact Except.noConfusion h
        · rw [okPair h]
          exact ihBlockL [] _ stmts _ rfl heq
    · intro acc p sts p' hacc h
      simp only [Parser.block_loop] at h
      split at h
      · exact Except.noConfusion h
      · rw [okPair h]
        exact hacc
      · split at h
        · exact Except.noConfusion h
        · rw [okPair h]
          exact hacc
        · split at h
          · exact Except.noConfusion h
          · rename_i s1 p1 heq
            refine ihBlockL (acc ++ [s1]) _ _ _ ?_ h
            have hs := ihDecl _ _ _ heq
            clear h
            induction acc with
            | nil => simp [declListShaped, hs]
            | cons a rest ihacc =>
              simp only [declListShaped, Bool.and_eq_true] at hacc
              simp only [List.cons_append, declListShaped, Bool.and_eq_true]
              exact ⟨hacc.1, ihacc hacc.2⟩
    · intro p st p' h
      simp only [Parser.statement] at h
      split at h
      · exact Except.noConfusion h
      · split at h
        · exact Except.noConfusion h
        · exact ihPrint _ _ _ h
      · split at h
        · exact Except.noConfusion h
        · split at h
          · exact Except.noConfusion h
          · split at h
            · exact Except.noConfusion h
            · rename_i stmts p2 heq
              rw [okPair h]
              simp only [stmtShaped]
              exact ihBlock _ _ _ heq
        · split at h
          · exact Except.noConfusion h
          · split at h
            · exact Except.noConfusion h
            · exact ihIf _ _ _ h
          · split at h
            · exact Except.noConfusion h
            · split at h
              · exact Except.noConfusion h
              · exact ihWhile _ _ _ h
            · split at h
              · exact Except.noConfusion h
              · split at h
                · exact Except.noConfusion h
                · exact ihFor _ _ _ h
              · split at h
                · exact Except.noConfusion h
                · exact ihRet _ _ _ h
                · exact ihExprS _ _ _ h
    · intro p st p' h
      simp only [Parser.if_statement] at h
      split at h
      · exact Except.noConfusion h
      · split at h
        · exact Except.noConfusion h
        · split at h
          · exact Except.noConfusion h
          · split at h
            · exact Except.noConfusion h
            · rename_i thenB p4 heqT
              split at h
              · exact Except.noConfusion h
              · split at h
                · exact Except.noConfusion h
                · split at h
                  · exact Except.noConfusion h
                  · rename_i elseB p6 heqE
                    rw [okPair h]
                    simp only [stmtShaped, Bool.and_eq_true]
                    exact ⟨ihStmt _ _ _ heqT, ihStmt _ _ _ heqE⟩
              · rw [okPair h]
                simp only [stmtShaped, Bool.and_eq_true]
                exact ⟨ihStmt _ _ _ heqT, trivial⟩
    · intro p st p' h
      simp only [Parser.while_statement] at h
      split at h
      · exact Except.noConfusion h
      · split at h
        · exact Except.noConfusion h
        · split at h
          · exact Except.noConfusion h
          · split at h
            · exact Except.noConfusion h
            · rename_i body p4 heqB
              rw [okPair h]
              simp only [stmtShaped]
              exact ihStmt _ _ _ heqB
    · intro p st p' h
      simp only [Parser.for_statement] at h
      split at h
      · exact Except.noConfusion h
      · split at h
        · exact Except.noConfusion h
        · split at h
          · exact Except.noConfusion h
          · split at h
            · exact Except.noConfusion h
            · rename_i i p3 heqI
              refine ihForT (some i) _ _ _ ?_ h
              simp only [optDeclShaped]
              exact ihVar _ _ _ heqI
        · split at h
          · exact Except.noConfusion h
          · split at h
            · exact Except.noConfusion h
            · rename_i i p2 heqI
              refine ihForT (some i) _ _ _ ?_ h
              simp only [optDeclShaped]
              exact stmtShaped_declShaped (ihExprS _ _ _ heqI)
          · exact ihForT none _ _ _ rfl h
    · intro init p st p' hI h
      simp only [Parser.for_tail] at h
      split at h
      · exact Except.noConfusion h
      · split at h
        · exact Except.noConfusion h
        · exact ihForT2 init _ _ _ _ hI h
      · exact ihForT2 init none _ _ _ hI h
    · intro init cond p st p' hI h
      simp only [Parser.for_tail2] at h
      split at h
      · exact Except.noConfusion h
      · split at h
        · exact Except.noConfusion h
        · split at h
          · exact Except.noConfusion h
          · exact ihForT3 init cond _ _ _ _ hI h
        · exact ihForT3 init cond none _ _ _ hI h
    · intro init cond incr p st p' hI h
      cases init with
      | none =>
        cases cond <;> cases incr <;>
          (simp only [Parser.for_tail3] at h
           split at h
           · exact Except.noConfusion h
           · split at h
             · exact Except.noConfusion h
             · rename_i body p2 heqB
               have hB := ihStmt _ _ _ heqB
               have hB2 := stmtShaped_declShaped hB
               rw [okPair h]
               simp [stmtShaped, declShaped, declListShaped, hB, hB2])
      | some i =>
        have hI2 : declShaped i = true := hI
        cases cond <;> cases incr <;>
          (simp only [Parser.for_tail3] at h
           split at h
           · exact Except.noConfusion h
           · split at h
             · exact Except.noConfusion h
             · rename_i body p2 heqB
               have hB := ihStmt _ _ _ heqB
               have hB2 := stmtShaped_declShaped hB
               rw [okPair h]
               simp [stmtShaped, declShaped, declListShaped, hB, hB2, hI2])
    · intro p st p' h
      simp only [Parser.return_statement] at h
      split at h
      · exact Except.noConfusion h
      · split at h
        · exact Except.noConfusion h
        · split at h
          · exact Except.noConfusion h
          · split at h
            · exact Except.noConfusion h
            · rw [okPair h]
              rfl
        · split at h
          · exact Except.noConfusion h
          · rw [okPair h]
            rfl
    · intro p st p' h
      simp only [Parser.print_statement] at h
      split at h
      · exact Except.noConfusion h
      · split at h
        · exact Except.noConfusion h
        · rw [okPair h]
          rfl
    · intro p st p' h
      simp only [Parser.expression_statement] at h
      split at h
      · exact Except.noConfusion h
      · split at h
        · exact Except.noConfusion h
        · rw [okPair h]
          rfl
    · intro acc p sts p' hacc h
      simp only [Parser.parse_loop] at h
      split at h
      · exact Except.noConfusion h
      · split at h
        · exact Except.noConfusion h
        · rename_i s1 p1 heq
          refine ihParseL (acc ++ [s1]) _ _ _ ?_ h
          have hs := ihDecl _ _ _ heq
          clear h
          induction acc with
          | nil => simp [declListShaped, hs]
          | cons a rest ihacc =>
            simp only [declListShaped, Bool.and_eq_true] at hacc
            simp only [List.cons_append, declListShaped, Bool.and_eq_true]
            exact ⟨hacc.1, ihacc hacc.2⟩
      · rw [okPair h]
        exact hacc

theorem parseProgram_shaped {f : Nat} {toks : List Token} {stmts : List Stmt}
    (h : parseProgram f toks = .ok stmts) : declListShaped stmts = true := by
  simp only [parseProgram, Parser.parse] at h
  split at h
  · exact Except.noConfusion h
  · rename_i l p1 heq
    injection h with h1
    rw [← h1]
    exact (parser_stmts_shaped f).2.2.2.2.2.2.2.2.2.2.2.2.2.2.2.2 [] _ l _ rfl heq

/-- A resolver scope map. -/
abbrev Sc := List (String × Bool)

/-- Resolver.declare on a context: mark the name declared-undefined in
the innermost scope (a no-op with no open scope). -/
def scDeclare (C : List Sc) (n : String) : List Sc :=
  match C with
  | [] => []
  | sc :: rest => bmapSet sc n false :: rest

/-- Resolver.define on a context. -/
def scDefine (C : List Sc) (n : String) : List Sc :=
  match C with
  | [] => []
  | sc :: rest => bmapSet sc n true :: rest

/-- The scope the parameter loop of resolve_function builds. -/
def paramScope (params : List Token) (sc : Sc) : Sc :=
  match params with
  | [] => sc
  | t :: ps => paramScope ps (bmapSet (bmapSet sc t.lexeme false) t.lexeme true)

/-- Every name in the scope is flagged defined. -/
def ScTrue (sc : Sc) : Prop :=
  ∀ n b, bmapGet sc n = some b → b = true

def AllTrue (C : List Sc) : Prop :=
  ∀ sc ∈ C, ScTrue sc

/-- None of the given node ids has a side-table entry yet. -/
def Fresh (t : List (Nat × Nat)) (ids : List Nat) : Prop :=
  ∀ k ∈ ids, localsGet t k = none

/-- The two tables agree on the given node ids. -/
def Agrees (t tbl : List (Nat × Nat)) (ids : List Nat) : Prop :=
  ∀ k ∈ ids, localsGet tbl k = localsGet t k

theorem localsGet_set_self (t : List (Nat × Nat)) (k d : Nat) :
    localsGet (localsSet t k d) k = some d := by
  induction t with
  | nil => simp [localsSet, localsGet]
  | cons p rest ih =>
    obtain ⟨k', d'⟩ := p
    simp only [localsSet]
    split
    · rename_i hk
      simp [localsGet]
    · rename_i hk
      simp only [localsGet]
      split
      · rename_i hk2
        exact absurd hk2 hk
      · exact ih

theorem localsGet_set_other (t : List (Nat × Nat)) (k d k' : Nat)
    (h : k' ≠ k) : localsGet (localsSet t k d) k' = localsGet t k' := by
  induction t with
  | nil =>
    simp only [localsSet, localsGet]
    split
    · rename_i hk
      exact absurd hk.symm h
    · rfl
  | cons p rest ih =>
    obtain ⟨k0, d0⟩ := p
    simp only [localsSet]
    split
    · rename_i hk
      simp only [localsGet]
      split
      · rename_i hk2
        exact absurd hk2.symm h
      · split
        · rename_i hk3
          rw [hk] at hk3
          rename_i hne
          exact absurd hk3 hne
        · rfl
    · simp only [localsGet]
      split
      · rfl
      · exact ih

theorem bmapGet_set (sc : Sc) (n : String) (v : Bool) (m : String) :
    bmapGet (bmapSet sc n v) m = if n = m then some v else bmapGet sc m := by
  induction sc with
  | nil => simp [bmapSet, bmapGet]
  | cons p rest ih =>
    obtain ⟨k, b⟩ := p
    by_cases hk : k = n
    · by_cases hm : n = m <;> simp [bmapSet, bmapGet, hk, hm]
    · by_cases hm : k = m
      · have hnm : n ≠ m := by
          intro h
          exact hk (by rw [hm, h])
        simp [bmapSet, bmapGet, hk, hm, hnm, Ne.symm hnm]
      · simp [bmapSet, bmapGet, hk, hm, ih]

theorem bmapSet_bmapSet (sc : Sc) (n : String) (v1 v2 : Bool) :
    bmapSet (bmapSet sc n v1) n v2 = bmapSet sc n v2 := by
  induction sc with
  | nil => simp [bmapSet]
  | cons p rest ih =>
    obtain ⟨k, b⟩ := p
    simp only [bmapSet]
    split
    · rename_i hk
      simp [bmapSet, hk]
    · rename_i hk
      simp only [bmapSet]
      rw [if_neg hk]
      rw [ih]

theorem bmapHas_get {sc : Sc} {n : String} (h : bmapHas sc n = true) :
    ∃ b, bmapGet sc n = some b := by
  induction sc with
  | nil => exact absurd h (by simp [bmapHas])
  | cons p rest ih =>
    obtain ⟨k, b⟩ := p
    simp only [bmapHas] at h
    simp only [bmapGet]
    split
    · exact ⟨b, rfl⟩
    · rename_i hk
      rw [if_neg hk] at h
      exact ih h

theorem bmapGet_has {sc : Sc} {n : String} {b : Bool}
    (h : bmapGet sc n = some b) : bmapHas sc n = true := by
  induction sc with
  | nil => exact Option.noConfusion h
  | cons p rest ih =>
    obtain ⟨k, b0⟩ := p
    simp only [bmapGet] at h
    simp only [bmapHas]
    split
    · rfl
    · rename_i hk
      rw [if_neg hk] at h
      exact ih h

theorem mapGet_set (m : List (String × Value)) (n : String) (v : Value)
    (k : String) :
    mapGet (mapSet m n v) k = if n = k then some v else mapGet m k := by
  induction m with
  | nil => simp [mapSet, mapGet]
  | cons p rest ih =>
    obtain ⟨k0, v0⟩ := p
    by_cases hk : k0 = n
    · by_cases hm : n = k <;> simp [mapSet, mapGet, hk, hm]
    · by_cases hm : k0 = k
      · have hnm : n ≠ k := by
          intro h
          exact hk (by rw [hm, h])
        simp [mapSet, mapGet, hk, hm, hnm, Ne.symm hnm]
      · simp [mapSet, mapGet, hk, hm, ih]

theorem mapHas_get {m : List (String × Value)} {n : String}
    (h : mapHas m n = true) : ∃ v, mapGet m n = some v := by
  induction m with
  | nil => exact absurd h (by simp [mapHas])
  | cons p rest ih =>
    obtain ⟨k, v⟩ := p
    simp only [mapHas] at h
    simp only [mapGet]
    split
    · exact ⟨v, rfl⟩
    · rename_i hk
      rw [if_neg hk] at h
      exact ih h

theorem mapGet_has {m : List (String × Value)} {n : String} {v : Value}
    (h : mapGet m n = some v) : mapHas m n = true := by
  induction m with
  | nil => exact Option.noConfusion h
  | cons p rest ih =>
    obtain ⟨k, v0⟩ := p
    simp only [mapGet] at h
    simp only [mapHas]
    split
    · rfl
    · rename_i hk
      rw [if_neg hk] at h
      exact ih h

theorem mapHas_set (m : List (String × Value)) (n : String) (v : Value)
    (k : String) :
    mapHas (mapSet m n v) k = if n = k then true else mapHas m k := by
  induction m with
  | nil => simp [mapSet, mapHas]
  | cons p rest ih =>
    obtain ⟨k0, v0⟩ := p
    by_cases hk : k0 = n
    · by_cases hm : n = k <;> simp [mapSet, mapHas, hk, hm]
    · by_cases hm : k0 = k
      · have hnm : n ≠ k := by
          intro h
          exact hk (by rw [hm, h])
        simp [mapSet, mapHas, hk, hm, hnm, Ne.symm hnm]
      · simp [mapSet, mapHas, hk, hm, ih]

theorem findIdx_go_some {α : Type} : ∀ (l : List α) (p : α → Bool) (i d : Nat),
    List.findIdx? p l i = some d →
    i ≤ d ∧ ∃ x, l[d - i]? = some x ∧ p x = true := by
  intro l
  induction l with
  | nil =>
    intro p i d h
    exact Option.noConfusion h
  | cons a rest ih =>
    intro p i d h
    rw [List.findIdx?_cons] at h
    by_cases hp : p a = true
    · rw [if_pos hp] at h
      injection h with h1
      refine ⟨le_of_eq h1, a, ?_, hp⟩
      rw [← h1]
      simp
    · rw [if_neg hp] at h
      obtain ⟨hle, x, hx1, hx2⟩ := ih p (i + 1) d h
      refine ⟨by omega, x, ?_, hx2⟩
      have hdi : d - i = (d - (i + 1)) + 1 := by omega
      rw [hdi]
      simpa using hx1

theorem findIdx_some {α : Type} {l : List α} {p : α → Bool} {d : Nat}
    (h : l.findIdx? p = some d) : ∃ x, l[d]? = some x ∧ p x = true := by
  have h2 := findIdx_go_some l p 0 d h
  simpa using h2.2

mutual

/-- The record the resolver leaves behind for an expression it accepted
in scope context `C` (innermost first): every VarExpr either hit a scope
at the recorded distance - with the name flagged defined there - or
missed all scopes and has no side-table entry.  No rule exists for
GetExpr, SetExpr or ThisExpr (the resolver throws on them). -/
inductive ECert (tbl : List (Nat × Nat)) : List Sc → Expr → Prop where
  | lit : ∀ C v, ECert tbl C (.literal v)
  | grouping : ∀ C e, ECert tbl C e → ECert tbl C (.grouping e)
  | unaryC : ∀ C op r, ECert tbl C r → ECert tbl C (.unary op r)
  | binaryC : ∀ C l op r, ECert tbl C l → ECert tbl C r →
      ECert tbl C (.binary l op r)
  | logicalC : ∀ C l op r, ECert tbl C l → ECert tbl C r →
      ECert tbl C (.logical l op r)
  | varLocal : ∀ C name nid d sc,
      C.findIdx? (fun sc0 => bmapHas sc0 name.lexeme) = some d →
      C[d]? = some sc → bmapGet sc name.lexeme = some true →
      localsGet tbl nid = some d → ECert tbl C (.varE name nid)
  | varGlobal : ∀ C name nid,
      C.findIdx? (fun sc0 => bmapHas sc0 name.lexeme) = none →
      localsGet tbl nid = none → ECert tbl C (.varE name nid)
  | assignC : ∀ C name v nid, ECert tbl C v → ECert tbl C (.assign name v nid)
  | callC : ∀ C c paren args, ECert tbl C c → ECertList tbl C args →
      ECert tbl C (.call c paren args)

inductive ECertList (tbl : List (Nat × Nat)) : List Sc → List Expr → Prop where
  | nil : ∀ C, ECertList tbl C []
  | consE : ∀ C e rest, ECert tbl C e → ECertList tbl C rest →
      ECertList tbl C (e :: rest)

end

mutual

/-- The record the resolver leaves behind for a statement accepted in
context `C`, with the context it leaves (`var` and `fun` declarations
define their name in the innermost scope; everything else restores the
context).  Statements in statement position (if/while branches) keep
the context, matching what the parser can produce.  No rule exists for
ClassStmt. -/
inductive SCert (tbl : List (Nat × Nat)) : List Sc → Stmt → List Sc → Prop where
  | exprS : ∀ C e, ECert tbl C e → SCert tbl C (.expr e) C
  | printS : ∀ C e, ECert tbl C e → SCert tbl C (.print e) C
  | varNone : ∀ C name, SCert tbl C (.varD name none) (scDefine C name.lexeme)
  | varSome : ∀ C name e, ECert tbl (scDeclare C name.lexeme) e →
      SCert tbl C (.varD name (some e)) (scDefine C name.lexeme)
  | blockS : ∀ C sts sc2, SCertList tbl ([] :: C) sts (sc2 :: C) →
      SCert tbl C (.block sts) C
  | ifNone : ∀ C c t, ECert tbl C c → SCert tbl C t C →
      SCert tbl C (.ifS c t none) C
  | ifSome : ∀ C c t e, ECert tbl C c → SCert tbl C t C → SCert tbl C e C →
      SCert tbl C (.ifS c t (some e)) C
  | whileC : ∀ C c b, ECert tbl C c → SCert tbl C b C →
      SCert tbl C (.whileS c b) C
  | funcS : ∀ C n ps body scX,
      SCertList tbl (paramScope ps [] :: scDefine C n.lexeme) body
        (scX :: scDefine C n.lexeme) →
      SCert tbl C (.function (.mk n ps body)) (scDefine C n.lexeme)
  | retNone : ∀ C k, SCert tbl C (.ret k none) C
  | retSome : ∀ C k v, ECert tbl C v → SCert tbl C (.ret k (some v)) C

inductive SCertList (tbl : List (Nat × Nat)) :
    List Sc → List Stmt → List Sc → Prop where
  | nil : ∀ C, SCertList tbl C [] C
  | consS : ∀ C st C1 rest C2, SCert tbl C st C1 → SCertList tbl C1 rest C2 →
      SCertList tbl C (st :: rest) C2

end

/-- The certificate a LoxFunction value carries: its body was resolved
in the parameter scope over the closure context. -/
def FCert (tbl : List (Nat × Nat)) (C : List Sc) (fs : FunctionStmt) : Prop :=
  ∃ scX, SCertList tbl (paramScope fs.params [] :: C) fs.body (scX :: C)

/-- The context a statement leaves behind. -/
def certOut : Stmt → List Sc → List Sc
  | .varD name _, C => scDefine C name.lexeme
  | .function (.mk n _ _), C => scDefine C n.lexeme
  | _, C => C

theorem certOut_stmtShaped {st : Stmt} {C : List Sc}
    (h : stmtShaped st = true) : certOut st C = C := by
  cases st <;> first
    | rfl
    | exact absurd h (by simp [stmtShaped])

theorem AllTrue_nil : AllTrue [] := by
  intro sc h
  cases h

theorem AllTrue_tail {C : List Sc} (h : AllTrue C) : AllTrue C.tail := by
  intro sc hm
  exact h sc (List.mem_of_mem_tail hm)

theorem ScTrue_set_true {sc : Sc} (h : ScTrue sc) (n : String) :
    ScTrue (bmapSet sc n true) := by
  intro m b hm
  rw [bmapGet_set] at hm
  split at hm
  · injection hm with h1
    exact h1.symm
  · exact h m b hm

theorem AllTrue_scDefine {C : List Sc} (h : AllTrue C) (n : String) :
    AllTrue (scDefine C n) := by
  cases C with
  | nil => exact AllTrue_nil
  | cons sc rest =>
    intro sc1 hm
    simp only [scDefine] at hm
    rcases List.mem_cons.mp hm with h1 | h1
    · rw [h1]
      exact ScTrue_set_true (h sc (List.mem_cons_self _ _)) n
    · exact h sc1 (List.mem_cons_of_mem _ h1)

theorem ScTrue_paramScope {sc : Sc} (h : ScTrue sc) :
    ∀ ps : List Token, ScTrue (paramScope ps sc) := by
  intro ps
  induction ps generalizing sc with
  | nil => exact h
  | cons t rest ih =>
    simp only [paramScope, bmapSet_bmapSet]
    exact ih (ScTrue_set_true h t.lexeme)

theorem paramScope_true_names {n : String} :
    ∀ (ps : List Token) (sc : Sc),
    bmapGet (paramScope ps sc) n = some true →
    n ∈ ps.map (fun t => t.lexeme) ∨ bmapGet sc n = some true := by
  intro ps
  induction ps with
  | nil =>
    intro sc h
    exact Or.inr h
  | cons t rest ih =>
    intro sc h
    simp only [paramScope, bmapSet_bmapSet] at h
    rcases ih _ h with h1 | h1
    · exact Or.inl (List.mem_cons_of_mem _ h1)
    · rw [bmapGet_set] at h1
      split at h1
      · rename_i ht
        exact Or.inl (by rw [← ht]; exact List.mem_cons_self _ _)
      · exact Or.inr h1

theorem ScTrue_nil : ScTrue [] := by
  intro n b h
  exact Option.noConfusion h

theorem allTrue_cons {sc : Sc} {C : List Sc} (h1 : ScTrue sc) (h2 : AllTrue C) :
    AllTrue (sc :: C) := by
  intro sc1 hm
  rcases List.mem_cons.mp hm with h | h
  · rw [h]
    exact h1
  · exact h2 sc1 h

theorem scDefine_scDeclare (C : List Sc) (n : String) :
    scDefine (scDeclare C n) n = scDefine C n := by
  cases C with
  | nil => rfl
  | cons sc rest => simp [scDeclare, scDefine, bmapSet_bmapSet]

theorem scDeclare_tail (C : List Sc) (n : String) :
    (scDeclare C n).tail = C.tail := by
  cases C <;> rfl

theorem declare_scopes {name : Token} {r r1 : RSt}
    (h : RSt.declare name r = .ok r1) :
    r1.scopes = scDeclare r.scopes name.lexeme ∧ r1.table = r.table := by
  unfold RSt.declare at h
  split at h
  · rename_i hsc
    injection h with h1
    rw [← h1, hsc]
    exact ⟨rfl, rfl⟩
  · rename_i sc rest hsc
    split at h
    · exact Except.noConfusion h
    · injection h with h1
      rw [← h1, hsc]
      exact ⟨rfl, rfl⟩

theorem define_scopes (name : Token) (r : RSt) :
    (RSt.define name r).scopes = scDefine r.scopes name.lexeme ∧
      (RSt.define name r).table = r.table := by
  unfold RSt.define
  split
  · rename_i hsc
    rw [hsc]
    exact ⟨rfl, rfl⟩
  · rename_i sc rest hsc
    rw [hsc]
    exact ⟨rfl, rfl⟩

theorem resolve_local_scopes (nid : Nat) (name : Token) (r : RSt) :
    (resolve_local nid name r).scopes = r.scopes := by
  unfold resolve_local
  split <;> rfl

theorem declParams_props : ∀ (ps : List Token) (r r1 : RSt),
    declParams ps r = .ok r1 →
    r1.table = r.table ∧
    (r.scopes = [] → r1.scopes = []) ∧
    (∀ sc rest, r.scopes = sc :: rest → r1.scopes = paramScope ps sc :: rest) := by
  intro ps
  induction ps with
  | nil =>
    intro r r1 h
    injection h with h1
    rw [← h1]
    refine ⟨rfl, fun h2 => h2, ?_⟩
    intro sc rest h2
    rw [h2]
    rfl
  | cons t rest ih =>
    intro r r1 h
    simp only [declParams] at h
    split at h
    · exact Except.noConfusion h
    · rename_i r2 heq
      obtain ⟨hd1, hd2⟩ := declare_scopes heq
      obtain ⟨hf1, hf2⟩ := define_scopes t r2
      obtain ⟨hi1, hi2, hi3⟩ := ih _ _ h
      refine ⟨by rw [hi1, hf2, hd2], ?_, ?_⟩
      · intro h2
        apply hi2
        rw [hf1, hd1, h2]
        rfl
      · intro sc rest0 h2
        apply hi3
        rw [hf1, hd1, h2]
        simp [scDeclare, scDefine, bmapSet_bmapSet, paramScope]

theorem certOut_nil (st : Stmt) : certOut st [] = [] := by
  cases st with
  | varD name i => rfl
  | function fs =>
    obtain ⟨n, ps, body⟩ := fs
    rfl
  | expr e => rfl
  | print e => rfl
  | block sts => rfl
  | ifS c t e => rfl
  | whileS c b => rfl
  | ret k v => rfl
  | classS n m => rfl

theorem certOut_cons (st : Stmt) (sc : Sc) (rest : List Sc) :
    ∃ sc2, certOut st (sc :: rest) = sc2 :: rest := by
  cases st with
  | varD name i => exact ⟨_, rfl⟩
  | function fs =>
    obtain ⟨n, ps, body⟩ := fs
    exact ⟨_, rfl⟩
  | expr e => exact ⟨sc, rfl⟩
  | print e => exact ⟨sc, rfl⟩
  | block sts => exact ⟨sc, rfl⟩
  | ifS c t e => exact ⟨sc, rfl⟩
  | whileS c b => exact ⟨sc, rfl⟩
  | ret k v => exact ⟨sc, rfl⟩
  | classS n m => exact ⟨sc, rfl⟩

theorem Fresh_sub {t : List (Nat × Nat)} {ids ids' : List Nat}
    (h : Fresh t ids) (hs : ∀ k ∈ ids', k ∈ ids) : Fresh t ids' := by
  intro k hk
  exact h k (hs k hk)

theorem Agrees_refl (t : List (Nat × Nat)) (ids : List Nat) : Agrees t t ids := by
  intro k _
  rfl

theorem Agrees_sub {t tbl : List (Nat × Nat)} {ids ids' : List Nat}
    (h : Agrees t tbl ids) (hs : ∀ k ∈ ids', k ∈ ids) : Agrees t tbl ids' := by
  intro k hk
  exact h k (hs k hk)

theorem resolver_cert_expr : ∀ f : Nat,
    (∀ e r r', resolveExpr f e r = .ok r' → AllTrue r.scopes.tail →
      Fresh r.table (exprIds e) → (exprIds e).Nodup →
      r'.scopes = r.scopes ∧
      (∀ k, ¬ k ∈ exprIds e → localsGet r'.table k = localsGet r.table k) ∧
      (∀ tbl, Agrees r'.table tbl (exprIds e) → ECert tbl r.scopes e)) ∧
    (∀ es r r', resolveExprs f es r = .ok r' → AllTrue r.scopes.tail →
      Fresh r.table (exprListIds es) → (exprListIds es).Nodup →
      r'.scopes = r.scopes ∧
      (∀ k, ¬ k ∈ exprListIds es →
        localsGet r'.table k = localsGet r.table k) ∧
      (∀ tbl, Agrees r'.table tbl (exprListIds es) →
        ECertList tbl r.scopes es)) := by
  intro f
  induction f with
  | zero =>
    exact ⟨fun _ _ _ h => Except.noConfusion h,
      fun _ _ _ h => Except.noConfusion h⟩
  | succ f ih =>
    obtain ⟨ihE, ihA⟩ := ih
    constructor
    · intro e r r' h hT hF hN
      cases e with
      | literal v =>
        simp only [resolveExpr] at h
        injection h with h1
        rw [← h1]
        exact ⟨rfl, fun k _ => rfl, fun tbl _ => ECert.lit _ _⟩
      | grouping e =>
        simp only [resolveExpr] at h
        obtain ⟨h1, h2, h3⟩ := ihE e r r' h hT hF hN
        exact ⟨h1, h2, fun tbl hA => ECert.grouping _ _ (h3 tbl hA)⟩
      | unary op rgt =>
        simp only [resolveExpr] at h
        obtain ⟨h1, h2, h3⟩ := ihE rgt r r' h hT hF hN
        exact ⟨h1, h2, fun tbl hA => ECert.unaryC _ _ _ (h3 tbl hA)⟩
      | binary l op rgt =>
        simp only [resolveExpr] at h
        split at h
        · exact Except.noConfusion h
        · rename_i r1 heq
          simp only [exprIds] at hF hN ⊢
          have hDisj := List.disjoint_of_nodup_append hN
          have L := ihE l r r1 heq hT
            (Fresh_sub hF (fun k hk => List.mem_append.mpr (Or.inl hk)))
            hN.of_append_left
          have R := ihE rgt r1 r' h (by rw [L.1]; exact hT)
            (by
              intro k hk
              rw [L.2.1 k (fun hm => hDisj hm hk)]
              exact hF k (List.mem_append.mpr (Or.inr hk)))
            hN.of_append_right
          refine ⟨by rw [R.1, L.1], ?_, ?_⟩
          · intro k hk
            rw [List.mem_append] at hk
            push_neg at hk
            rw [R.2.1 k hk.2, L.2.1 k hk.1]
          · intro tbl hA
            have hAl : Agrees r1.table tbl (exprIds l) := by
              intro k hk
              rw [hA k (List.mem_append.mpr (Or.inl hk))]
              exact R.2.1 k (fun hm => hDisj hk hm)
            have hAr : Agrees r'.table tbl (exprIds rgt) :=
              Agrees_sub hA (fun k hk => List.mem_append.mpr (Or.inr hk))
            exact ECert.binaryC _ _ _ _ (L.2.2 tbl hAl)
              (L.1 ▸ (R.2.2 tbl hAr))
      | logical l op rgt =>
        simp only [resolveExpr] at h
        split at h
        · exact Except.noConfusion h
        · rename_i r1 heq
          simp only [exprIds] at hF hN ⊢
          have hDisj := List.disjoint_of_nodup_append hN
          have L := ihE l r r1 heq hT
            (Fresh_sub hF (fun k hk => List.mem_append.mpr (Or.inl hk)))
            hN.of_append_left
          have R := ihE rgt r1 r' h (by rw [L.1]; exact hT)
            (by
              intro k hk
              rw [L.2.1 k (fun hm => hDisj hm hk)]
              exact hF k (List.mem_append.mpr (Or.inr hk)))
            hN.of_append_right
          refine ⟨by rw [R.1, L.1], ?_, ?_⟩
          · intro k hk
            rw [List.mem_append] at hk
            push_neg at hk
            rw [R.2.1 k hk.2, L.2.1 k hk.1]
          · intro tbl hA
            have hAl : Agrees r1.table tbl (exprIds l) := by
              intro k hk
              rw [hA k (List.mem_append.mpr (Or.inl hk))]
              exact R.2.1 k (fun hm => hDisj hk hm)
            have hAr : Agrees r'.table tbl (exprIds rgt) :=
              Agrees_sub hA (fun k hk => List.mem_append.mpr (Or.inr hk))
            exact ECert.logicalC _ _ _ _ (L.2.2 tbl hAl)
              (L.1 ▸ (R.2.2 tbl hAr))
      | call callee paren args =>
        simp only [resolveExpr] at h
        split at h
        · exact Except.noConfusion h
        · rename_i r1 heq
          simp only [exprIds] at hF hN ⊢
          have hDisj := List.disjoint_of_nodup_append hN
          have L := ihE callee r r1 heq hT
            (Fresh_sub hF (fun k hk => List.mem_append.mpr (Or.inl hk)))
            hN.of_append_left
          have R := ihA args r1 r' h (by rw [L.1]; exact hT)
            (by
              intro k hk
              rw [L.2.1 k (fun hm => hDisj hm hk)]
              exact hF k (List.mem_append.mpr (Or.inr hk)))
            hN.of_append_right
          refine ⟨by rw [R.1, L.1], ?_, ?_⟩
          · intro k hk
            rw [List.mem_append] at hk
            push_neg at hk
            rw [R.2.1 k hk.2, L.2.1 k hk.1]
          · intro tbl hA
            have hAl : Agrees r1.table tbl (exprIds callee) := by
              intro k hk
              rw [hA k (List.mem_append.mpr (Or.inl hk))]
              exact R.2.1 k (fun hm => hDisj hk hm)
            have hAr : Agrees r'.table tbl (exprListIds args) :=
              Agrees_sub hA (fun k hk => List.mem_append.mpr (Or.inr hk))
            exact ECert.callC _ _ _ _ (L.2.2 tbl hAl)
              (L.1 ▸ (R.2.2 tbl hAr))
      | varE name nid =>
        simp only [resolveExpr] at h
        split at h
        · exact Except.noConfusion h
        · rename_i hc
          injection h with h1
          simp only [exprIds] at hF ⊢
          rcases heqF : List.findIdx? (fun sc0 => bmapHas sc0 name.lexeme)
              r.scopes with _ | d
          · have hrl : resolve_local nid name r = r := by
              unfold resolve_local
              rw [heqF]
            rw [hrl] at h1
            rw [← h1]
            refine ⟨rfl, fun k _ => rfl, ?_⟩
            intro tbl hA
            refine ECert.varGlobal _ name nid heqF ?_
            rw [hA nid (List.mem_singleton.mpr rfl)]
            exact hF nid (List.mem_singleton.mpr rfl)
          · have hrl : resolve_local nid name r =
                { r with table := localsSet r.table nid d } := by
              unfold resolve_local
              rw [heqF]
            rw [hrl] at h1
            rw [← h1]
            refine ⟨rfl, ?_, ?_⟩
            · intro k hk
              have hkn : k ≠ nid := by
                intro hkk
                exact hk (by rw [hkk]; exact List.mem_singleton.mpr rfl)
              exact localsGet_set_other _ _ _ _ hkn
            · intro tbl hA
              obtain ⟨sc, hsc, hhas⟩ := findIdx_some heqF
              obtain ⟨b, hbg⟩ := bmapHas_get hhas
              have hbtrue : b = true := by
                cases d with
                | zero =>
                  cases hCs : r.scopes with
                  | nil =>
                    rw [hCs] at heqF
                    simp at heqF
                  | cons sc0 rest =>
                    rw [hCs] at hsc
                    have hsc0 : sc = sc0 := by
                      have := hsc
                      simp at this
                      rw [this]
                    cases b with
                    | true => rfl
                    | false =>
                      exfalso
                      apply hc
                      constructor
                      · simp [RSt.has_scope, hCs]
                      · rw [hCs]
                        show bmapGet sc0 name.lexeme = some false
                        rw [← hsc0]
                        exact hbg
                | succ d0 =>
                  cases hCs : r.scopes with
                  | nil =>
                    rw [hCs] at heqF
                    simp at heqF
                  | cons sc0 rest =>
                    rw [hCs] at hsc
                    have hmem : sc ∈ rest := List.getElem?_mem (by simpa using hsc)
                    have hST : ScTrue sc :=
                      hT sc (show sc ∈ r.scopes.tail by rw [hCs]; exact hmem)
                    exact hST name.lexeme b hbg
              rw [hbtrue] at hbg
              refine ECert.varLocal _ name nid d sc heqF hsc hbg ?_
              rw [hA nid (List.mem_singleton.mpr rfl)]
              exact localsGet_set_self _ _ _
      | assign name v nid =>
        simp only [resolveExpr] at h
        split at h
        · exact Except.noConfusion h
        · rename_i r1 heq
          simp only [exprIds] at hF hN ⊢
          have hDisj := List.disjoint_of_nodup_append hN
          have L := ihE v r r1 heq hT
            (Fresh_sub hF (fun k hk => List.mem_append.mpr (Or.inl hk)))
            hN.of_append_left
          injection h with h1
          have hnidv : ¬ nid ∈ exprIds v := by
            intro hm
            exact hDisj hm (List.mem_singleton.mpr rfl)
          refine ⟨?_, ?_, ?_⟩
          · rw [← h1, resolve_local_scopes, L.1]
          · intro k hk
            rw [List.mem_append] at hk
            push_neg at hk
            have hkn : k ≠ nid := by
              intro hkk
              exact hk.2 (by rw [hkk]; exact List.mem_singleton.mpr rfl)
            have hstep : localsGet (resolve_local nid name r1).table k =
                localsGet r1.table k := by
              unfold resolve_local
              split
              · exact localsGet_set_other _ _ _ _ hkn
              · rfl
            rw [← h1, hstep, L.2.1 k hk.1]
          · intro tbl hA
            have hstep : ∀ k, k ≠ nid →
                localsGet (resolve_local nid name r1).table k =
                localsGet r1.table k := by
              intro k hkn
              unfold resolve_local
              split
              · exact localsGet_set_other _ _ _ _ hkn
              · rfl
            have hAl : Agrees r1.table tbl (exprIds v) := by
              intro k hk
              rw [hA k (List.mem_append.mpr (Or.inl hk))]
              rw [← h1]
              exact hstep k (by
                intro hkk
                exact hnidv (hkk ▸ hk))
            exact ECert.assignC _ name v nid (L.2.2 tbl hAl)
      | getE obj nm => exact Except.noConfusion h
      | setE obj nm v => exact Except.noConfusion h
      | thisE k nid => exact Except.noConfusion h
    · intro es r r' h hT hF hN
      cases es with
      | nil =>
        injection h with h1
        rw [← h1]
        exact ⟨rfl, fun k _ => rfl, fun tbl _ => ECertList.nil _⟩
      | cons e rest =>
        simp only [resolveExprs] at h
        split at h
        · exact Except.noConfusion h
        · rename_i r1 heq
          simp only [exprListIds] at hF hN ⊢
          have hDisj := List.disjoint_of_nodup_append hN
          have L := ihE e r r1 heq hT
            (Fresh_sub hF (fun k hk => List.mem_append.mpr (Or.inl hk)))
            hN.of_append_left
          have R := ihA rest r1 r' h (by rw [L.1]; exact hT)
            (by
              intro k hk
              rw [L.2.1 k (fun hm => hDisj hm hk)]
              exact hF k (List.mem_append.mpr (Or.inr hk)))
            hN.of_append_right
          refine ⟨by rw [R.1, L.1], ?_, ?_⟩
          · intro k hk
            rw [List.mem_append] at hk
            push_neg at hk
            rw [R.2.1 k hk.2, L.2.1 k hk.1]
          · intro tbl hA
            have hAl : Agrees r1.table tbl (exprIds e) := by
              intro k hk
              rw [hA k (List.mem_append.mpr (Or.inl hk))]
              exact R.2.1 k (fun hm => hDisj hk hm)
            have hAr : Agrees r'.table tbl (exprListIds rest) :=
              Agrees_sub hA (fun k hk => List.mem_append.mpr (Or.inr hk))
            exact ECertList.consE _ _ _ (L.2.2 tbl hAl)
              (L.1 ▸ (R.2.2 tbl hAr))

theorem resolver_cert_stmt : ∀ f : Nat,
    (∀ st r r', resolveStmt f st r = .ok r' → AllTrue r.scopes →
      declShaped st = true → Fresh r.table (stmtIds st) → (stmtIds st).Nodup →
      r'.scopes = certOut st r.scopes ∧ AllTrue r'.scopes ∧
      (∀ k, ¬ k ∈ stmtIds st → localsGet r'.table k = localsGet r.table k) ∧
      (∀ tbl, Agrees r'.table tbl (stmtIds st) →
        SCert tbl r.scopes st r'.scopes)) ∧
    (∀ sts r r', resolveStmts f sts r = .ok r' → AllTrue r.scopes →
      declListShaped sts = true → Fresh r.table (stmtListIds sts) →
      (stmtListIds sts).Nodup →
      (∀ sc rest, r.scopes = sc :: rest → ∃ sc2, r'.scopes = sc2 :: rest) ∧
      (r.scopes = [] → r'.scopes = []) ∧ AllTrue r'.scopes ∧
      (∀ k, ¬ k ∈ stmtListIds sts →
        localsGet r'.table k = localsGet r.table k) ∧
      (∀ tbl, Agrees r'.table tbl (stmtListIds sts) →
        SCertList tbl r.scopes sts r'.scopes)) ∧
    (∀ fs ty r r', resolve_function f fs ty r = .ok r' → AllTrue r.scopes →
      declListShaped fs.body = true → Fresh r.table (stmtListIds fs.body) →
      (stmtListIds fs.body).Nodup →
      r'.scopes = r.scopes ∧ AllTrue r'.scopes ∧
      (∀ k, ¬ k ∈ stmtListIds fs.body →
        localsGet r'.table k = localsGet r.table k) ∧
      (∀ tbl, Agrees r'.table tbl (stmtListIds fs.body) →
        FCert tbl r.scopes fs)) := by
  intro f
  induction f with
  | zero =>
    exact ⟨fun _ _ _ h => Except.noConfusion h,
      fun _ _ _ h => Except.noConfusion h,
      fun _ _ _ _ h => Except.noConfusion h⟩
  | succ f ih =>
    obtain ⟨ihS, ihL, ihF⟩ := ih
    have hE := (resolver_cert_expr f).1
    refine ⟨?_, ?_, ?_⟩
    · intro st r r' h hT hSh hF hN
      cases st with
      | expr e =>
        simp only [resolveStmt] at h
        simp only [stmtIds] at hF hN ⊢
        have E := hE e r r' h (AllTrue_tail hT) hF hN
        refine ⟨E.1, by rw [E.1]; exact hT, E.2.1, ?_⟩
        intro tbl hA
        rw [E.1]
        exact SCert.exprS _ _ (E.2.2 tbl hA)
      | print e =>
        simp only [resolveStmt] at h
        simp only [stmtIds] at hF hN ⊢
        have E := hE e r r' h (AllTrue_tail hT) hF hN
        refine ⟨E.1, by rw [E.1]; exact hT, E.2.1, ?_⟩
        intro tbl hA
        rw [E.1]
        exact SCert.printS _ _ (E.2.2 tbl hA)
      | varD name init =>
        cases init with
        | none =>
          simp only [resolveStmt] at h
          split at h
          · exact Except.noConfusion h
          · rename_i r1 heqD
            obtain ⟨hd1, hd2⟩ := declare_scopes heqD
            injection h with h1
            obtain ⟨hdf1, hdf2⟩ := define_scopes name r1
            have hsc : r'.scopes = scDefine r.scopes name.lexeme := by
              rw [← h1, hdf1, hd1, scDefine_scDeclare]
            refine ⟨hsc, by rw [hsc]; exact AllTrue_scDefine hT _, ?_, ?_⟩
            · intro k _
              rw [← h1, hdf2, hd2]
            · intro tbl _
              rw [hsc]
              exact SCert.varNone _ name
        | some e =>
          simp only [resolveStmt] at h
          split at h
          · exact Except.noConfusion h
          · rename_i r1 heqD
            obtain ⟨hd1, hd2⟩ := declare_scopes heqD
            split at h
            · exact Except.noConfusion h
            · rename_i r2 heqE
              injection h with h1
              simp only [stmtIds] at hF hN ⊢
              have E := hE e r1 r2 heqE
                (by rw [hd1, scDeclare_tail]; exact AllTrue_tail hT)
                (by rw [hd2]; exact hF) hN
              obtain ⟨hdf1, hdf2⟩ := define_scopes name r2
              have hsc : r'.scopes = scDefine r.scopes name.lexeme := by
                rw [← h1, hdf1, E.1, hd1, scDefine_scDeclare]
              refine ⟨hsc, by rw [hsc]; exact AllTrue_scDefine hT _, ?_, ?_⟩
              · intro k hk
                rw [← h1, hdf2, E.2.1 k hk, hd2]
              · intro tbl hA
                have hA2 : Agrees r2.table tbl (exprIds e) := by
                  intro k hk
                  rw [hA k hk, ← h1, hdf2]
                have hcE : ECert tbl (scDeclare r.scopes name.lexeme) e := by
                  rw [← hd1]
                  exact E.2.2 tbl hA2
                rw [hsc]
                exact SCert.varSome _ name e hcE
      | block sts =>
        simp only [resolveStmt] at h
        split at h
        · exact Except.noConfusion h
        · rename_i rB heqB
          injection h with h1
          simp only [stmtIds] at hF hN ⊢
          have SL := ihL sts r.begin_scope rB heqB
            (allTrue_cons ScTrue_nil hT) hSh hF hN
          obtain ⟨sc2, hsc2⟩ := SL.1 [] r.scopes rfl
          have hsc : r'.scopes = r.scopes := by
            rw [← h1]
            show rB.scopes.tail = r.scopes
            rw [hsc2]
            rfl
          refine ⟨hsc, by rw [hsc]; exact hT, ?_, ?_⟩
          · intro k hk
            rw [← h1]
            show localsGet rB.table k = localsGet r.table k
            exact SL.2.2.2.1 k hk
          · intro tbl hA
            have hA2 : Agrees rB.table tbl (stmtListIds sts) := by
              intro k hk
              rw [hA k hk, ← h1]
              rfl
            have hcert := SL.2.2.2.2 tbl hA2
            rw [hsc2] at hcert
            rw [hsc]
            exact SCert.blockS _ sts sc2 hcert
      | ifS c t e? =>
        simp only [resolveStmt] at h
        split at h
        · exact Except.noConfusion h
        · rename_i r1 heqC
          split at h
          · exact Except.noConfusion h
          · rename_i r2 heqT
            cases e? with
            | none =>
              injection h with h1
              simp only [declShaped, Bool.and_eq_true] at hSh
              simp only [stmtIds, List.append_nil] at hF hN ⊢
              have hDisj := List.disjoint_of_nodup_append hN
              have E := hE c r r1 heqC (AllTrue_tail hT)
                (Fresh_sub hF (fun k hk => List.mem_append.mpr (Or.inl hk)))
                hN.of_append_left
              have T := ihS t r1 r2 heqT (by rw [E.1]; exact hT)
                (stmtShaped_declShaped hSh.1)
                (by
                  intro k hk
                  rw [E.2.1 k (fun hm => hDisj hm hk)]
                  exact hF k (List.mem_append.mpr (Or.inr hk)))
                hN.of_append_right
              have hscT : r2.scopes = r.scopes := by
                rw [T.1, certOut_stmtShaped hSh.1, E.1]
              have hsc : r'.scopes = r.scopes := by
                rw [← h1, hscT]
              refine ⟨hsc, by rw [hsc]; exact hT, ?_, ?_⟩
              · intro k hk
                rw [List.mem_append] at hk
                push_neg at hk
                rw [← h1, T.2.2.1 k hk.2, E.2.1 k hk.1]
              · intro tbl hA
                have hAc : Agrees r1.table tbl (exprIds c) := by
                  intro k hk
                  rw [hA k (List.mem_append.mpr (Or.inl hk)), ← h1]
                  exact T.2.2.1 k (fun hm => hDisj hk hm)
                have hAt : Agrees r2.table tbl (stmtIds t) := by
                  intro k hk
                  rw [hA k (List.mem_append.mpr (Or.inr hk)), ← h1]
                have hcT : SCert tbl r.scopes t r.scopes := by
                  have := T.2.2.2 tbl hAt
                  rw [E.1] at this
                  rw [T.1, certOut_stmtShaped hSh.1, E.1] at this
                  exact this
                rw [hsc]
                exact SCert.ifNone _ c t (E.2.2 tbl hAc) hcT
            | some e =>
              rename_i hmm
              simp only [declShaped, Bool.and_eq_true] at hSh
              simp only [stmtIds] at hF hN ⊢
              have hDisjABe := List.disjoint_of_nodup_append hN
              have hNab := hN.of_append_left
              have hNe := hN.of_append_right
              have hDisj := List.disjoint_of_nodup_append hNab
              have hFab := Fresh_sub hF
                (fun k hk => List.mem_append.mpr (Or.inl hk))
              have E := hE c r r1 heqC (AllTrue_tail hT)
                (Fresh_sub hFab (fun k hk => List.mem_append.mpr (Or.inl hk)))
                hNab.of_append_left
              have T := ihS t r1 r2 heqT (by rw [E.1]; exact hT)
                (stmtShaped_declShaped hSh.1)
                (by
                  intro k hk
                  rw [E.2.1 k (fun hm => hDisj hm hk)]
                  exact hFab k (List.mem_append.mpr (Or.inr hk)))
                hNab.of_append_right
              have hscT : r2.scopes = r.scopes := by
                rw [T.1, certOut_stmtShaped hSh.1, E.1]
              have El := ihS e r2 r' h (by rw [hscT]; exact hT)
                (stmtShaped_declShaped hSh.2)
                (by
                  intro k hk
                  rw [T.2.2.1 k (fun hm =>
                    hDisjABe (List.mem_append.mpr (Or.inr hm)) hk)]
                  rw [E.2.1 k (fun hm =>
                    hDisjABe (List.mem_append.mpr (Or.inl hm)) hk)]
                  exact hF k (List.mem_append.mpr (Or.inr hk)))
                hNe
              have hsc : r'.scopes = r.scopes := by
                rw [El.1, certOut_stmtShaped hSh.2, hscT]
              refine ⟨hsc, by rw [hsc]; exact hT, ?_, ?_⟩
              · intro k hk
                rw [List.mem_append] at hk
                push_neg at hk
                have hk1 := hk.1
                rw [List.mem_append] at hk1
                push_neg at hk1
                rw [El.2.2.1 k hk.2, T.2.2.1 k hk1.2, E.2.1 k hk1.1]
              · intro tbl hA
                have hAc : Agrees r1.table tbl (exprIds c) := by
                  intro k hk
                  rw [hA k (List.mem_append.mpr (Or.inl
                    (List.mem_append.mpr (Or.inl hk))))]
                  rw [El.2.2.1 k (fun hm =>
                    hDisjABe (List.mem_append.mpr (Or.inl hk)) hm)]
                  exact T.2.2.1 k (fun hm => hDisj hk hm)
                have hAt : Agrees r2.table tbl (stmtIds t) := by
                  intro k hk
                  rw [hA k (List.mem_append.mpr (Or.inl
                    (List.mem_append.mpr (Or.inr hk))))]
                  exact El.2.2.1 k (fun hm =>
                    hDisjABe (List.mem_append.mpr (Or.inr hk)) hm)
                have hAe : Agrees r'.table tbl (stmtIds e) :=
                  Agrees_sub hA (fun k hk => List.mem_append.mpr (Or.inr hk))
                have hcT : SCert tbl r.scopes t r.scopes := by
                  have := T.2.2.2 tbl hAt
                  rw [E.1, T.1, certOut_stmtShaped hSh.1, E.1] at this
                  exact this
                have hcE : SCert tbl r.scopes e r.scopes := by
                  have := El.2.2.2 tbl hAe
                  rw [hscT, El.1, certOut_stmtShaped hSh.2, hscT] at this
                  exact this
                rw [hsc]
                exact SCert.ifSome _ c t e (E.2.2 tbl hAc) hcT hcE
      | whileS c b =>
        simp only [resolveStmt] at h
        split at h
        · exact Except.noConfusion h
        · rename_i r1 heqC
          simp only [declShaped] at hSh
          simp only [stmtIds] at hF hN ⊢
          have hDisj := List.disjoint_of_nodup_append hN
          have E := hE c r r1 heqC (AllTrue_tail hT)
            (Fresh_sub hF (fun k hk => List.mem_append.mpr (Or.inl hk)))
            hN.of_append_left
          have B := ihS b r1 r' h (by rw [E.1]; exact hT)
            (stmtShaped_declShaped hSh)
            (by
              intro k hk
              rw [E.2.1 k (fun hm => hDisj hm hk)]
              exact hF k (List.mem_append.mpr (Or.inr hk)))
            hN.of_append_right
          have hsc : r'.scopes = r.scopes := by
            rw [B.1, certOut_stmtShaped hSh, E.1]
          refine ⟨hsc, by rw [hsc]; exact hT, ?_, ?_⟩
          · intro k hk
            rw [List.mem_append] at hk
            push_neg at hk
            rw [B.2.2.1 k hk.2, E.2.1 k hk.1]
          · intro tbl hA
            have hAc : Agrees r1.table tbl (exprIds c) := by
              intro k hk
              rw [hA k (List.mem_append.mpr (Or.inl hk))]
              exact B.2.2.1 k (fun hm => hDisj hk hm)
            have hAb : Agrees r'.table tbl (stmtIds b) :=
              Agrees_sub hA (fun k hk => List.mem_append.mpr (Or.inr hk))
            have hcB : SCert tbl r.scopes b r.scopes := by
              have := B.2.2.2 tbl hAb
              rw [E.1, B.1, certOut_stmtShaped hSh, E.1] at this
              exact this
            rw [hsc]
            exact SCert.whileC _ c b (E.2.2 tbl hAc) hcB
      | function fs =>
        obtain ⟨n, ps, body⟩ := fs
        simp only [resolveStmt, FunctionStmt.name] at h
        split at h
        · exact Except.noConfusion h
        · rename_i r1 heqD
          obtain ⟨hd1, hd2⟩ := declare_scopes heqD
          simp only [declShaped] at hSh
          simp only [stmtIds] at hF hN ⊢
          have hdf1' := (define_scopes n r1).1
          have hdf2' := (define_scopes n r1).2
          have hscIn : (RSt.define n r1).scopes = scDefine r.scopes n.lexeme := by
            rw [hdf1', hd1, scDefine_scDeclare]
          have Fn := ihF ⟨n, ps, body⟩ .FUNCTION (RSt.define n r1) r' h
            (by rw [hscIn]; exact AllTrue_scDefine hT _) hSh
            (by rw [hdf2', hd2]; exact hF) hN
          have hsc : r'.scopes = scDefine r.scopes n.lexeme := by
            rw [Fn.1, hscIn]
          refine ⟨hsc, by rw [hsc]; exact AllTrue_scDefine hT _, ?_, ?_⟩
          · intro k hk
            rw [Fn.2.2.1 k hk, hdf2', hd2]
          · intro tbl hA
            have hcF := Fn.2.2.2 tbl hA
            rw [hscIn] at hcF
            obtain ⟨scX, hcert⟩ := hcF
            rw [hsc]
            exact SCert.funcS _ n ps body scX hcert
      | ret k v? =>
        cases v? with
        | none =>
          simp only [resolveStmt] at h
          split at h
          · exact Except.noConfusion h
          · injection h with h1
            rw [← h1]
            exact ⟨rfl, hT, fun k _ => rfl, fun tbl _ => SCert.retNone _ k⟩
        | some v =>
          simp only [resolveStmt] at h
          split at h
          · exact Except.noConfusion h
          · simp only [stmtIds] at hF hN ⊢
            have E := hE v r r' h (AllTrue_tail hT) hF hN
            refine ⟨E.1, by rw [E.1]; exact hT, E.2.1, ?_⟩
            intro tbl hA
            rw [E.1]
            exact SCert.retSome _ k v (E.2.2 tbl hA)
      | classS n m =>
        simp only [resolveStmt] at h
        exact Except.noConfusion h
    · intro sts r r' h hT hSh hF hN
      cases sts with
      | nil =>
        injection h with h1
        rw [← h1]
        exact ⟨fun sc rest h2 => ⟨sc, h2⟩, fun h2 => h2, hT, fun k _ => rfl,
          fun tbl _ => SCertList.nil _⟩
      | cons st rest =>
        simp only [resolveStmts] at h
        split at h
        · exact Except.noConfusion h
        · rename_i r1 heqS
          simp only [declListShaped, Bool.and_eq_true] at hSh
          simp only [stmtListIds] at hF hN ⊢
          have hDisj := List.disjoint_of_nodup_append hN
          have S := ihS st r r1 heqS hT hSh.1
            (Fresh_sub hF (fun k hk => List.mem_append.mpr (Or.inl hk)))
            hN.of_append_left
          have SL := ihL rest r1 r' h S.2.1 hSh.2
            (by
              intro k hk
              rw [S.2.2.1 k (fun hm => hDisj hm hk)]
              exact hF k (List.mem_append.mpr (Or.inr hk)))
            hN.of_append_right
          refine ⟨?_, ?_, SL.2.2.1, ?_, ?_⟩
          · intro sc rest0 h2
            obtain ⟨sc2, hc2⟩ := certOut_cons st sc rest0
            refine SL.1 sc2 rest0 ?_
            rw [S.1, h2, hc2]
          · intro h2
            apply SL.2.1
            rw [S.1, h2, certOut_nil]
          · intro k hk
            rw [List.mem_append] at hk
            push_neg at hk
            rw [SL.2.2.2.1 k hk.2, S.2.2.1 k hk.1]
          · intro tbl hA
            have hAs : Agrees r1.table tbl (stmtIds st) := by
              intro k hk
              rw [hA k (List.mem_append.mpr (Or.inl hk))]
              exact SL.2.2.2.1 k (fun hm => hDisj hk hm)
            have hAr : Agrees r'.table tbl (stmtListIds rest) :=
              Agrees_sub hA (fun k hk => List.mem_append.mpr (Or.inr hk))
            exact SCertList.consS _ st r1.scopes rest r'.scopes
              (S.2.2.2 tbl hAs) (SL.2.2.2.2 tbl hAr)
    · intro fs ty r r' h hT hSh hF hN
      obtain ⟨n, ps, body⟩ := fs
      simp only [resolve_function] at h
      split at h
      · exact Except.noConfusion h
      · rename_i r1 heqP
        split at h
        · exact Except.noConfusion h
        · rename_i r2 heqB
          injection h with h1
          have hP := declParams_props ps _ r1 heqP
          have hr1sc : r1.scopes = paramScope ps [] :: r.scopes :=
            hP.2.2 [] r.scopes rfl
          have hr1tb : r1.table = r.table := hP.1
          have SL := ihL body r1 r2 heqB
            (by
              rw [hr1sc]
              exact allTrue_cons (ScTrue_paramScope ScTrue_nil ps) hT)
            hSh (by rw [hr1tb]; exact hF) hN
          obtain ⟨scX, hscX⟩ := SL.1 (paramScope ps []) r.scopes hr1sc
          have hsc : r'.scopes = r.scopes := by
            rw [← h1]
            show r2.scopes.tail = r.scopes
            rw [hscX]
            rfl
          refine ⟨hsc, by rw [hsc]; exact hT, ?_, ?_⟩
          · intro k hk
            rw [← h1]
            show localsGet r2.table k = localsGet r.table k
            rw [SL.2.2.2.1 k hk, hr1tb]
          · intro tbl hA
            have hA2 : Agrees r2.table tbl (stmtListIds body) := by
              intro k hk
              rw [hA k hk, ← h1]
              rfl
            have hcert := SL.2.2.2.2 tbl hA2
            rw [hr1sc, hscX] at hcert
            exact ⟨scX, hcert⟩

/-- The frame binds every name the scope flags as defined. -/
def frameRealizes (fr : Frame) (sc : Sc) : Prop :=
  ∀ n, bmapGet sc n = some true → mapHas fr.vars n = true

/-- The parent chain starting at `ref` realizes the scope context `C`:
frame by frame, each scope's defined names are bound, and the chain has
a parent link wherever another scope follows. -/
def chainRealizes (s : RState) : Nat → List Sc → Prop
  | _, [] => True
  | ref, sc :: rest =>
    ∃ fr : Frame, s.frames[ref]? = some fr ∧ frameRealizes fr sc ∧
      (match rest with
       | [] => True
       | _ :: _ => ∃ p : Nat, fr.parent = some p ∧ chainRealizes s p rest)

/-- A runtime value the invariant admits: function values carry a
certificate for their body over a context their closure realizes, and
no class or instance values exist (the parser cannot produce class
syntax and the resolver rejects it). -/
def vGoodVal (tbl : List (Nat × Nat)) (s : RState) : Value → Prop
  | .func lf => lf.is_initializer = false ∧
      ∃ C : List Sc, chainRealizes s lf.closure C ∧ FCert tbl C lf.func
  | .klass _ => False
  | .inst _ => False
  | _ => True

/-- Every value stored in any frame is good. -/
def HeapGood (tbl : List (Nat × Nat)) (s : RState) : Prop :=
  ∀ (i : Nat) (fr : Frame) (n : String) (v : Value),
    s.frames[i]? = some fr → mapGet fr.vars n = some v → vGoodVal tbl s v

def StateOK (tbl : List (Nat × Nat)) (s : RState) : Prop :=
  s.locals = tbl ∧ HeapGood tbl s

/-- Heap extension: the side table is unchanged and every existing
frame persists at its index with the same parent and at least its old
bindings. -/
def sExt (s s' : RState) : Prop :=
  s'.locals = s.locals ∧
  ∀ (i : Nat) (fr : Frame), s.frames[i]? = some fr →
    ∃ fr' : Frame, s'.frames[i]? = some fr' ∧ fr'.parent = fr.parent ∧
      ∀ n : String, mapHas fr.vars n = true → mapHas fr'.vars n = true

theorem sExt_refl (s : RState) : sExt s s :=
  ⟨rfl, fun i fr h => ⟨fr, h, rfl, fun _ h2 => h2⟩⟩

theorem sExt_trans {s1 s2 s3 : RState} (h1 : sExt s1 s2) (h2 : sExt s2 s3) :
    sExt s1 s3 := by
  refine ⟨by rw [h2.1, h1.1], ?_⟩
  intro i fr h
  obtain ⟨fr2, ha, hb, hc⟩ := h1.2 i fr h
  obtain ⟨fr3, ha2, hb2, hc2⟩ := h2.2 i fr2 ha
  exact ⟨fr3, ha2, by rw [hb2, hb], fun n hn => hc2 n (hc n hn)⟩

theorem chainRealizes_mono {s s' : RState} (hx : sExt s s') :
    ∀ (C : List Sc) (ref : Nat), chainRealizes s ref C →
      chainRealizes s' ref C := by
  intro C
  induction C with
  | nil =>
    intro ref _
    trivial
  | cons sc rest ih =>
    intro ref h
    obtain ⟨fr, h1, h2, h3⟩ := h
    obtain ⟨fr', ha, hb, hc⟩ := hx.2 ref fr h1
    refine ⟨fr', ha, fun n hn => hc n (h2 n hn), ?_⟩
    cases rest with
    | nil => trivial
    | cons sc2 rest2 =>
      obtain ⟨p, hp1, hp2⟩ := h3
      exact ⟨p, by rw [hb, hp1], ih p hp2⟩

theorem vGood_mono {tbl : List (Nat × Nat)} {s s' : RState} (hx : sExt s s')
    {v : Value} (h : vGoodVal tbl s v) : vGoodVal tbl s' v := by
  cases v with
  | func lf =>
    obtain ⟨h1, C, h2, h3⟩ := h
    exact ⟨h1, C, chainRealizes_mono hx C _ h2, h3⟩
  | klass c => exact h
  | inst i => exact h
  | nil => trivial
  | boolean b => trivial
  | num q => trivial
  | str t => trivial
  | clock => trivial
  | undef => trivial

theorem ancestor_succ {s : RState} {ref d p : Nat} {fr : Frame}
    (h1 : s.frames[ref]? = some fr) (hp : fr.parent = some p) :
    ancestor s ref (d + 1) = ancestor s p d := by
  have he : ancestor s ref (d + 1) =
      (match s.frames[ref]? with
       | some fr0 =>
         (match fr0.parent with
          | some pr => ancestor s pr d
          | none => none)
       | none => none) := rfl
  rw [he]
  simp only [h1, hp]

/-- The core hit lemma: a realized chain satisfies every get_at whose
distance and name the certificate vouches for. -/
theorem chainRealizes_get_at {s : RState} :
    ∀ (C : List Sc) (ref d : Nat) (sc : Sc) (n : String),
    chainRealizes s ref C → C[d]? = some sc → bmapGet sc n = some true →
    ∃ v : Value, get_at s ref d n = (.ok v, s) ∧
      ∃ (a : Nat) (fra : Frame), s.frames[a]? = some fra ∧
        mapGet fra.vars n = some v := by
  intro C
  induction C with
  | nil =>
    intro ref d sc n _ hd _
    rw [List.getElem?_nil] at hd
    exact Option.noConfusion hd
  | cons sc0 rest ih =>
    intro ref d sc n hc hd hg
    obtain ⟨fr, h1, h2, h3⟩ := hc
    cases d with
    | zero =>
      have hsc : sc = sc0 := by
        have hd2 := hd
        simp at hd2
        rw [hd2]
      obtain ⟨v, hv⟩ := mapHas_get (h2 n (by rw [← hsc]; exact hg))
      refine ⟨v, ?_, ref, fr, h1, hv⟩
      have h0 : ancestor s ref 0 = some ref := rfl
      simp only [get_at, h0, h1, hv]
    | succ d0 =>
      have hd0 : rest[d0]? = some sc := by simpa using hd
      have hrest : ∃ p : Nat, fr.parent = some p ∧ chainRealizes s p rest := by
        cases rest with
        | nil =>
          rw [List.getElem?_nil] at hd0
          exact Option.noConfusion hd0
        | cons a b => exact h3
      obtain ⟨p, hp1, hp2⟩ := hrest
      obtain ⟨v, hv1, a, fra, ha1, ha2⟩ := ih p d0 sc n hp2 hd0 hg
      refine ⟨v, ?_, a, fra, ha1, ha2⟩
      show get_at s ref (d0 + 1) n = (.ok v, s)
      unfold get_at at hv1 ⊢
      rw [ancestor_succ h1 hp1]
      exact hv1

/-- env_get only returns values stored in some frame. -/
theorem env_get_source : ∀ (f : Nat) (s : RState) (ref : Nat) (tok : Token)
    (v : Value), env_get f s ref tok = .ok v →
    ∃ (i : Nat) (fr : Frame), s.frames[i]? = some fr ∧
      mapGet fr.vars tok.lexeme = some v := by
  intro f
  induction f with
  | zero =>
    intro s ref tok v h
    exact Res.noConfusion h
  | succ f ih =>
    intro s ref tok v h
    unfold env_get at h
    split at h
    · exact Res.noConfusion h
    · rename_i fr hfr
      split at h
      · rename_i v0 hv0
        injection h with h1
        rw [← h1]
        exact ⟨ref, fr, hfr, hv0⟩
      · split at h
        · exact ih _ _ _ _ h
        · exact Res.noConfusion h

/-- env_assign either leaves the state alone or updates one frame by a
single map insertion. -/
theorem env_assign_shape : ∀ (f : Nat) (s : RState) (ref : Nat) (tok : Token)
    (v : Value),
    (env_assign f s ref tok v).2 = s ∨
    ∃ (i : Nat) (fr : Frame), s.frames[i]? = some fr ∧
      (env_assign f s ref tok v).2 =
        { s with frames := s.frames.set i ({ fr with vars := mapSet fr.vars tok.lexeme v }) } := by
  intro f
  induction f with
  | zero =>
    intro s ref tok v
    exact Or.inl rfl
  | succ f ih =>
    intro s ref tok v
    unfold env_assign
    split
    · exact Or.inl rfl
    · rename_i fr hfr
      split
      · exact Or.inr ⟨ref, fr, hfr, rfl⟩
      · split
        · rename_i p hp
          exact ih s p tok v
        · exact Or.inl rfl

/-- assign_at likewise. -/
theorem assign_at_shape (s : RState) (ref d : Nat) (n : String) (v : Value) :
    (assign_at s ref d n v).2 = s ∨
    ∃ (i : Nat) (fr : Frame), s.frames[i]? = some fr ∧
      (assign_at s ref d n v).2 =
        { s with frames := s.frames.set i ({ fr with vars := mapSet fr.vars n v }) } := by
  unfold assign_at
  split
  · exact Or.inl rfl
  · rename_i a ha
    split
    · exact Or.inl rfl
    · rename_i fr hfr
      exact Or.inr ⟨a, fr, hfr, rfl⟩

/-- One-frame map insertion is a heap extension. -/
theorem setFrame_ext {s : RState} {i : Nat} {fr : Frame}
    (hfr : s.frames[i]? = some fr) (n : String) (v : Value) :
    sExt s { s with frames := s.frames.set i ({ fr with vars := mapSet fr.vars n v }) } := by
  have hlen : i < s.frames.length := by
    by_contra hc
    rw [List.getElem?_eq_none (by omega)] at hfr
    exact Option.noConfusion hfr
  refine ⟨rfl, ?_⟩
  intro j frj hj
  by_cases hij : i = j
  · subst hij
    rw [hfr] at hj
    injection hj with hj1
    refine ⟨{ fr with vars := mapSet fr.vars n v }, ?_, by rw [← hj1], ?_⟩
    · show (s.frames.set i ({ fr with vars := mapSet fr.vars n v }))[i]? = _
      rw [List.getElem?_set_eq hlen]
    · intro m hm
      rw [← hj1] at hm
      show mapHas (mapSet fr.vars n v) m = true
      rw [mapHas_set]
      split
      · rfl
      · exact hm
  · refine ⟨frj, ?_, rfl, fun m hm => hm⟩
    show (s.frames.set i ({ fr with vars := mapSet fr.vars n v }))[j]? = some frj
    rw [List.getElem?_set_ne hij]
    exact hj

/-- One-frame map insertion keeps the heap good when the stored value
is good. -/
theorem setFrame_heapGood {tbl : List (Nat × Nat)} {s : RState} {i : Nat}
    {fr : Frame} (hfr : s.frames[i]? = some fr) {n : String} {v : Value}
    (hs : HeapGood tbl s)
    (hv : vGoodVal tbl
      { s with frames := s.frames.set i ({ fr with vars := mapSet fr.vars n v }) } v) :
    HeapGood tbl { s with frames := s.frames.set i ({ fr with vars := mapSet fr.vars n v }) } := by
  have hx := setFrame_ext hfr n v
  have hlen : i < s.frames.length := by
    by_contra hc
    rw [List.getElem?_eq_none (by omega)] at hfr
    exact Option.noConfusion hfr
  intro j frj m w hj hw
  have hj2 : (s.frames.set i ({ fr with vars := mapSet fr.vars n v }))[j]? =
      some frj := hj
  by_cases hij : i = j
  · subst hij
    rw [List.getElem?_set_eq hlen] at hj2
    injection hj2 with hj1
    rw [← hj1] at hw
    have hw2 : mapGet (mapSet fr.vars n v) m = some w := hw
    rw [mapGet_set] at hw2
    split at hw2
    · injection hw2 with hw1
      rw [← hw1]
      exact hv
    · exact vGood_mono hx (hs i fr m w hfr hw2)
  · rw [List.getElem?_set_ne hij] at hj2
    exact vGood_mono hx (hs j frj m w hj2 hw)

theorem isRet_ne {α : Type} {r : Res α} (h : r.isRet = false) (w : Value) :
    r ≠ Res.halt (Halt.ret w) := by
  intro he
  rw [he] at h
  exact Bool.noConfusion h

/-- Two states with the same frames and side table extend each other. -/
theorem sExt_of_eq {s s' : RState} (hf : s'.frames = s.frames)
    (hl : s'.locals = s.locals) : sExt s s' := by
  refine ⟨hl, ?_⟩
  intro i fr h
  exact ⟨fr, by rw [hf]; exact h, rfl, fun _ h2 => h2⟩

theorem stateOK_of_eq {tbl : List (Nat × Nat)} {s s' : RState}
    (hf : s'.frames = s.frames) (hl : s'.locals = s.locals)
    (h : StateOK tbl s) : StateOK tbl s' := by
  refine ⟨by rw [hl]; exact h.1, ?_⟩
  intro i fr n v hi hv
  rw [hf] at hi
  exact vGood_mono (sExt_of_eq hf hl) (h.2 i fr n v hi hv)

theorem litToValue_good {tbl : List (Nat × Nat)} {s : RState} (v : LitV) :
    vGoodVal tbl s (litToValue v) := by
  cases v <;> trivial

theorem unaryOp_good {op : Token} {v w : Value} {tbl : List (Nat × Nat)}
    {s : RState} (h : unaryOp op v = .ok w) : vGoodVal tbl s w := by
  unfold unaryOp at h
  split at h <;> first
    | (injection h with h1; rw [← h1]; trivial)
    | exact Res.noConfusion h
    | (split at h <;> first
        | (injection h with h1; rw [← h1]; trivial)
        | exact Res.noConfusion h)

theorem binaryOp_good {op : Token} {l r w : Value} {tbl : List (Nat × Nat)}
    {s : RState} (h : binaryOp op l r = .ok w) : vGoodVal tbl s w := by
  unfold binaryOp at h
  split at h <;> first
    | (injection h with h1; rw [← h1]; trivial)
    | exact Res.noConfusion h
    | (split at h <;> first
        | (injection h with h1; rw [← h1]; trivial)
        | exact Res.noConfusion h)

theorem defineVar_none {s : RState} {i : Nat} (n : String) (v : Value)
    (h : s.frames[i]? = none) : s.defineVar i n v = s := by
  simp only [RState.defineVar, h]

theorem defineVar_some {s : RState} {i : Nat} {fr : Frame} (n : String)
    (v : Value) (h : s.frames[i]? = some fr) :
    s.defineVar i n v =
      { s with frames := s.frames.set i ({ fr with vars := mapSet fr.vars n v }) } := by
  simp only [RState.defineVar, h]

theorem defineVar_fields (s : RState) (i : Nat) (n : String) (v : Value) :
    (s.defineVar i n v).envRef = s.envRef ∧
    (s.defineVar i n v).unbound_reads = s.unbound_reads ∧
    (s.defineVar i n v).locals = s.locals := by
  unfold RState.defineVar
  split <;> exact ⟨rfl, rfl, rfl⟩

theorem defineVar_ext (s : RState) (i : Nat) (n : String) (v : Value) :
    sExt s (s.defineVar i n v) := by
  cases hE : s.frames[i]? with
  | none =>
    rw [defineVar_none n v hE]
    exact sExt_refl s
  | some fr =>
    rw [defineVar_some n v hE]
    exact setFrame_ext hE n v

theorem defineVar_stateOK {tbl : List (Nat × Nat)} {s : RState} {i : Nat}
    {n : String} {v : Value} (h : StateOK tbl s)
    (hv : vGoodVal tbl (s.defineVar i n v) v) :
    StateOK tbl (s.defineVar i n v) := by
  cases hE : s.frames[i]? with
  | none =>
    rw [defineVar_none n v hE]
    exact h
  | some fr =>
    rw [defineVar_some n v hE] at hv ⊢
    refine ⟨h.1, setFrame_heapGood hE h.2 hv⟩

/-- Defining a name in the frame a chain starts at realizes the scope
context with the name defined. -/
theorem chainRealizes_defineVar {s : RState} {ref : Nat} {C : List Sc}
    (n : String) (v : Value) (hc : chainRealizes s ref C) :
    chainRealizes (s.defineVar ref n v) ref (scDefine C n) := by
  cases C with
  | nil => trivial
  | cons sc rest =>
    obtain ⟨fr, h1, h2, h3⟩ := hc
    rw [defineVar_some n v h1]
    have hlen : ref < s.frames.length := by
      by_contra hcc
      rw [List.getElem?_eq_none (by omega)] at h1
      exact Option.noConfusion h1
    have hx := setFrame_ext h1 n v
    refine ⟨{ fr with vars := mapSet fr.vars n v }, ?_, ?_, ?_⟩
    · show (s.frames.set ref ({ fr with vars := mapSet fr.vars n v }))[ref]? = _
      rw [List.getElem?_set_eq hlen]
    · intro m hm
      show mapHas (mapSet fr.vars n v) m = true
      rw [mapHas_set]
      have hm2 : bmapGet (bmapSet sc n true) m = some true := hm
      rw [bmapGet_set] at hm2
      split
      · rfl
      · rename_i hne
        rw [if_neg hne] at hm2
        exact h2 m hm2
    · cases rest with
      | nil => trivial
      | cons sc2 rest2 =>
        obtain ⟨p, hp1, hp2⟩ := h3
        refine ⟨p, hp1, ?_⟩
        exact chainRealizes_mono hx (sc2 :: rest2) p hp2

/-- Declaring a name (flagging it `false`) only weakens what a chain
must realize. -/
theorem chainRealizes_scDeclare {s : RState} {ref : Nat} {C : List Sc}
    (n : String) (hc : chainRealizes s ref C) :
    chainRealizes s ref (scDeclare C n) := by
  cases C with
  | nil => trivial
  | cons sc rest =>
    obtain ⟨fr, h1, h2, h3⟩ := hc
    refine ⟨fr, h1, ?_, h3⟩
    intro m hm
    have hm2 : bmapGet (bmapSet sc n false) m = some true := hm
    rw [bmapGet_set] at hm2
    split at hm2
    · exact Bool.noConfusion (Option.some.inj hm2)
    · exact h2 m hm2

/-- Appending a frame is a heap extension. -/
theorem append_ext (s : RState) (fr0 : Frame) :
    sExt s { s with frames := s.frames ++ [fr0] } := by
  refine ⟨rfl, ?_⟩
  intro i fr h
  have hlen : i < s.frames.length := by
    by_contra hcc
    rw [List.getElem?_eq_none (by omega)] at h
    exact Option.noConfusion h
  refine ⟨fr, ?_, rfl, fun _ h2 => h2⟩
  show (s.frames ++ [fr0])[i]? = some fr
  rw [List.getElem?_append, if_pos hlen]
  exact h

/-- Appending an empty frame keeps the heap good. -/
theorem append_stateOK {tbl : List (Nat × Nat)} {s : RState}
    (h : StateOK tbl s) (p : Option Nat) :
    StateOK tbl { s with frames := s.frames ++ [(⟨[], p⟩ : Frame)] } := by
  refine ⟨h.1, ?_⟩
  intro i fr n v hi hv
  have hi2 : (s.frames ++ [(⟨[], p⟩ : Frame)])[i]? = some fr := hi
  by_cases hlt : i < s.frames.length
  · rw [List.getElem?_append, if_pos hlt] at hi2
    exact vGood_mono (append_ext s _) (h.2 i fr n v hi2 hv)
  · rw [List.getElem?_append, if_neg hlt] at hi2
    cases hd : i - s.frames.length with
    | zero =>
      rw [hd] at hi2
      simp only [List.getElem?_cons_zero] at hi2
      injection hi2 with hi3
      rw [← hi3] at hv
      exact Option.noConfusion hv
    | succ k =>
      rw [hd] at hi2
      simp only [List.getElem?_cons_succ, List.getElem?_nil] at hi2
      exact Option.noConfusion hi2

/-- The frame appended by a block or call sits at the old length. -/
theorem append_frame_at (s : RState) (fr0 : Frame) :
    ({ s with frames := s.frames ++ [fr0] } : RState).frames[s.frames.length]? =
      some fr0 := by
  show (s.frames ++ [fr0])[s.frames.length]? = some fr0
  exact List.getElem?_concat_length s.frames fr0

/-- The parameter-defining loop: preserves the invariants and realizes
the parameter scope. -/
theorem defineParams_ok {tbl : List (Nat × Nat)} :
    ∀ (ps : List Token) (vs : List Value) (ref : Nat) (s : RState) (sc : Sc)
      (C0 : List Sc), StateOK tbl s → (∀ v ∈ vs, vGoodVal tbl s v) →
      chainRealizes s ref (sc :: C0) →
      sExt s (defineParams ps vs ref s) ∧
      StateOK tbl (defineParams ps vs ref s) ∧
      (defineParams ps vs ref s).envRef = s.envRef ∧
      (defineParams ps vs ref s).unbound_reads = s.unbound_reads ∧
      chainRealizes (defineParams ps vs ref s) ref (paramScope ps sc :: C0) := by
  intro ps
  induction ps with
  | nil =>
    intro vs ref s sc C0 hok _ hch
    exact ⟨sExt_refl s, hok, rfl, rfl, hch⟩
  | cons t ps ih =>
    intro vs ref s sc C0 hok hargs hch
    have hF := defineVar_fields s ref t.lexeme
    cases vs with
    | nil =>
      have hstep : defineParams (t :: ps) [] ref s
          = defineParams ps [] ref (s.defineVar ref t.lexeme .undef) := rfl
      rw [hstep]
      have hxt := defineVar_ext s ref t.lexeme Value.undef
      have hok1 : StateOK tbl (s.defineVar ref t.lexeme .undef) :=
        defineVar_stateOK hok trivial
      have hch1 : chainRealizes (s.defineVar ref t.lexeme .undef) ref
          (bmapSet sc t.lexeme true :: C0) :=
        chainRealizes_defineVar t.lexeme .undef hch
      obtain ⟨e1, e2, e3, e4, e5⟩ :=
        ih [] ref (s.defineVar ref t.lexeme .undef) (bmapSet sc t.lexeme true)
          C0 hok1 (by intro v hv; cases hv) hch1
      obtain ⟨f1, f2, f3⟩ := defineVar_fields s ref t.lexeme (v := .undef)
      refine ⟨sExt_trans hxt e1, e2, by rw [e3, f1], by rw [e4, f2], ?_⟩
      show chainRealizes _ ref
        (paramScope ps (bmapSet (bmapSet sc t.lexeme false) t.lexeme true) :: C0)
      rw [bmapSet_bmapSet]
      exact e5
    | cons a vs =>
      have hstep : defineParams (t :: ps) (a :: vs) ref s
          = defineParams ps vs ref (s.defineVar ref t.lexeme a) := rfl
      rw [hstep]
      have hxt := defineVar_ext s ref t.lexeme a
      have hga : vGoodVal tbl s a := hargs a (List.mem_cons_self _ _)
      have hok1 : StateOK tbl (s.defineVar ref t.lexeme a) :=
        defineVar_stateOK hok (vGood_mono hxt hga)
      have hch1 : chainRealizes (s.defineVar ref t.lexeme a) ref
          (bmapSet sc t.lexeme true :: C0) :=
        chainRealizes_defineVar t.lexeme a hch
      obtain ⟨e1, e2, e3, e4, e5⟩ :=
        ih vs ref (s.defineVar ref t.lexeme a) (bmapSet sc t.lexeme true)
          C0 hok1
          (by
            intro v hv
            exact vGood_mono hxt (hargs v (List.mem_cons_of_mem _ hv)))
          hch1
      obtain ⟨f1, f2, f3⟩ := defineVar_fields s ref t.lexeme (v := a)
      refine ⟨sExt_trans hxt e1, e2, by rw [e3, f1], by rw [e4, f2], ?_⟩
      show chainRealizes _ ref
        (paramScope ps (bmapSet (bmapSet sc t.lexeme false) t.lexeme true) :: C0)
      rw [bmapSet_bmapSet]
      exact e5

/-- The startup state satisfies the heap invariant for any table. -/
theorem initState_stateOK (console0 : List ConsoleEntry)
    (tbl : List (Nat × Nat)) : StateOK tbl (initState console0 tbl) := by
  refine ⟨rfl, ?_⟩
  intro i fr n v hi hv
  have hi2 : ([(⟨[("clock", Value.clock)], none⟩ : Frame)] : List Frame)[i]? =
      some fr := hi
  cases i with
  | zero =>
    simp only [List.getElem?_cons_zero] at hi2
    injection hi2 with hi3
    rw [← hi3] at hv
    have hv2 : mapGet [("clock", Value.clock)] n = some v := hv
    simp only [mapGet] at hv2
    split at hv2
    · injection hv2 with hv3
      rw [← hv3]
      trivial
    · exact Option.noConfusion hv2
  | succ k =>
    simp only [List.getElem?_cons_succ, List.getElem?_nil] at hi2
    exact Option.noConfusion hi2

theorem sExt_env (s : RState) (env : Nat) : sExt s { s with envRef := env } := by
  refine sExt_of_eq ?_ ?_ <;> rfl

theorem stateOK_env {tbl : List (Nat × Nat)} {s : RState} (h : StateOK tbl s)
    (env : Nat) : StateOK tbl { s with envRef := env } := by
  refine stateOK_of_eq ?_ ?_ h <;> rfl

theorem stateOK_console {tbl : List (Nat × Nat)} {s : RState}
    (h : StateOK tbl s) (cs : List ConsoleEntry) :
    StateOK tbl { s with console := cs } := by
  refine stateOK_of_eq ?_ ?_ h <;> rfl

/-- The master runtime invariant: over certified programs, evaluation
extends the heap, keeps it good, restores the environment pointer,
never ticks the unbound-read counter, and produces good values; a
statement leaves its chain realizing the certificate's output context. -/
theorem runtime_ok (tbl : List (Nat × Nat)) : ∀ f : Nat,
    (∀ e s r s' C, evalExpr f e s = (r, s') → ECert tbl C e → StateOK tbl s →
      chainRealizes s s.envRef C →
      sExt s s' ∧ StateOK tbl s' ∧ s'.envRef = s.envRef ∧
      s'.unbound_reads = s.unbound_reads ∧
      (∀ v, r = .ok v → vGoodVal tbl s' v) ∧
      (∀ v, r = .halt (.ret v) → vGoodVal tbl s' v)) ∧
    (∀ es s r s' C, evalArgs f es s = (r, s') → ECertList tbl C es →
      StateOK tbl s → chainRealizes s s.envRef C →
      sExt s s' ∧ StateOK tbl s' ∧ s'.envRef = s.envRef ∧
      s'.unbound_reads = s.unbound_reads ∧
      (∀ vs, r = .ok vs → ∀ v ∈ vs, vGoodVal tbl s' v) ∧
      (∀ v, r = .halt (.ret v) → vGoodVal tbl s' v)) ∧
    (∀ fv vs s r s', callValue f fv vs s = (r, s') → vGoodVal tbl s fv →
      (∀ v ∈ vs, vGoodVal tbl s v) → StateOK tbl s →
      sExt s s' ∧ StateOK tbl s' ∧ s'.envRef = s.envRef ∧
      s'.unbound_reads = s.unbound_reads ∧
      (∀ v, r = .ok v → vGoodVal tbl s' v) ∧
      (∀ v, r = .halt (.ret v) → vGoodVal tbl s' v)) ∧
    (∀ st s r s' C C2, execStmt f st s = (r, s') → SCert tbl C st C2 →
      StateOK tbl s → chainRealizes s s.envRef C →
      sExt s s' ∧ StateOK tbl s' ∧ s'.envRef = s.envRef ∧
      s'.unbound_reads = s.unbound_reads ∧
      (r = .ok () → chainRealizes s' s'.envRef C2) ∧
      (∀ v, r = .halt (.ret v) → vGoodVal tbl s' v)) ∧
    (∀ sts s r s' C C2, execStmts f sts s = (r, s') → SCertList tbl C sts C2 →
      StateOK tbl s → chainRealizes s s.envRef C →
      sExt s s' ∧ StateOK tbl s' ∧ s'.envRef = s.envRef ∧
      s'.unbound_reads = s.unbound_reads ∧
      (r = .ok () → chainRealizes s' s'.envRef C2) ∧
      (∀ v, r = .halt (.ret v) → vGoodVal tbl s' v)) ∧
    (∀ sts env s r s' Cb C2, execute_block f sts env s = (r, s') →
      SCertList tbl Cb sts C2 → StateOK tbl s → chainRealizes s env Cb →
      sExt s s' ∧ StateOK tbl s' ∧ s'.envRef = s.envRef ∧
      s'.unbound_reads = s.unbound_reads ∧
      (∀ v, r = .halt (.ret v) → vGoodVal tbl s' v)) := by
  intro f
  induction f with
  | zero =>
    refine ⟨?_, ?_, ?_, ?_, ?_, ?_⟩
    · intro e s r s' C h hc hok hch
      injection h with h1 h2
      subst h1
      subst h2
      exact ⟨sExt_refl s, hok, rfl, rfl, fun v hv => Res.noConfusion hv,
        fun v hv => Halt.noConfusion (Res.halt.inj hv)⟩
    · intro es s r s' C h hc hok hch
      injection h with h1 h2
      subst h1
      subst h2
      exact ⟨sExt_refl s, hok, rfl, rfl, fun vs hvs => Res.noConfusion hvs,
        fun v hv => Halt.noConfusion (Res.halt.inj hv)⟩
    · intro fv vs s r s' h hfv hargs hok
      injection h with h1 h2
      subst h1
      subst h2
      exact ⟨sExt_refl s, hok, rfl, rfl, fun v hv => Res.noConfusion hv,
        fun v hv => Halt.noConfusion (Res.halt.inj hv)⟩
    · intro st s r s' C C2 h hc hok hch
      injection h with h1 h2
      subst h1
      subst h2
      exact ⟨sExt_refl s, hok, rfl, rfl, fun hro => Res.noConfusion hro,
        fun v hv => Halt.noConfusion (Res.halt.inj hv)⟩
    · intro sts s r s' C C2 h hc hok hch
      injection h with h1 h2
      subst h1
      subst h2
      exact ⟨sExt_refl s, hok, rfl, rfl, fun hro => Res.noConfusion hro,
        fun v hv => Halt.noConfusion (Res.halt.inj hv)⟩
    · intro sts env s r s' Cb C2 h hc hok hch
      injection h with h1 h2
      subst h1
      subst h2
      exact ⟨sExt_refl s, hok, rfl, rfl,
        fun v hv => Halt.noConfusion (Res.halt.inj hv)⟩
  | succ f ih =>
    obtain ⟨ihE, ihA, ihC, ihS, ihL, ihB⟩ := ih
    refine ⟨?_, ?_, ?_, ?_, ?_, ?_⟩
    · -- evalExpr
      intro e s r s' C h hc hok hch
      cases hc with
      | lit v =>
        simp only [evalExpr] at h
        injection h with h1 h2
        subst h1
        subst h2
        exact ⟨sExt_refl s, hok, rfl, rfl,
          fun w hw => (Res.ok.inj hw) ▸ litToValue_good v,
          fun w hw => Res.noConfusion hw⟩
      | grouping e0 hce =>
        simp only [evalExpr] at h
        exact ihE e0 s r s' C h hce hok hch
      | unaryC op rgt hce =>
        simp only [evalExpr] at h
        split at h
        · rename_i v s1 heq
          obtain ⟨E1, E2, E3, E4, E5, E6⟩ := ihE rgt s _ _ C heq hce hok hch
          injection h with h1 h2
          subst h1
          subst h2
          refine ⟨E1, E2, E3, E4, ?_, ?_⟩
          · intro w hw
            exact unaryOp_good hw
          · intro w hw
            exact absurd hw (isRet_ne (unaryOp_not_ret op v) w)
        · rename_i hh s1 heq
          obtain ⟨E1, E2, E3, E4, E5, E6⟩ := ihE rgt s _ _ C heq hce hok hch
          injection h with h1 h2
          subst h1
          subst h2
          exact ⟨E1, E2, E3, E4, fun w hw => Res.noConfusion hw,
            fun w hw => E6 w hw⟩
      | binaryC l op rgt hcl hcr =>
        simp only [evalExpr] at h
        split at h
        · rename_i lv s1 heq1
          obtain ⟨E1, E2, E3, E4, E5, E6⟩ := ihE l s _ _ C heq1 hcl hok hch
          have hch1 : chainRealizes s1 s1.envRef C := by
            rw [E3]
            exact chainRealizes_mono E1 C s.envRef hch
          split at h
          · rename_i rv s2 heq2
            obtain ⟨F1, F2, F3, F4, F5, F6⟩ := ihE rgt s1 _ _ C heq2 hcr E2 hch1
            injection h with h1 h2
            subst h1
            subst h2
            refine ⟨sExt_trans E1 F1, F2, F3.trans E3, F4.trans E4, ?_, ?_⟩
            · intro w hw
              exact binaryOp_good hw
            · intro w hw
              exact absurd hw (isRet_ne (binaryOp_not_ret op lv rv) w)
          · rename_i hh s2 heq2
            obtain ⟨F1, F2, F3, F4, F5, F6⟩ := ihE rgt s1 _ _ C heq2 hcr E2 hch1
            injection h with h1 h2
            subst h1
            subst h2
            exact ⟨sExt_trans E1 F1, F2, F3.trans E3, F4.trans E4,
              fun w hw => Res.noConfusion hw, fun w hw => F6 w hw⟩
        · rename_i hh s1 heq1
          obtain ⟨E1, E2, E3, E4, E5, E6⟩ := ihE l s _ _ C heq1 hcl hok hch
          injection h with h1 h2
          subst h1
          subst h2
          exact ⟨E1, E2, E3, E4, fun w hw => Res.noConfusion hw,
            fun w hw => E6 w hw⟩
      | logicalC l op rgt hcl hcr =>
        simp only [evalExpr] at h
        split at h
        · rename_i lv s1 heq1
          obtain ⟨E1, E2, E3, E4, E5, E6⟩ := ihE l s _ _ C heq1 hcl hok hch
          have hch1 : chainRealizes s1 s1.envRef C := by
            rw [E3]
            exact chainRealizes_mono E1 C s.envRef hch
          split at h
          · split at h
            · injection h with h1 h2
              subst h1
              subst h2
              exact ⟨E1, E2, E3, E4, fun w hw => (Res.ok.inj hw) ▸ E5 lv rfl,
                fun w hw => Res.noConfusion hw⟩
            · obtain ⟨F1, F2, F3, F4, F5, F6⟩ := ihE rgt s1 r s' C h hcr E2 hch1
              exact ⟨sExt_trans E1 F1, F2, F3.trans E3, F4.trans E4, F5, F6⟩
          · split at h
            · split at h
              · injection h with h1 h2
                subst h1
                subst h2
                exact ⟨E1, E2, E3, E4, fun w hw => (Res.ok.inj hw) ▸ E5 lv rfl,
                  fun w hw => Res.noConfusion hw⟩
              · obtain ⟨F1, F2, F3, F4, F5, F6⟩ := ihE rgt s1 r s' C h hcr E2 hch1
                exact ⟨sExt_trans E1 F1, F2, F3.trans E3, F4.trans E4, F5, F6⟩
            · injection h with h1 h2
              subst h1
              subst h2
              exact ⟨E1, E2, E3, E4, fun w hw => Res.noConfusion hw,
                fun w hw => Halt.noConfusion (Res.halt.inj hw)⟩
        · rename_i hh s1 heq1
          obtain ⟨E1, E2, E3, E4, E5, E6⟩ := ihE l s _ _ C heq1 hcl hok hch
          injection h with h1 h2
          subst h1
          subst h2
          exact ⟨E1, E2, E3, E4, fun w hw => Res.noConfusion hw,
            fun w hw => E6 w hw⟩
      | varLocal name nid d sc hfind hd hg htbl =>
        simp only [evalExpr] at h
        have hloc : localsGet s.locals nid = some d := by
          rw [hok.1]
          exact htbl
        simp only [look_up_variable, hloc] at h
        obtain ⟨v, hv, a, fra, ha1, ha2⟩ :=
          chainRealizes_get_at C s.envRef d sc name.lexeme hch hd hg
        rw [hv] at h
        injection h with h1 h2
        subst h1
        subst h2
        exact ⟨sExt_refl s, hok, rfl, rfl,
          fun w hw => (Res.ok.inj hw) ▸ hok.2 a fra name.lexeme v ha1 ha2,
          fun w hw => Res.noConfusion hw⟩
      | varGlobal name nid hfind htbl =>
        simp only [evalExpr] at h
        have hloc : localsGet s.locals nid = none := by
          rw [hok.1]
          exact htbl
        simp only [look_up_variable, hloc] at h
        injection h with h1 h2
        subst h1
        subst h2
        refine ⟨sExt_refl s, hok, rfl, rfl, ?_, ?_⟩
        · intro w hw
          obtain ⟨i, fr, hif, hm⟩ := env_get_source _ s 0 name w hw
          exact hok.2 i fr name.lexeme w hif hm
        · intro w hw
          exact absurd hw (isRet_ne (env_get_not_ret _ s 0 name) w)
      | assignC name v0 nid hce =>
        simp only [evalExpr] at h
        split at h
        · rename_i val s1 heq1
          obtain ⟨E1, E2, E3, E4, E5, E6⟩ := ihE v0 s _ _ C heq1 hce hok hch
          split at h
          · rename_i d heqL
            split at h
            · rename_i u s2 heq2
              injection h with h1 h2
              subst h1
              subst h2
              have hsh1 := assign_at_shape s1 s1.envRef d name.lexeme val
              rw [heq2] at hsh1
              have hsh : s2 = s1 ∨ ∃ (i : Nat) (fr : Frame), s1.frames[i]? = some fr ∧ s2 = { s1 with frames := s1.frames.set i ({ fr with vars := mapSet fr.vars name.lexeme val }) } := hsh1
              rcases hsh with hsh | ⟨i, fr, hfr, hsh⟩
              · subst hsh
                exact ⟨E1, E2, E3, E4,
                  fun w hw => (Res.ok.inj hw) ▸ E5 val rfl,
                  fun w hw => Res.noConfusion hw⟩
              · have hx2 : sExt s1 s2 := by
                  rw [hsh]
                  exact setFrame_ext hfr name.lexeme val
                have hok2 : StateOK tbl s2 := by
                  rw [hsh]
                  exact ⟨E2.1, setFrame_heapGood hfr E2.2
                    (vGood_mono (setFrame_ext hfr name.lexeme val) (E5 val rfl))⟩
                refine ⟨sExt_trans E1 hx2, hok2, ?_, ?_,
                  fun w hw => (Res.ok.inj hw) ▸ vGood_mono hx2 (E5 val rfl),
                  fun w hw => Res.noConfusion hw⟩
                · rw [hsh]
                  exact E3
                · rw [hsh]
                  exact E4
            · rename_i hh s2 heq2
              injection h with h1 h2
              subst h1
              subst h2
              have hnr := assign_at_not_ret s1 s1.envRef d name.lexeme val
              rw [heq2] at hnr
              have hsh1 := assign_at_shape s1 s1.envRef d name.lexeme val
              rw [heq2] at hsh1
              have hsh : s2 = s1 ∨ ∃ (i : Nat) (fr : Frame), s1.frames[i]? = some fr ∧ s2 = { s1 with frames := s1.frames.set i ({ fr with vars := mapSet fr.vars name.lexeme val }) } := hsh1
              have hbase : sExt s1 s2 ∧ StateOK tbl s2 ∧ s2.envRef = s1.envRef ∧
                  s2.unbound_reads = s1.unbound_reads := by
                rcases hsh with hsh | ⟨i, fr, hfr, hsh⟩
                · subst hsh
                  exact ⟨sExt_refl _, E2, rfl, rfl⟩
                · refine ⟨by rw [hsh]; exact setFrame_ext hfr name.lexeme val,
                    ?_, by rw [hsh], by rw [hsh]⟩
                  rw [hsh]
                  exact ⟨E2.1, setFrame_heapGood hfr E2.2
                    (vGood_mono (setFrame_ext hfr name.lexeme val) (E5 val rfl))⟩
              obtain ⟨X1, X2, X3, X4⟩ := hbase
              refine ⟨sExt_trans E1 X1, X2, X3.trans E3, X4.trans E4,
                fun w hw => Res.noConfusion hw, ?_⟩
              intro w hw
              rw [Res.halt.inj hw] at hnr
              exact Bool.noConfusion hnr
          · rename_i heqL
            split at h
            · rename_i u s2 heq2
              injection h with h1 h2
              subst h1
              subst h2
              have hsh1 := env_assign_shape (s1.frames.length + 1) s1 0 name val
              rw [heq2] at hsh1
              have hsh : s2 = s1 ∨ ∃ (i : Nat) (fr : Frame), s1.frames[i]? = some fr ∧ s2 = { s1 with frames := s1.frames.set i ({ fr with vars := mapSet fr.vars name.lexeme val }) } := hsh1
              rcases hsh with hsh | ⟨i, fr, hfr, hsh⟩
              · subst hsh
                exact ⟨E1, E2, E3, E4,
                  fun w hw => (Res.ok.inj hw) ▸ E5 val rfl,
                  fun w hw => Res.noConfusion hw⟩
              · have hx2 : sExt s1 s2 := by
                  rw [hsh]
                  exact setFrame_ext hfr name.lexeme val
                have hok2 : StateOK tbl s2 := by
                  rw [hsh]
                  exact ⟨E2.1, setFrame_heapGood hfr E2.2
                    (vGood_mono (setFrame_ext hfr name.lexeme val) (E5 val rfl))⟩
                refine ⟨sExt_trans E1 hx2, hok2, ?_, ?_,
                  fun w hw => (Res.ok.inj hw) ▸ vGood_mono hx2 (E5 val rfl),
                  fun w hw => Res.noConfusion hw⟩
                · rw [hsh]
                  exact E3
                · rw [hsh]
                  exact E4
            · rename_i hh s2 heq2
              injection h with h1 h2
              subst h1
              subst h2
              have hnr := env_assign_not_ret (s1.frames.length + 1) s1 0 name val
              rw [heq2] at hnr
              have hsh1 := env_assign_shape (s1.frames.length + 1) s1 0 name val
              rw [heq2] at hsh1
              have hsh : s2 = s1 ∨ ∃ (i : Nat) (fr : Frame), s1.frames[i]? = some fr ∧ s2 = { s1 with frames := s1.frames.set i ({ fr with vars := mapSet fr.vars name.lexeme val }) } := hsh1
              have hbase : sExt s1 s2 ∧ StateOK tbl s2 ∧ s2.envRef = s1.envRef ∧
                  s2.unbound_reads = s1.unbound_reads := by
                rcases hsh with hsh | ⟨i, fr, hfr, hsh⟩
                · subst hsh
                  exact ⟨sExt_refl _, E2, rfl, rfl⟩
                · refine ⟨by rw [hsh]; exact setFrame_ext hfr name.lexeme val,
                    ?_, by rw [hsh], by rw [hsh]⟩
                  rw [hsh]
                  exact ⟨E2.1, setFrame_heapGood hfr E2.2
                    (vGood_mono (setFrame_ext hfr name.lexeme val) (E5 val rfl))⟩
              obtain ⟨X1, X2, X3, X4⟩ := hbase
              refine ⟨sExt_trans E1 X1, X2, X3.trans E3, X4.trans E4,
                fun w hw => Res.noConfusion hw, ?_⟩
              intro w hw
              rw [Res.halt.inj hw] at hnr
              exact Bool.noConfusion hnr
        · rename_i hh s1 heq1
          obtain ⟨E1, E2, E3, E4, E5, E6⟩ := ihE v0 s _ _ C heq1 hce hok hch
          injection h with h1 h2
          subst h1
          subst h2
          exact ⟨E1, E2, E3, E4, fun w hw => Res.noConfusion hw,
            fun w hw => E6 w hw⟩
      | callC c paren args hcc hcargs =>
        simp only [evalExpr] at h
        split at h
        · rename_i vs s1 heqA
          obtain ⟨A1, A2, A3, A4, A5, A6⟩ := ihA args s _ _ C heqA hcargs hok hch
          have hch1 : chainRealizes s1 s1.envRef C := by
            rw [A3]
            exact chainRealizes_mono A1 C s.envRef hch
          split at h
          · rename_i fv s2 heqC
            obtain ⟨E1, E2, E3, E4, E5, E6⟩ := ihE c s1 _ _ C heqC hcc A2 hch1
            split at h
            · injection h with h1 h2
              subst h1
              subst h2
              exact ⟨sExt_trans A1 E1, E2, E3.trans A3, E4.trans A4,
                fun w hw => Res.noConfusion hw,
                fun w hw => Halt.noConfusion (Res.halt.inj hw)⟩
            · rename_i n harty
              split at h
              · injection h with h1 h2
                subst h1
                subst h2
                exact ⟨sExt_trans A1 E1, E2, E3.trans A3, E4.trans A4,
                  fun w hw => Res.noConfusion hw,
                  fun w hw => Halt.noConfusion (Res.halt.inj hw)⟩
              · obtain ⟨G1, G2, G3, G4, G5, G6⟩ := ihC fv vs s2 r s' h
                  (E5 fv rfl)
                  (fun v hv => vGood_mono E1 (A5 vs rfl v hv)) E2
                exact ⟨sExt_trans (sExt_trans A1 E1) G1, G2,
                  G3.trans (E3.trans A3), G4.trans (E4.trans A4), G5, G6⟩
          · rename_i hh s2 heqC
            obtain ⟨E1, E2, E3, E4, E5, E6⟩ := ihE c s1 _ _ C heqC hcc A2 hch1
            injection h with h1 h2
            subst h1
            subst h2
            exact ⟨sExt_trans A1 E1, E2, E3.trans A3, E4.trans A4,
              fun w hw => Res.noConfusion hw, fun w hw => E6 w hw⟩
        · rename_i hh s1 heqA
          obtain ⟨A1, A2, A3, A4, A5, A6⟩ := ihA args s _ _ C heqA hcargs hok hch
          injection h with h1 h2
          subst h1
          subst h2
          exact ⟨A1, A2, A3, A4, fun w hw => Res.noConfusion hw,
            fun w hw => A6 w (by rw [Res.halt.inj hw])⟩
    · -- evalArgs
      intro es s r s' C h hc hok hch
      cases hc with
      | nil =>
        simp only [evalArgs] at h
        injection h with h1 h2
        subst h1
        subst h2
        refine ⟨sExt_refl s, hok, rfl, rfl, ?_, fun w hw => Res.noConfusion hw⟩
        intro ws hws u hu
        rw [← Res.ok.inj hws] at hu
        cases hu
      | consE e0 rest hce hcl =>
        simp only [evalArgs] at h
        split at h
        · rename_i v s1 heq1
          obtain ⟨E1, E2, E3, E4, E5, E6⟩ := ihE e0 s _ _ C heq1 hce hok hch
          have hch1 : chainRealizes s1 s1.envRef C := by
            rw [E3]
            exact chainRealizes_mono E1 C s.envRef hch
          split at h
          · rename_i vs2 s2 heq2
            obtain ⟨A1, A2, A3, A4, A5, A6⟩ := ihA rest s1 _ _ C heq2 hcl E2 hch1
            injection h with h1 h2
            subst h1
            subst h2
            refine ⟨sExt_trans E1 A1, A2, A3.trans E3, A4.trans E4, ?_,
              fun w hw => Res.noConfusion hw⟩
            intro ws hws u hu
            rw [← Res.ok.inj hws] at hu
            rcases List.mem_cons.mp hu with h3 | h3
            · rw [h3]
              exact vGood_mono A1 (E5 v rfl)
            · exact A5 vs2 rfl u h3
          · rename_i hh s2 heq2
            obtain ⟨A1, A2, A3, A4, A5, A6⟩ := ihA rest s1 _ _ C heq2 hcl E2 hch1
            injection h with h1 h2
            subst h1
            subst h2
            exact ⟨sExt_trans E1 A1, A2, A3.trans E3, A4.trans E4,
              fun ws hws => Res.noConfusion hws, fun w hw => A6 w hw⟩
        · rename_i hh s1 heq1
          obtain ⟨E1, E2, E3, E4, E5, E6⟩ := ihE e0 s _ _ C heq1 hce hok hch
          injection h with h1 h2
          subst h1
          subst h2
          exact ⟨E1, E2, E3, E4, fun ws hws => Res.noConfusion hws,
            fun w hw => E6 w (by rw [Res.halt.inj hw])⟩
    · -- callValue
      intro fv vs s r s' h hfv hargs hok
      cases fv with
      | clock =>
        simp only [callValue] at h
        injection h with h1 h2
        subst h1
        subst h2
        refine ⟨sExt_refl s, hok, rfl, rfl, ?_, fun w hw => Res.noConfusion hw⟩
        intro w hw
        rw [← Res.ok.inj hw]
        trivial
      | func lf =>
        have hfv2 : lf.is_initializer = false ∧
            ∃ C1, chainRealizes s lf.closure C1 ∧ FCert tbl C1 lf.func := hfv
        obtain ⟨hinit, C0, hchain, hFC0⟩ := hfv2
        have hFC1 : ∃ scX, SCertList tbl (paramScope lf.func.params [] :: C0)
            lf.func.body (scX :: C0) := hFC0
        obtain ⟨scX, hFC⟩ := hFC1
        simp only [callValue] at h
        have hx1 : sExt s
            { s with frames := s.frames ++ [(⟨[], some lf.closure⟩ : Frame)] } :=
          append_ext s _
        have hok1 : StateOK tbl
            { s with frames := s.frames ++ [(⟨[], some lf.closure⟩ : Frame)] } :=
          append_stateOK hok _
        have hch1 : chainRealizes
            { s with frames := s.frames ++ [(⟨[], some lf.closure⟩ : Frame)] }
            s.frames.length ([] :: C0) := by
          refine ⟨⟨[], some lf.closure⟩, append_frame_at s _, ?_, ?_⟩
          · intro m hm
            exact Option.noConfusion hm
          · cases C0 with
            | nil => trivial
            | cons sc0 rest0 =>
              exact ⟨lf.closure, rfl, chainRealizes_mono hx1 _ _ hchain⟩
        obtain ⟨d1, d2, d3, d4, d5⟩ := defineParams_ok lf.func.params vs
          s.frames.length
          { s with frames := s.frames ++ [(⟨[], some lf.closure⟩ : Frame)] }
          [] C0 hok1 (fun v hv => vGood_mono hx1 (hargs v hv)) hch1
        split at h
        · rename_i u s3 heqB
          obtain ⟨B1, B2, B3, B4, B6⟩ := ihB lf.func.body s.frames.length _ _ _
            (paramScope lf.func.params [] :: C0) (scX :: C0) heqB hFC d2 d5
          rw [if_neg (by rw [hinit]; exact Bool.false_ne_true)] at h
          injection h with h1 h2
          subst h1
          subst h2
          refine ⟨sExt_trans hx1 (sExt_trans d1 B1), B2, by rw [B3, d3],
            by rw [B4, d4], ?_, fun w hw => Res.noConfusion hw⟩
          intro w hw
          rw [← Res.ok.inj hw]
          trivial
        · rename_i v s3 heqB
          obtain ⟨B1, B2, B3, B4, B6⟩ := ihB lf.func.body s.frames.length _ _ _
            (paramScope lf.func.params [] :: C0) (scX :: C0) heqB hFC d2 d5
          rw [if_neg (by rw [hinit]; exact Bool.false_ne_true)] at h
          injection h with h1 h2
          subst h1
          subst h2
          refine ⟨sExt_trans hx1 (sExt_trans d1 B1), B2, by rw [B3, d3],
            by rw [B4, d4], ?_, fun w hw => Res.noConfusion hw⟩
          intro w hw
          rw [← Res.ok.inj hw]
          exact B6 v rfl
        · rename_i heqB
          obtain ⟨B1, B2, B3, B4, B6⟩ := ihB lf.func.body s.frames.length _ _ _
            (paramScope lf.func.params [] :: C0) (scX :: C0) heqB hFC d2 d5
          injection h with h1 h2
          subst h1
          subst h2
          exact ⟨sExt_trans hx1 (sExt_trans d1 B1), B2, by rw [B3, d3],
            by rw [B4, d4], fun w hw => Res.noConfusion hw,
            fun w hw => B6 w (by rw [Res.halt.inj hw])⟩
      | klass c => exact False.elim hfv
      | inst iid => exact False.elim hfv
      | nil =>
        simp only [callValue] at h
        injection h with h1 h2
        subst h1
        subst h2
        exact ⟨sExt_refl s, hok, rfl, rfl, fun w hw => Res.noConfusion hw,
          fun w hw => Halt.noConfusion (Res.halt.inj hw)⟩
      | boolean b =>
        simp only [callValue] at h
        injection h with h1 h2
        subst h1
        subst h2
        exact ⟨sExt_refl s, hok, rfl, rfl, fun w hw => Res.noConfusion hw,
          fun w hw => Halt.noConfusion (Res.halt.inj hw)⟩
      | num q =>
        simp only [callValue] at h
        injection h with h1 h2
        subst h1
        subst h2
        exact ⟨sExt_refl s, hok, rfl, rfl, fun w hw => Res.noConfusion hw,
          fun w hw => Halt.noConfusion (Res.halt.inj hw)⟩
      | str t =>
        simp only [callValue] at h
        injection h with h1 h2
        subst h1
        subst h2
        exact ⟨sExt_refl s, hok, rfl, rfl, fun w hw => Res.noConfusion hw,
          fun w hw => Halt.noConfusion (Res.halt.inj hw)⟩
      | undef =>
        simp only [callValue] at h
        injection h with h1 h2
        subst h1
        subst h2
        exact ⟨sExt_refl s, hok, rfl, rfl, fun w hw => Res.noConfusion hw,
          fun w hw => Halt.noConfusion (Res.halt.inj hw)⟩
    · -- execStmt
      intro st s r s' C C2 h hc hok hch
      cases hc with
      | exprS C e hce =>
        simp only [execStmt] at h
        split at h
        · rename_i v s1 heq
          obtain ⟨E1, E2, E3, E4, E5, E6⟩ := ihE e s _ _ C heq hce hok hch
          injection h with h1 h2
          subst h1
          subst h2
          refine ⟨E1, E2, E3, E4, ?_, fun w hw => Res.noConfusion hw⟩
          intro _
          rw [E3]
          exact chainRealizes_mono E1 C s.envRef hch
        · rename_i hh s1 heq
          obtain ⟨E1, E2, E3, E4, E5, E6⟩ := ihE e s _ _ C heq hce hok hch
          injection h with h1 h2
          subst h1
          subst h2
          exact ⟨E1, E2, E3, E4, fun hro => Res.noConfusion hro,
            fun w hw => E6 w (by rw [Res.halt.inj hw])⟩
      | printS C e hce =>
        simp only [execStmt] at h
        split at h
        · rename_i v s1 heq
          obtain ⟨E1, E2, E3, E4, E5, E6⟩ := ihE e s _ _ C heq hce hok hch
          injection h with h1 h2
          subst h1
          subst h2
          have hx2 : sExt s1
              { s1 with console := s1.console ++ [ConsoleEntry.val v] } :=
            sExt_of_eq rfl rfl
          refine ⟨sExt_trans E1 hx2, stateOK_console E2 _, E3, E4, ?_,
            fun w hw => Res.noConfusion hw⟩
          intro _
          have hch1 : chainRealizes s1 s1.envRef C := by
            rw [E3]
            exact chainRealizes_mono E1 C s.envRef hch
          exact chainRealizes_mono hx2 C s1.envRef hch1
        · rename_i hh s1 heq
          obtain ⟨E1, E2, E3, E4, E5, E6⟩ := ihE e s _ _ C heq hce hok hch
          injection h with h1 h2
          subst h1
          subst h2
          exact ⟨E1, E2, E3, E4, fun hro => Res.noConfusion hro,
            fun w hw => E6 w (by rw [Res.halt.inj hw])⟩
      | varNone C name =>
        simp only [execStmt] at h
        injection h with h1 h2
        subst h1
        subst h2
        obtain ⟨f1, f2, f3⟩ := defineVar_fields s s.envRef name.lexeme .nil
        refine ⟨defineVar_ext s s.envRef name.lexeme .nil,
          defineVar_stateOK hok trivial, f1, f2, ?_,
          fun w hw => Res.noConfusion hw⟩
        intro _
        rw [f1]
        exact chainRealizes_defineVar name.lexeme .nil hch
      | varSome C name e hce =>
        simp only [execStmt] at h
        split at h
        · rename_i v s1 heq
          obtain ⟨E1, E2, E3, E4, E5, E6⟩ := ihE e s _ _
            (scDeclare C name.lexeme) heq hce hok
            (chainRealizes_scDeclare name.lexeme hch)
          injection h with h1 h2
          subst h1
          subst h2
          have hch1 : chainRealizes s1 s1.envRef C := by
            rw [E3]
            exact chainRealizes_mono E1 C s.envRef hch
          obtain ⟨f1, f2, f3⟩ := defineVar_fields s1 s1.envRef name.lexeme v
          refine ⟨sExt_trans E1 (defineVar_ext s1 s1.envRef name.lexeme v),
            defineVar_stateOK E2
              (vGood_mono (defineVar_ext s1 s1.envRef name.lexeme v) (E5 v rfl)),
            by rw [f1, E3], by rw [f2, E4], ?_,
            fun w hw => Res.noConfusion hw⟩
          intro _
          rw [f1]
          exact chainRealizes_defineVar name.lexeme v hch1
        · rename_i hh s1 heq
          obtain ⟨E1, E2, E3, E4, E5, E6⟩ := ihE e s _ _
            (scDeclare C name.lexeme) heq hce hok
            (chainRealizes_scDeclare name.lexeme hch)
          injection h with h1 h2
          subst h1
          subst h2
          exact ⟨E1, E2, E3, E4, fun hro => Res.noConfusion hro,
            fun w hw => E6 w (by rw [Res.halt.inj hw])⟩
      | blockS C sts sc2 hcl =>
        simp only [execStmt] at h
        have hx1 : sExt s
            { s with frames := s.frames ++ [(⟨[], some s.envRef⟩ : Frame)] } :=
          append_ext s _
        have hch1 : chainRealizes
            { s with frames := s.frames ++ [(⟨[], some s.envRef⟩ : Frame)] }
            s.frames.length ([] :: C) := by
          refine ⟨⟨[], some s.envRef⟩, append_frame_at s _, ?_, ?_⟩
          · intro m hm
            exact Option.noConfusion hm
          · cases C with
            | nil => trivial
            | cons sc0 rest0 =>
              exact ⟨s.envRef, rfl, chainRealizes_mono hx1 _ _ hch⟩
        obtain ⟨B1, B2, B3, B4, B6⟩ := ihB sts s.frames.length _ r s'
          ([] :: C) (sc2 :: C) h hcl (append_stateOK hok _) hch1
        have henv : s'.envRef = s.envRef := by rw [B3]
        refine ⟨sExt_trans hx1 B1, B2, henv, by rw [B4], ?_, B6⟩
        intro _
        rw [henv]
        exact chainRealizes_mono (sExt_trans hx1 B1) C s.envRef hch
      | ifNone C c t hcc hct =>
        simp only [execStmt] at h
        split at h
        · rename_i cv s1 heq1
          obtain ⟨E1, E2, E3, E4, E5, E6⟩ := ihE c s _ _ C heq1 hcc hok hch
          have hch1 : chainRealizes s1 s1.envRef C := by
            rw [E3]
            exact chainRealizes_mono E1 C s.envRef hch
          split at h
          · obtain ⟨S1, S2, S3, S4, S5, S6⟩ := ihS t s1 r s' C C h hct E2 hch1
            exact ⟨sExt_trans E1 S1, S2, S3.trans E3, S4.trans E4, S5, S6⟩
          · injection h with h1 h2
            subst h1
            subst h2
            exact ⟨E1, E2, E3, E4, fun _ => hch1, fun w hw => Res.noConfusion hw⟩
        · rename_i hh s1 heq1
          obtain ⟨E1, E2, E3, E4, E5, E6⟩ := ihE c s _ _ C heq1 hcc hok hch
          injection h with h1 h2
          subst h1
          subst h2
          exact ⟨E1, E2, E3, E4, fun hro => Res.noConfusion hro,
            fun w hw => E6 w (by rw [Res.halt.inj hw])⟩
      | ifSome C c t e hcc hct hce2 =>
        simp only [execStmt] at h
        split at h
        · rename_i cv s1 heq1
          obtain ⟨E1, E2, E3, E4, E5, E6⟩ := ihE c s _ _ C heq1 hcc hok hch
          have hch1 : chainRealizes s1 s1.envRef C := by
            rw [E3]
            exact chainRealizes_mono E1 C s.envRef hch
          split at h
          · obtain ⟨S1, S2, S3, S4, S5, S6⟩ := ihS t s1 r s' C C h hct E2 hch1
            exact ⟨sExt_trans E1 S1, S2, S3.trans E3, S4.trans E4, S5, S6⟩
          · obtain ⟨S1, S2, S3, S4, S5, S6⟩ := ihS e s1 r s' C C h hce2 E2 hch1
            exact ⟨sExt_trans E1 S1, S2, S3.trans E3, S4.trans E4, S5, S6⟩
        · rename_i hh s1 heq1
          obtain ⟨E1, E2, E3, E4, E5, E6⟩ := ihE c s _ _ C heq1 hcc hok hch
          injection h with h1 h2
          subst h1
          subst h2
          exact ⟨E1, E2, E3, E4, fun hro => Res.noConfusion hro,
            fun w hw => E6 w (by rw [Res.halt.inj hw])⟩
      | whileC C c b hcc hcb =>
        simp only [execStmt] at h
        split at h
        · rename_i cv s1 heq1
          obtain ⟨E1, E2, E3, E4, E5, E6⟩ := ihE c s _ _ C heq1 hcc hok hch
          have hch1 : chainRealizes s1 s1.envRef C := by
            rw [E3]
            exact chainRealizes_mono E1 C s.envRef hch
          split at h
          · split at h
            · rename_i u s2 heq2
              obtain ⟨S1, S2, S3, S4, S5, S6⟩ := ihS b s1 _ _ C C heq2 hcb E2 hch1
              obtain ⟨W1, W2, W3, W4, W5, W6⟩ := ihS (.whileS c b) s2 r s' C C h
                (SCert.whileC C c b hcc hcb) S2 (S5 rfl)
              exact ⟨sExt_trans E1 (sExt_trans S1 W1), W2,
                W3.trans (S3.trans E3), W4.trans (S4.trans E4), W5, W6⟩
            · rename_i hh s2 heq2
              obtain ⟨S1, S2, S3, S4, S5, S6⟩ := ihS b s1 _ _ C C heq2 hcb E2 hch1
              injection h with h1 h2
              subst h1
              subst h2
              exact ⟨sExt_trans E1 S1, S2, S3.trans E3, S4.trans E4,
                fun hro => Res.noConfusion hro, fun w hw => S6 w hw⟩
          · injection h with h1 h2
            subst h1
            subst h2
            exact ⟨E1, E2, E3, E4, fun _ => hch1, fun w hw => Res.noConfusion hw⟩
        · rename_i hh s1 heq1
          obtain ⟨E1, E2, E3, E4, E5, E6⟩ := ihE c s _ _ C heq1 hcc hok hch
          injection h with h1 h2
          subst h1
          subst h2
          exact ⟨E1, E2, E3, E4, fun hro => Res.noConfusion hro,
            fun w hw => E6 w (by rw [Res.halt.inj hw])⟩
      | funcS C n ps body scX hcl =>
        simp only [execStmt, FunctionStmt.name] at h
        injection h with h1 h2
        subst h1
        subst h2
        have hch1 := chainRealizes_defineVar n.lexeme
          (Value.func ⟨FunctionStmt.mk n ps body, s.envRef, false⟩) hch
        have hgood : vGoodVal tbl
            (s.defineVar s.envRef n.lexeme
              (Value.func ⟨FunctionStmt.mk n ps body, s.envRef, false⟩))
            (Value.func ⟨FunctionStmt.mk n ps body, s.envRef, false⟩) :=
          ⟨rfl, scDefine C n.lexeme, hch1, scX, hcl⟩
        obtain ⟨f1, f2, f3⟩ := defineVar_fields s s.envRef n.lexeme
          (Value.func ⟨FunctionStmt.mk n ps body, s.envRef, false⟩)
        refine ⟨defineVar_ext s s.envRef n.lexeme _,
          defineVar_stateOK hok hgood, f1, f2, ?_,
          fun w hw => Res.noConfusion hw⟩
        intro _
        rw [f1]
        exact hch1
      | retNone C k =>
        simp only [execStmt] at h
        injection h with h1 h2
        subst h1
        subst h2
        refine ⟨sExt_refl s, hok, rfl, rfl, fun hro => Res.noConfusion hro, ?_⟩
        intro w hw
        rw [← Halt.ret.inj (Res.halt.inj hw)]
        trivial
      | retSome C k v hce =>
        simp only [execStmt] at h
        split at h
        · rename_i v1 s1 heq
          obtain ⟨E1, E2, E3, E4, E5, E6⟩ := ihE v s _ _ C heq hce hok hch
          injection h with h1 h2
          subst h1
          subst h2
          refine ⟨E1, E2, E3, E4, fun hro => Res.noConfusion hro, ?_⟩
          intro w hw
          rw [← Halt.ret.inj (Res.halt.inj hw)]
          exact E5 v1 rfl
        · rename_i hh s1 heq
          obtain ⟨E1, E2, E3, E4, E5, E6⟩ := ihE v s _ _ C heq hce hok hch
          injection h with h1 h2
          subst h1
          subst h2
          exact ⟨E1, E2, E3, E4, fun hro => Res.noConfusion hro,
            fun w hw => E6 w (by rw [Res.halt.inj hw])⟩
    · -- execStmts
      intro sts s r s' C C2 h hc hok hch
      cases hc with
      | nil =>
        simp only [execStmts] at h
        injection h with h1 h2
        subst h1
        subst h2
        exact ⟨sExt_refl s, hok, rfl, rfl, fun _ => hch,
          fun w hw => Res.noConfusion hw⟩
      | consS C st0 C1 rest0 C2 hcs hcl =>
        simp only [execStmts] at h
        split at h
        · rename_i u s1 heq1
          obtain ⟨S1, S2, S3, S4, S5, S6⟩ := ihS _ s _ _ C C1 heq1 hcs hok hch
          obtain ⟨L1, L2, L3, L4, L5, L6⟩ := ihL _ s1 r s' C1 C2 h hcl S2 (S5 rfl)
          exact ⟨sExt_trans S1 L1, L2, L3.trans S3, L4.trans S4, L5, L6⟩
        · rename_i hh s1 heq1
          obtain ⟨S1, S2, S3, S4, S5, S6⟩ := ihS _ s _ _ C C1 heq1 hcs hok hch
          injection h with h1 h2
          subst h1
          subst h2
          exact ⟨S1, S2, S3, S4, fun hro => Res.noConfusion hro,
            fun w hw => S6 w hw⟩
    · -- execute_block
      intro sts env s r s' Cb C2 h hc hok hch
      cases hE2 : execStmts f sts { s with envRef := env } with
      | mk r0 s1 =>
        simp only [execute_block, hE2] at h
        injection h with h1 h2
        subst h1
        subst h2
        obtain ⟨L1, L2, L3, L4, L5, L6⟩ := ihL sts { s with envRef := env } r0 s1
          Cb C2 hE2 hc (stateOK_env hok env)
          (chainRealizes_mono (sExt_env s env) Cb env hch)
        refine ⟨?_, stateOK_env L2 s.envRef, rfl, L4, ?_⟩
        · exact sExt_trans (sExt_env s env)
            (sExt_trans L1 (sExt_env s1 s.envRef))
        · intro w hw
          exact vGood_mono (sExt_env s1 s.envRef) (L6 w hw)

/-- Token list of the source `var a = 1; print a;` wrapped in a block
(scanned by hand; the scanner is exercised by other witnesses). -/
def c3Toks : List Token :=
  [⟨.LEFT_BRACE, "\x7b", .null, 1⟩, ⟨.VAR, "var", .null, 1⟩,
   ⟨.IDENTIFIER, "a", .null, 1⟩, ⟨.EQUAL, "=", .null, 1⟩,
   ⟨.NUMBER, "1", .num 1, 1⟩, ⟨.SEMICOLON, ";", .null, 1⟩,
   ⟨.PRINT, "print", .null, 1⟩, ⟨.IDENTIFIER, "a", .null, 1⟩,
   ⟨.SEMICOLON, ";", .null, 1⟩, ⟨.RIGHT_BRACE, "\x7d", .null, 1⟩,
   ⟨.EOF, "", .null, 1⟩]

/-- The statement list the parser produces for c3Toks: a block declaring
`a` and printing the VarExpr with node id 0. -/
def c3Stmts : List Stmt :=
  [.block [.varD ⟨.IDENTIFIER, "a", .null, 1⟩ (some (.literal (.num 1))),
    .print (.varE ⟨.IDENTIFIER, "a", .null, 1⟩ 0)]]

/-- C3: for every variable reference the resolver recorded a distance
for, evaluation calls env.get_at at that distance at the reference site
and finds a value bound in the selected scope's frame.  Formally: over
any program that parses and resolves without error, a full interpreter
run keeps the ghost unbound-read counter - which ticks whenever get_at
misses its frame or finds the name unbound - at zero, so evaluation
never reads an unbound local. -/
theorem resolved_references_read_bound_values
    (fp fr fe : Nat) (toks : List Token) (stmts : List Stmt)
    (tbl : List (Nat × Nat)) (console0 : List ConsoleEntry)
    (hp : parseProgram fp toks = .ok stmts)
    (hr : resolveProgram fr stmts = .ok tbl) :
    ((interpret fe stmts (initState console0 tbl)).2).unbound_reads = 0 := by
  have hnodup := parseProgram_ids_nodup hp
  have hshape := parseProgram_shaped hp
  unfold resolveProgram at hr
  split at hr
  · exact Except.noConfusion hr
  · rename_i r1 heqR
    injection hr with hr1
    have R := (resolver_cert_stmt fr).2.1 stmts ⟨[], [], .NONE⟩ r1 heqR
      AllTrue_nil hshape (fun k _ => rfl) hnodup
    obtain ⟨Rcons, Rnil, RT, Rpres, Rcert⟩ := R
    have hscopes : r1.scopes = [] := Rnil rfl
    have hcert := Rcert r1.table (Agrees_refl _ _)
    rw [hscopes] at hcert
    rw [← hr1]
    cases hEx : execStmts fe stmts (initState console0 r1.table) with
    | mk res s1 =>
      obtain ⟨L1, L2, L3, L4, L5, L6⟩ := (runtime_ok r1.table fe).2.2.2.2.1 stmts
        (initState console0 r1.table) res s1 [] [] hEx hcert
        (initState_stateOK console0 r1.table) True.intro
      have hub : s1.unbound_reads = 0 := L4
      cases res with
      | ok u =>
        simp only [interpret, hEx]
        exact hub
      | halt hh =>
        cases hh with
        | ret v =>
          simp only [interpret, hEx]
          exact hub
        | err tok msg =>
          simp only [interpret, hEx]
          exact hub
        | crash msg =>
          simp only [interpret, hEx]
          exact hub
        | timeout =>
          simp only [interpret, hEx]
          exact hub

/-- A concrete run of the agreement theorem: the block program declaring
`a` and printing it parses to c3Stmts, resolves to the one-entry side
table, and interpreting it performs no unbound read. -/
theorem resolved_references_read_bound_values_witness :
    parseProgram 30 c3Toks = .ok c3Stmts ∧
    resolveProgram 30 c3Stmts = .ok [(0, 0)] ∧
    ((interpret 30 c3Stmts (initState [] [(0, 0)])).2).unbound_reads = 0 :=
  ⟨rfl, rfl, resolved_references_read_bound_values 30 30 30 c3Toks c3Stmts
    [(0, 0)] [] rfl rfl⟩

end Typelox
